import Mathlib

/-! The repository index of helm-oss and its mutations.

A shallow embedding of `internal/helmutil/index.go` (type `Index`, methods `Add`,
`AddOrReplace`, `Delete`, `Has`, `SortEntries`), of `internal/oss/storage.go` (the scan
`traverse`, the object attributes, and the methods the workflows call) and of the
workflows `push`, `delete` and `reindex` of `cmd/helm-oss`, followed by theorems about
them.

Conventions of the embedding:

* a Go method that mutates its receiver and returns an error becomes a function that
  returns the receiver after the call together with `Option Error` (`none` is `nil`);
  the methods that assign to the map return an `Outcome`, which tells in addition
  whether the call has ended in a panic;
* the Go map `Entries` becomes a function `String → Option ChartVersions`
  (`none`: key absent) together with the flag `nilEntries` of a nil map; an assignment
  `m[k] = v` to an allocated map becomes `Function.update`, to a nil map it is a panic;
* `time.Now()` becomes an explicit argument `now`;
* what the code calls in its libraries (semantic-version parsing, chart validation,
  URL joining) is collected in the structure `Lib`; the theorems hold for every `Lib`,
  and `helmLib` is a concrete one used to evaluate the code on inputs;
* the standard library, the client of the store, the chart functions and the local
  machine are the structures `Std`, `Client`, `Charts` and `Local`; a method that talks
  to the store returns the list of requests it has issued next to its result;
* the loop over the pages of a listing takes a bound `fuel` on the number of pages.
-/

namespace HelmOss

/-! ## github.com/Masterminds/semver/v3: versions and their comparison

The index code imports this library; its source is not part of the repository. The
definitions of this section follow the library: the struct `Version`, its comparison, and
the loose parser `NewVersion` with the pattern of release 3.1. The theorems take the
parser as a parameter (`Lib.NewVersion`) and so do not depend on the pattern. -/

namespace semver

/-- The struct `semver.Version`. -/
structure Version where
  major : Nat
  minor : Nat
  patch : Nat
  pre : String
  metadata : String
  original : String
deriving DecidableEq, Repr

/-- The function `compareSegment`. -/
def compareSegment (v o : Nat) : Int :=
  if v < o then -1 else if v > o then 1 else 0

/-- Value of a string of decimal digits, most significant first. -/
def digitsValue : List Char → Nat → Nat
  | [], acc => acc
  | c :: cs, acc => digitsValue cs (10 * acc + (c.toNat - '0'.toNat))

/-- The call `strconv.ParseUint(s, 10, 64)`: `none` stands for its error (empty string,
a character that is not a digit, or a value that does not fit 64 bits). -/
def ParseUint (s : List Char) : Option Nat :=
  if s = [] then none
  else if s.all Char.isDigit then
    (if digitsValue s 0 < 2 ^ 64 then some (digitsValue s 0) else none)
  else none

/-- The call `strings.Split(s, sep)` for a one-character separator, on the characters
of `s`: `cur` holds the characters of the current piece in reverse. -/
def splitAux (sep : Char) : List Char → List Char → List (List Char)
  | [], cur => [cur.reverse]
  | c :: cs, cur =>
    if c = sep then cur.reverse :: splitAux sep cs [] else splitAux sep cs (c :: cur)

/-- The call `strings.Split(s, ".")`. -/
def splitDot (s : List Char) : List (List Char) := splitAux '.' s []

/-- The function `comparePrePart`. -/
def comparePrePart (s o : List Char) : Int :=
  if s = o then 0
  else if s = [] then (if o ≠ [] then -1 else 1)
  else if o = [] then (if s ≠ [] then 1 else -1)
  else
    match ParseUint o, ParseUint s with
    | none, none => if o < s then 1 else -1
    | none, some _ => -1
    | some _, none => 1
    | some oi, some si => if si > oi then 1 else -1

/-- The loop of `comparePrerelease` over the parts of both prereleases: a part missing
on one side is compared as the empty string. -/
def comparePrereleaseParts : List (List Char) → List (List Char) → Int
  | [], [] => 0
  | s :: ss, [] =>
    if comparePrePart s [] ≠ 0 then comparePrePart s [] else comparePrereleaseParts ss []
  | [], o :: os =>
    if comparePrePart [] o ≠ 0 then comparePrePart [] o else comparePrereleaseParts [] os
  | s :: ss, o :: os =>
    if comparePrePart s o ≠ 0 then comparePrePart s o else comparePrereleaseParts ss os

/-- The function `comparePrerelease`. -/
def comparePrerelease (v o : String) : Int :=
  comparePrereleaseParts (splitDot v.toList) (splitDot o.toList)

/-- The method `Version.Compare`: -1, 0 or 1; build metadata is ignored. -/
def Version.Compare (v o : Version) : Int :=
  if compareSegment v.major o.major ≠ 0 then compareSegment v.major o.major
  else if compareSegment v.minor o.minor ≠ 0 then compareSegment v.minor o.minor
  else if compareSegment v.patch o.patch ≠ 0 then compareSegment v.patch o.patch
  else if v.pre = "" ∧ o.pre = "" then 0
  else if v.pre = "" then 1
  else if o.pre = "" then -1
  else comparePrerelease v.pre o.pre

/-- The method `Version.Equal`. -/
def Version.Equal (v o : Version) : Bool :=
  v.Compare o == 0

/-- The parts of a prerelease without its trailing empty parts: two prereleases compare
as equal exactly when these lists are the same. -/
def trimParts : List (List Char) → List (List Char)
  | [] => []
  | p :: ps => if p = [] ∧ trimParts ps = [] then [] else p :: trimParts ps

/-- What `Equal` compares: the three numbers and, for a version with a prerelease, the
parts of the prerelease. -/
def Version.key (v : Version) : Nat × Nat × Nat × Option (List (List Char)) :=
  (v.major, v.minor, v.patch,
    if v.pre = "" then none else some (trimParts (splitDot v.pre.toList)))

/-- The characters a prerelease or metadata part may consist of. -/
def allowedChar (c : Char) : Bool :=
  c.isAlphanum || c = '-'

/-- A dot-separated list of non-empty parts over the allowed characters. -/
def validParts (s : List Char) : Bool :=
  (splitDot s).all fun p => p ≠ [] && p.all allowedChar

/-- The function `validatePrerelease`, called for a non-empty prerelease: a numeric
part must not start with a zero. -/
def validatePrerelease (s : List Char) : Bool :=
  (splitDot s).all fun p =>
    if p.all Char.isDigit then !(p.length > 1 && p.head? = some '0') else p.all allowedChar

/-- Reads the optional `.N` that follows the first number of a version: the number
(0 when absent) and the rest of the input; `none` when a dot is not followed by a
digit, or the number does not fit 64 bits. -/
def readDotNumber (s : List Char) : Option (Nat × List Char) :=
  match s with
  | '.' :: rest =>
    match ParseUint (rest.takeWhile Char.isDigit) with
    | some n => some (n, rest.dropWhile Char.isDigit)
    | none => none
  | _ => some (0, s)

/-- Reads the optional part introduced by the character `mark` (`-` for the
prerelease, `+` for the metadata) up to the next `+` or the end of the input. -/
def readTagged (mark : Char) (s : List Char) : Option (List Char × List Char) :=
  match s with
  | [] => some ([], [])
  | c :: rest =>
    if c = mark then
      (if validParts (rest.takeWhile (· ≠ '+')) then
        some (rest.takeWhile (· ≠ '+'), rest.dropWhile (· ≠ '+'))
      else none)
    else some ([], s)

/-- The function `semver.NewVersion`, the loose parser: an optional `v`, one to three
dot-separated numbers, an optional `-prerelease` and an optional `+metadata`, and
nothing else. `none` stands for its error. -/
def NewVersion (v : String) : Option Version :=
  let s := match v.toList with
    | 'v' :: rest => rest
    | l => l
  match ParseUint (s.takeWhile Char.isDigit) with
  | none => none
  | some major =>
    match readDotNumber (s.dropWhile Char.isDigit) with
    | none => none
    | some (minor, s2) =>
      match readDotNumber s2 with
      | none => none
      | some (patch, s3) =>
        match readTagged '-' s3 with
        | none => none
        | some (pre, s4) =>
          match readTagged '+' s4 with
          | none => none
          | some (metadata, s5) =>
            if s5 = [] ∧ (pre = [] ∨ validatePrerelease pre) then
              some { major := major, minor := minor, patch := patch,
                     pre := String.mk pre, metadata := String.mk metadata, original := v }
            else none

end semver

/-! ## helm.sh/helm/v3: chart metadata and index entries

The types of `helm.sh/helm/v3/pkg/chart` and `helm.sh/helm/v3/pkg/repo` that
`internal/helmutil/index.go` wraps. Pointers to metadata and to entries are never nil in
this model, as in an index that was decoded from a document or built by these methods. -/

/-- The struct `chart.Metadata`: the three fields the index code reads, and the
remaining fields (description, keywords, dependencies, ...) carried as one value. -/
structure Metadata where
  Name : String
  Version : String
  APIVersion : String
  rest : String
deriving DecidableEq, Repr

/-- The struct `repo.ChartVersion`: it embeds `*chart.Metadata`. -/
structure ChartVersion where
  URLs : List String
  Metadata : Metadata
  Digest : String
  Created : Nat
deriving DecidableEq, Repr

/-- The promoted field `Version` of the embedded metadata. -/
def ChartVersion.Version (cv : ChartVersion) : String := cv.Metadata.Version

/-- The type `repo.ChartVersions`, a slice of chart versions. -/
abbrev ChartVersions := List ChartVersion

/-- The struct `repo.IndexFile`. `Entries` is what a read of the map under a key gives.
`nilEntries` tells that the map is the nil map, which is what `yaml.Unmarshal` leaves in
a new `repo.IndexFile` when the document has no `entries`: a read of the nil map finds
no key, so that `Entries` is `none` throughout, and an assignment to one of its entries
panics. The map that `repo.NewIndexFile` creates is allocated. -/
structure IndexFile where
  Entries : String → Option ChartVersions
  Generated : Nat
  nilEntries : Bool

/-- The struct `Index` of `internal/helmutil/index.go`. -/
structure Index where
  index : IndexFile

/-- A Go value of type `interface{}` handed over as `metadata`: either a
`*chart.Metadata` or a value of another dynamic type. -/
inductive Value where
  | chartMetadata (md : Metadata)
  | other
deriving DecidableEq, Repr

/-- The errors the index methods return. -/
inductive Error where
  /-- the error `errors.New("metadata is not *chart.Metadata")` -/
  | notChartMetadata
  /-- the error returned by `semver.NewVersion` for the given string -/
  | invalidSemVer (version : String)
  /-- the error `fmt.Errorf("chart %s version %s not found in index", name, version)` -/
  | notFound (name version : String)
  /-- the error `errors.Wrapf(err, "validate failed for %s", filename)` of `MustAdd` -/
  | validateFailed (filename : String)
  /-- the error `fmt.Errorf("add file to the index: %v", err)` of `Add` -/
  | addFile (err : Error)
  /-- the error `repo.ErrNoChartName` of `Get` -/
  | noChartName
  /-- the error `repo.ErrNoChartVersion` of `Get` -/
  | noChartVersion
  /-- the error returned by `semver.NewConstraint` for the given string -/
  | invalidConstraint (constraint : String)
  /-- the error "no chart version found for <name>-<version>" of `Get` -/
  | noVersionFound (name version : String)
deriving DecidableEq, Repr

/-- The library functions the index code calls. -/
structure Lib where
  /-- the function `semver.NewVersion`; `none` is an error -/
  NewVersion : String → Option semver.Version
  /-- the method `(*chart.Metadata).Validate`; `none` is a validation error, `some md` the metadata
  as the call leaves it (releases that sanitise rewrite its strings in place) -/
  Validate : Metadata → Option Metadata
  /-- the function `semver.NewConstraint`; a constraint is represented by what `Check` answers -/
  NewConstraint : String → Option (semver.Version → Bool)
  /-- the call `urlutil.URLJoin(baseURL, file)`; `none` is an error -/
  URLJoin : String → String → Option String
  /-- the call `filepath.Join(baseURL, file)` -/
  Join : String → String → String

/-- The second result of `filepath.Split`: what follows the final slash. -/
def splitFile (filename : String) : String :=
  String.mk ((semver.splitAux '/' filename.toList []).getLast? |>.getD [])

/-- The location `u` of a new entry, as `AddOrReplace` and `MustAdd` compute it. -/
def entryURL (lib : Lib) (filename baseURL : String) : String :=
  if baseURL ≠ "" then
    match lib.URLJoin baseURL (splitFile filename) with
    | some u => u
    | none => lib.Join baseURL (splitFile filename)
  else filename

/-- The function `NewIndex`: a new empty index. -/
def NewIndex : Index :=
  { index := { Entries := fun _ => none, Generated := 0, nilEntries := false } }

/-- Outcome of the range loop of `AddOrReplace` over the stored versions. -/
inductive Scan where
  /-- a stored version failed to parse: `return err` -/
  | failed (version : String)
  /-- the entry at position `i` is equal to the new version -/
  | found (i : Nat)
  /-- the loop ran to its end -/
  | done
deriving DecidableEq, Repr

/-- The range loop of `AddOrReplace`, from position `i` on. -/
def scanVersions (lib : Lib) (chartSemVer : semver.Version) : ChartVersions → Nat → Scan
  | [], _ => Scan.done
  | v :: rest, i =>
    match lib.NewVersion v.Version with
    | none => Scan.failed v.Version
    | some itemSemVer =>
      if chartSemVer.Equal itemSemVer then Scan.found i
      else scanVersions lib chartSemVer rest (i + 1)

/-- What a call of a method that can panic has done: the receiver after the call, the
error it has returned, and whether it has ended in a run-time panic instead of
returning. After a panic the receiver is as the statements before the panic left it and
no error has been returned. -/
structure Outcome (α : Type) where
  receiver : α
  err : Option Error
  panics : Bool

/-- The method `Index.AddOrReplace`. Its two assignments to the map, for a name that is
absent and for a version to append, panic with "assignment to entry in nil map" when the
map is nil; the replacement of an entry assigns to an element of the slice. -/
def Index.AddOrReplace (lib : Lib) (now : Nat) (idx : Index) (metadata : Value)
    (filename baseURL digest : String) : Outcome Index :=
  match metadata with
  | Value.other => { receiver := idx, err := some Error.notChartMetadata, panics := false }
  | Value.chartMetadata md =>
    let cr : ChartVersion :=
      { URLs := [entryURL lib filename baseURL], Metadata := md, Digest := digest,
        Created := now }
    match idx.index.Entries md.Name with
    | none =>
      if idx.index.nilEntries then { receiver := idx, err := none, panics := true }
      else
        { receiver := { index := { idx.index with
            Entries := Function.update idx.index.Entries md.Name (some [cr]) } }
          err := none
          panics := false }
    | some entry =>
      match lib.NewVersion md.Version with
      | none =>
        { receiver := idx, err := some (Error.invalidSemVer md.Version), panics := false }
      | some chartSemVer =>
        match scanVersions lib chartSemVer entry 0 with
        | Scan.failed v =>
          { receiver := idx, err := some (Error.invalidSemVer v), panics := false }
        | Scan.found i =>
          { receiver := { index := { idx.index with
              Entries := Function.update idx.index.Entries md.Name (some (entry.set i cr)) } }
            err := none
            panics := false }
        | Scan.done =>
          if idx.index.nilEntries then { receiver := idx, err := none, panics := true }
          else
            { receiver := { index := { idx.index with
                Entries := Function.update idx.index.Entries md.Name
                  (some (entry ++ [cr])) } }
              err := none
              panics := false }

/-- The inner range loop of `Delete`: the position of the first entry whose version
string equals `version`, counted from `i`. -/
def findVersion (version : String) : ChartVersions → Nat → Option (Nat × ChartVersion)
  | [], _ => none
  | chartVersion :: rest, i =>
    if chartVersion.Version = version then some (i, chartVersion)
    else findVersion version rest (i + 1)

/-- The method `Index.Delete`: the index after the call, the returned URL and the
returned error. The range over the map does something for the key `name` only. -/
def Index.Delete (idx : Index) (name version : String) : Index × String × Option Error :=
  match idx.index.Entries name with
  | none => (idx, "", some (Error.notFound name version))
  | some chartVersions =>
    match findVersion version chartVersions 0 with
    | none => (idx, "", some (Error.notFound name version))
    | some (i, chartVersion) =>
      ({ index := { idx.index with
          Entries := Function.update idx.index.Entries name
            (some (chartVersions.take i ++ chartVersions.drop (i + 1))) } },
        (match chartVersion.URLs with
          | u :: _ => u
          | [] => ""),
        none)

/-- Semantic equality of two version strings, as the loop of `AddOrReplace` decides it:
both parse and `Equal` holds of the parsed versions. -/
def semEqual (lib : Lib) (a b : String) : Bool :=
  match lib.NewVersion a, lib.NewVersion b with
  | some va, some vb => va.Equal vb
  | _, _ => false

/-- The entry `cr` that `AddOrReplace` and `MustAdd` build. -/
def newEntry (lib : Lib) (now : Nat) (md : Metadata) (filename baseURL digest : String) :
    ChartVersion :=
  { URLs := [entryURL lib filename baseURL], Metadata := md, Digest := digest, Created := now }

/-- The constant `chart.APIVersionV1`. -/
def APIVersionV1 : String := "v1"

/-- The descriptor after the first statement of `MustAdd`: an empty API version is set
to `chart.APIVersionV1`. -/
def withAPIVersion (md : Metadata) : Metadata :=
  if md.APIVersion = "" then { md with APIVersion := APIVersionV1 } else md

/-- The method `IndexFile.MustAdd` of `helm.sh/helm/v3/pkg/repo`: validates the
descriptor and appends a new entry to the list of its package, by an assignment to the
map, which panics when the map is nil. -/
def IndexFile.MustAdd (lib : Lib) (now : Nat) (i : IndexFile) (md : Metadata)
    (filename baseURL digest : String) : Outcome IndexFile :=
  match lib.Validate (withAPIVersion md) with
  | none => { receiver := i, err := some (Error.validateFailed filename), panics := false }
  | some md =>
    let cr : ChartVersion :=
      { URLs := [entryURL lib filename baseURL], Metadata := md, Digest := digest,
        Created := now }
    let ee := (i.Entries md.Name).getD []
    if i.nilEntries then { receiver := i, err := none, panics := true }
    else
      { receiver := { i with Entries := Function.update i.Entries md.Name (some (ee ++ [cr])) }
        err := none
        panics := false }

/-- The method `Index.Add`. -/
def Index.Add (lib : Lib) (now : Nat) (idx : Index) (metadata : Value)
    (filename baseURL digest : String) : Outcome Index :=
  match metadata with
  | Value.other => { receiver := idx, err := some Error.notChartMetadata, panics := false }
  | Value.chartMetadata md =>
    match idx.index.MustAdd lib now md filename baseURL digest with
    | { receiver := i, err := some err, panics := p } =>
      { receiver := { index := i }, err := some (Error.addFile err), panics := p }
    | { receiver := i, err := none, panics := p } =>
      { receiver := { index := i }, err := none, panics := p }

/-- The first loop of `Get`: the first entry whose version string is `version`. -/
def exactMatch (version : String) : ChartVersions → Option ChartVersion
  | [] => none
  | ver :: rest => if version = ver.Version then some ver else exactMatch version rest

/-- The second loop of `Get`: the first entry whose version parses and satisfies the
constraint. -/
def firstSatisfying (lib : Lib) (constraint : semver.Version → Bool) :
    ChartVersions → Option ChartVersion
  | [] => none
  | ver :: rest =>
    match lib.NewVersion ver.Version with
    | none => firstSatisfying lib constraint rest
    | some test => if constraint test then some ver else firstSatisfying lib constraint rest

/-- The method `IndexFile.Get` of `helm.sh/helm/v3/pkg/repo`. For an empty `version` the
constraint is `*`, which the library always parses. -/
def IndexFile.Get (lib : Lib) (i : IndexFile) (name version : String) :
    Except Error ChartVersion :=
  match i.Entries name with
  | none => Except.error Error.noChartName
  | some vs =>
    if vs.length = 0 then Except.error Error.noChartVersion
    else
      match lib.NewConstraint (if version = "" then "*" else version) with
      | none => Except.error (Error.invalidConstraint version)
      | some constraint =>
        match (if version.length ≠ 0 then exactMatch version vs else none) with
        | some ver => Except.ok ver
        | none =>
          match firstSatisfying lib constraint vs with
          | some ver => Except.ok ver
          | none => Except.error (Error.noVersionFound name version)

/-- The method `IndexFile.Has` of `helm.sh/helm/v3/pkg/repo`: `Get` returns no error. -/
def IndexFile.Has (lib : Lib) (i : IndexFile) (name version : String) : Bool :=
  match i.Get lib name version with
  | Except.ok _ => true
  | Except.error _ => false

/-- The method `Index.Has`. -/
def Index.Has (lib : Lib) (idx : Index) (name version : String) : Bool :=
  idx.index.Has lib name version

/-- The struct `ChartInfo` of `internal/oss/storage.go`, a record of the scan; `Meta`
holds the `*chart.Metadata` that `Meta.Value()` returns. -/
structure ChartInfo where
  Meta : Metadata
  Filename : String
  Hash : String
deriving DecidableEq, Repr

/-- The loop `for item := range items` of the consumer in `reindexAction.run`, from the
index `idx` on: every record is added with `Index.Add` and an empty `baseURL`; an error
of `Add` is printed and the loop goes on. `clock k` is the time of the `k`-th call. -/
def consume (lib : Lib) (clock : Nat → Nat) : Index → Nat → List ChartInfo → Index
  | idx, _, [] => idx
  | idx, k, item :: rest =>
    consume lib clock
      (Index.Add lib (clock k) idx (Value.chartMetadata item.Meta) item.Filename ""
        item.Hash).1 (k + 1) rest

/-- The index the consumer of `reindexAction.run` builds from the records of the scan,
before it is sorted and stamped. It starts from the index of `NewIndex`, whose map is
allocated, so that no call of `Add` in the loop panics. -/
def buildIndex (lib : Lib) (clock : Nat → Nat) (items : List ChartInfo) : Index :=
  consume lib clock NewIndex 0 items

/-- The descriptors of the records that `Index.Add` accepts, as it stores them. -/
def acceptedDescriptors (lib : Lib) (items : List ChartInfo) : List Metadata :=
  items.filterMap fun item => lib.Validate (withAPIVersion item.Meta)

/-- The version strings stored for package `name`, in the order of its list. -/
def versionsAt (idx : Index) (name : String) : List String :=
  ((idx.index.Entries name).getD []).map ChartVersion.Version

/-- Two version strings are not semantically equal, read in either order. -/
def distinctVersions (lib : Lib) (a b : String) : Prop :=
  semEqual lib a b = false ∧ semEqual lib b a = false

instance (lib : Lib) (a b : String) : Decidable (distinctVersions lib a b) := by
  unfold distinctVersions
  infer_instance

/-- No two entries of the list, at different positions, have versions that parse to
semantically equal versions. -/
def NoDuplicateVersions (lib : Lib) (l : ChartVersions) : Prop :=
  l.Pairwise fun a b => distinctVersions lib a.Version b.Version

instance (lib : Lib) (l : ChartVersions) : Decidable (NoDuplicateVersions lib l) := by
  unfold NoDuplicateVersions
  infer_instance

/-- The invariant of the index: within the list of every package no two entries have
semantically equal versions. -/
def Index.NoDuplicates (lib : Lib) (idx : Index) : Prop :=
  ∀ name entry, idx.index.Entries name = some entry → NoDuplicateVersions lib entry

/-! ## A concrete library, for evaluating the code on inputs -/

/-- The checks of `Validate` on the fields of this model: API version, name and version
are required and the version is a semantic version; the strings are left as they are. -/
def validateMetadata (md : Metadata) : Option Metadata :=
  if md.APIVersion = "" then none
  else if md.Name = "" then none
  else if md.Version = "" then none
  else if (semver.NewVersion md.Version).isNone then none
  else some md

/-- Constraints of the two forms the index code meets on an exact lookup: the wildcard
and one plain version, which matches the versions equal to it. Operators and ranges are
not covered: `none`. -/
def exactConstraint (c : String) : Option (semver.Version → Bool) :=
  if c = "*" then some fun _ => true
  else
    match semver.NewVersion c with
    | some con => some fun v => v.Equal con
    | none => none

/-- A concrete library. Every caller in this repository passes an empty `baseURL`, so the
two joins are never reached from it; they are plain concatenations here. -/
def helmLib : Lib :=
  { NewVersion := semver.NewVersion
    Validate := validateMetadata
    NewConstraint := exactConstraint
    URLJoin := fun baseURL file => some (baseURL ++ "/" ++ file)
    Join := fun baseURL file => baseURL ++ "/" ++ file }

/-- Builds an entry as stored in an index document. -/
def mkEntry (name version url : String) : ChartVersion :=
  { URLs := [url], Metadata := { Name := name, Version := version, APIVersion := "v2", rest := "" },
    Digest := "", Created := 0 }

/-- An index with the single package `name` holding entries of the given versions. -/
def indexOf (name : String) (versions : List String) : Index :=
  { index :=
      { Entries := Function.update (fun _ => none) name
          (some (versions.map fun v => mkEntry name v (name ++ "-" ++ v ++ ".tgz")))
        Generated := 0
        nilEntries := false } }

/-- A chart descriptor handed to the index methods. -/
def descriptor (name version : String) : Metadata :=
  { Name := name, Version := version, APIVersion := "v2", rest := "" }

/-! ## Strings and attribute maps of `internal/oss/storage.go` -/

/-- The call `strings.HasPrefix(s, pre)`. -/
def HasPrefix (s pre : String) : Bool := pre.toList.isPrefixOf s.toList

/-- The call `strings.HasSuffix(s, suf)`. -/
def HasSuffix (s suf : String) : Bool := suf.toList.isSuffixOf s.toList

/-- The call `strings.TrimPrefix(s, pre)`. -/
def TrimPrefix (s pre : String) : String :=
  if HasPrefix s pre then String.mk (s.toList.drop pre.toList.length) else s

/-- The call `strings.TrimSuffix(s, suf)`. -/
def TrimSuffix (s suf : String) : String :=
  if HasSuffix s suf then String.mk (s.toList.take (s.toList.length - suf.toList.length))
  else s

/-- The call `strings.Contains(s, substr)`. -/
def Contains (s substr : String) : Bool :=
  s.toList.tails.any fun t => substr.toList.isPrefixOf t

/-- A Go `map[string]string`, as the pairs a `range` over it visits, in the order of the
visit; a lookup `m[k]` finds the first pair with key `k`. -/
abbrev Attributes := List (String × String)

/-- The constant `ossMetadataSoftLimitBytes`. -/
def ossMetadataSoftLimitBytes : Nat := 1900

/-- The constant `metaChartMetadata`. -/
def metaChartMetadata : String := "chart-metadata"

/-- The constant `metaChartDigest`. -/
def metaChartDigest : String := "chart-digest"

/-- The function `objectMetadataSize`: the bytes of all keys and values. -/
def objectMetadataSize : Attributes → Nat
  | [] => 0
  | (k, v) :: m => k.utf8ByteSize + v.utf8ByteSize + objectMetadataSize m

/-- The function `assembleObjectMetadata`; `none` is the `nil` map. -/
def assembleObjectMetadata (chartMeta chartDigest : String) : Option Attributes :=
  let attrs : Attributes := [(metaChartMetadata, chartMeta), (metaChartDigest, chartDigest)]
  if objectMetadataSize attrs > ossMetadataSoftLimitBytes then none else some attrs

/-- The function `getMetadataValue`; `ToLower` is `strings.ToLower`. -/
def getMetadataValue (ToLower : String → String) (attrs : Attributes) (key : String) :
    String :=
  match attrs.lookup key with
  | some v => v
  | none =>
    match attrs.find? fun kv => ToLower kv.1 = ToLower key with
    | some kv => kv.2
    | none => ""

/-- Lower-casing of the ASCII letters, which is what `strings.ToLower` does on ASCII
strings. -/
def asciiToLower (s : String) : String := String.mk (s.toList.map Char.toLower)

/-! ## Sorting: `SortEntries`

The method `IndexFile.SortEntries` of `helm.sh/helm/v3/pkg/repo` runs
`sort.Sort(sort.Reverse(versions))` on the list of every package. `sort.Sort` of the Go
standard library sorts a slice of at most 12 elements by insertion; a longer slice goes
through its pattern-defeating quicksort, which is a parameter here. -/

/-- The method `Version.LessThan` of the semver library. -/
def semver.Version.LessThan (v o : semver.Version) : Bool :=
  decide (v.Compare o < 0)

/-- The method `ChartVersions.Less` of helm's `repo` package, on the entries at the two
positions: a version that fails to parse is pushed to the back. -/
def ChartVersions.Less (lib : Lib) (a b : ChartVersion) : Bool :=
  match lib.NewVersion a.Version with
  | none => true
  | some i =>
    match lib.NewVersion b.Version with
    | none => false
    | some j => i.LessThan j

/-- The method `Less` of `sort.Reverse(versions)`: the arguments are exchanged. -/
def reverseLess (lib : Lib) (a b : ChartVersion) : Bool :=
  ChartVersions.Less lib b a

/-- The inner loop of `insertionSort`: the element `x` is swapped with the element
before it as long as `less x` of that element holds. `before` lists the elements before
`x`, the nearest first; the result lists them with `x` in its place, again from the
right. -/
def insertBack {α : Type} (less : α → α → Bool) (x : α) : List α → List α
  | [] => [x]
  | p :: before => if less x p then p :: insertBack less x before else x :: p :: before

/-- The outer loop of `insertionSort`: `done` is the part already in order, listed from
the right, `rest` the elements still to insert. -/
def insertionSortFrom {α : Type} (less : α → α → Bool) : List α → List α → List α
  | done, [] => done.reverse
  | done, x :: rest => insertionSortFrom less (insertBack less x done) rest

/-- The function `insertionSort` of the package `sort`, on a whole slice. -/
def insertionSort {α : Type} (less : α → α → Bool) (data : List α) : List α :=
  insertionSortFrom less [] data

/-- The functions of the Go standard library that the code of this section calls and
that are not embedded here. -/
structure Std where
  /-- the function `strings.ToLower` -/
  ToLower : String → String
  /-- the function `url.Parse`, reduced to the fields `Host` and `Path` of its result;
  `none` is an error -/
  urlParse : String → Option (String × String)
  /-- what `sort.Sort` does to a slice of more than 12 elements; `Std.sorts` is its
  contract -/
  pdqsort : (ChartVersion → ChartVersion → Bool) → ChartVersions → ChartVersions

/-- The function `sort.Sort`, given the `Less` of the data. -/
def sortSort (std : Std) (less : ChartVersion → ChartVersion → Bool) (data : ChartVersions) :
    ChartVersions :=
  if data.length ≤ 12 then insertionSort less data else std.pdqsort less data

/-- The method `Index.SortEntries`: every list of the map is sorted in place. -/
def Index.SortEntries (lib : Lib) (std : Std) (idx : Index) : Index :=
  { index := { idx.index with
      Entries := fun name => (idx.index.Entries name).map (sortSort std (reverseLess lib)) } }

/-- The method `Index.UpdateGeneratedTime`. -/
def Index.UpdateGeneratedTime (now : Nat) (idx : Index) : Index :=
  { index := { idx.index with Generated := now } }

/-- Host and path of a URI of the form `scheme://host/path`, which is what `url.Parse`
returns for a URI without user, port, query, fragment or escapes. -/
def simpleURLParse (uri : String) : Option (String × String) :=
  match semver.splitAux '/' uri.toList [] with
  | _ :: [] :: host :: path =>
    some (String.mk host, String.mk (path.foldl (fun acc seg => acc ++ '/' :: seg) []))
  | _ => none

/-- A concrete standard library: ASCII lower-casing, plain URIs, and insertion sort also
for long slices, which the inputs evaluated here never have. -/
def goStd : Std :=
  { ToLower := asciiToLower
    urlParse := simpleURLParse
    pdqsort := fun less data => insertionSort less data }

/-- A part of the prerelease that consists of digits has no leading zero, which is what
`validatePrerelease` checks of a numeric part. -/
def semver.noLeadingZero (p : List Char) : Prop :=
  p.all Char.isDigit = true → 1 < p.length → p.head? ≠ some '0'

/-- The numeric parts of the prerelease of the version have no leading zero. -/
def semver.Version.wellFormed (v : semver.Version) : Prop :=
  ∀ p ∈ semver.splitDot v.pre.toList, semver.noLeadingZero p

/-- Every version that the parser returns has a prerelease without leading zeros in its
numeric parts; `semver.NewVersion` rejects the others. -/
def Lib.wellFormed (lib : Lib) : Prop :=
  ∀ s v, lib.NewVersion s = some v → v.wellFormed

/-! ## The store and the scan of `internal/oss/storage.go` -/

/-- An error returned by the OSS client. -/
inductive ClientError where
  /-- an `*oss.ServiceError` with its `StatusCode` and `Code` -/
  | service (statusCode : Nat) (code : String)
  /-- an error for which `IsNotFound` holds -/
  | notFound
  /-- any other error, such as a cancelled context -/
  | other (message : String)
deriving DecidableEq, Repr

/-- The errors of the package `oss`. -/
inductive StorageError where
  /-- the error "uri ... protocol is not oss" of `parseURI` -/
  | protocol (uri : String)
  /-- the error "parse uri ..." of `parseURI` -/
  | parseURI (uri : String)
  /-- the error "list oss bucket objects" -/
  | listObjects (err : ClientError)
  /-- the error "head oss object" for the relative key -/
  | headObject (key : String) (err : ClientError)
  /-- the error "get oss object" for the relative key -/
  | getObject (key : String) (err : ClientError)
  /-- the error "load archive from oss object" -/
  | loadArchive (key : String)
  /-- the error "get chart hash" -/
  | chartHash (key : String)
  /-- the error "unserialize chart meta" -/
  | unserialize (key : String)
  /-- the error `ErrObjectNotFound` -/
  | objectNotFound
  /-- the error `ErrBucketNotFound` -/
  | bucketNotFound
  /-- the error "fetch object from oss" -/
  | fetchObject (err : ClientError)
  /-- the error "read object body" -/
  | readBody
  /-- the error "head object from oss" -/
  | headFromOSS (err : ClientError)
  /-- the error "uri must not contain "index.yaml" suffix, it appends automatically" -/
  | indexSuffix
  /-- the error "upload index to OSS bucket" -/
  | uploadIndex (err : ClientError)
  /-- the error "upload chart object to oss" -/
  | uploadChart (err : ClientError)
  /-- the error "upload prov object to oss" -/
  | uploadProv (err : ClientError)
  /-- the error "delete chart objects from OSS" -/
  | deleteObjects (err : ClientError)
deriving DecidableEq, Repr

/-- What a put request carries as its body. -/
inductive Payload where
  /-- the content of the local file at the path -/
  | file (path : String)
  /-- the given bytes -/
  | bytes (data : String)
deriving DecidableEq, Repr

/-- A request issued to the OSS client. -/
inductive Request where
  | listObjectsV2 (bucket prefixKey : String) (continuationToken : Option String)
  | headObject (bucket key : String)
  | getObject (bucket key : String)
  | putObject (bucket key : String) (body : Payload) (contentType : Option String)
      (metadata : Option Attributes)
  | deleteMultipleObjects (bucket : String) (keys : List String)
deriving DecidableEq, Repr

/-- A request that changes the store. -/
def Request.isWrite : Request → Bool
  | Request.putObject _ _ _ _ _ => true
  | Request.deleteMultipleObjects _ _ => true
  | _ => false

/-- The fields of `oss.ListObjectsV2Result` that `traverse` reads; `Contents` holds the
keys of the listed objects. -/
structure ListObjectsV2Result where
  Contents : List String
  IsTruncated : Bool
  NextContinuationToken : Option String
deriving DecidableEq, Repr

/-- The OSS client `s.client`, by what it answers. The body of an object is a stream:
`none` stands for a stream whose reading fails. -/
structure Client where
  ListObjectsV2 : String → String → Option String → Except ClientError ListObjectsV2Result
  HeadObject : String → String → Except ClientError Attributes
  GetObject : String → String → Except ClientError (Option String)
  PutObject : String → String → Option ClientError
  DeleteMultipleObjects : String → List String → Option ClientError

/-- The chart functions of `internal/helmutil`, which wrap helm's loader and provenance
packages and `encoding/json`; `none` is an error. -/
structure Charts where
  /-- the function `LoadArchive` on the stream of a body: the metadata of the chart and
  the bytes it has read from the stream, which the tee copies to the buffer -/
  LoadArchive : Option String → Option (Metadata × String)
  /-- the function `Digest` -/
  Digest : String → Option String
  /-- the method `UnmarshalJSON` of a new chart metadata -/
  UnmarshalJSON : String → Option Metadata
  /-- the method `MarshalJSON` of the chart metadata -/
  MarshalJSON : Metadata → Option String
  /-- the function `LoadChart` on the path of a chart file -/
  LoadChart : String → Option Metadata
  /-- the function `DigestFile` -/
  DigestFile : String → Option String

/-- The function `parseURI`: bucket and key. -/
def parseURI (std : Std) (uri : String) : Except StorageError (String × String) :=
  if !HasPrefix uri "oss://" then Except.error (StorageError.protocol uri)
  else
    match std.urlParse uri with
    | none => Except.error (StorageError.parseURI uri)
    | some (host, path) => Except.ok (host, TrimPrefix path "/")

/-- What the body of the loop over `listOut.Contents` does with one object. -/
inductive ObjectResult where
  /-- the statement `continue`: the object is ignored -/
  | skipped
  /-- the statement `items <- reindexItem` -/
  | item (info : ChartInfo)
  /-- the statements `errs <- err` and `return` -/
  | failed (err : StorageError)
deriving DecidableEq, Repr

/-- The key of an object relative to the repository root, as `traverse` computes it. -/
def relativeKey (prefixKey objKey : String) : String :=
  TrimPrefix (TrimPrefix objKey prefixKey) "/"

/-- The body of the loop over `listOut.Contents` for the object with key `objKey`: the
requests it issues and what it does. -/
def scanObject (std : Std) (client : Client) (charts : Charts)
    (bucket prefixKey objKey : String) : List Request × ObjectResult :=
  let key := relativeKey prefixKey objKey
  if Contains key "/" then ([], ObjectResult.skipped)
  else if !HasSuffix key ".tgz" then ([], ObjectResult.skipped)
  else
    match client.HeadObject bucket objKey with
    | Except.error err =>
      ([Request.headObject bucket objKey], ObjectResult.failed (StorageError.headObject key err))
    | Except.ok attrs =>
      let serializedChartMeta := getMetadataValue std.ToLower attrs metaChartMetadata
      let chartDigest := getMetadataValue std.ToLower attrs metaChartDigest
      if serializedChartMeta = "" ∨ chartDigest = "" then
        match client.GetObject bucket objKey with
        | Except.error err =>
          ([Request.headObject bucket objKey, Request.getObject bucket objKey],
            ObjectResult.failed (StorageError.getObject key err))
        | Except.ok body =>
          match charts.LoadArchive body with
          | none =>
            ([Request.headObject bucket objKey, Request.getObject bucket objKey],
              ObjectResult.failed (StorageError.loadArchive key))
          | some (md, buf) =>
            match charts.Digest buf with
            | none =>
              ([Request.headObject bucket objKey, Request.getObject bucket objKey],
                ObjectResult.failed (StorageError.chartHash key))
            | some digest =>
              ([Request.headObject bucket objKey, Request.getObject bucket objKey],
                ObjectResult.item { Meta := md, Filename := key, Hash := digest })
      else
        match charts.UnmarshalJSON serializedChartMeta with
        | none =>
          ([Request.headObject bucket objKey],
            ObjectResult.failed (StorageError.unserialize key))
        | some md =>
          ([Request.headObject bucket objKey],
            ObjectResult.item { Meta := md, Filename := key, Hash := chartDigest })

/-- What `traverse` has done when it returns: the records sent on `items`, the errors
sent on `errs`, and the requests issued to the client, each in order. -/
structure TraverseResult where
  items : List ChartInfo
  errs : List StorageError
  requests : List Request
deriving DecidableEq, Repr

/-- The loop over `listOut.Contents`; the flag tells whether it ran to its end, `false`
standing for the `return` after an error. -/
def scanObjects (std : Std) (client : Client) (charts : Charts) (bucket prefixKey : String) :
    List String → TraverseResult × Bool
  | [] => ({ items := [], errs := [], requests := [] }, true)
  | objKey :: rest =>
    match scanObject std client charts bucket prefixKey objKey with
    | (reqs, ObjectResult.failed err) => ({ items := [], errs := [err], requests := reqs }, false)
    | (reqs, ObjectResult.skipped) =>
      ({ (scanObjects std client charts bucket prefixKey rest).1 with
          requests := reqs ++ (scanObjects std client charts bucket prefixKey rest).1.requests },
        (scanObjects std client charts bucket prefixKey rest).2)
    | (reqs, ObjectResult.item info) =>
      ({ items := info :: (scanObjects std client charts bucket prefixKey rest).1.items
         errs := (scanObjects std client charts bucket prefixKey rest).1.errs
         requests := reqs ++ (scanObjects std client charts bucket prefixKey rest).1.requests },
        (scanObjects std client charts bucket prefixKey rest).2)

/-- What was done first, followed by what was done afterwards. -/
def TraverseResult.append (a b : TraverseResult) : TraverseResult :=
  { items := a.items ++ b.items, errs := a.errs ++ b.errs, requests := a.requests ++ b.requests }

/-- The loop `for` over the pages of the listing, entered with the given continuation
token. `fuel` bounds the number of pages; `none` stands for a loop that has not ended
within the bound. -/
def scanPages (std : Std) (client : Client) (charts : Charts) (bucket prefixKey : String) :
    Nat → Option String → Option TraverseResult
  | 0, _ => none
  | fuel + 1, continuationToken =>
    match client.ListObjectsV2 bucket prefixKey continuationToken with
    | Except.error err =>
      some { items := [], errs := [StorageError.listObjects err],
             requests := [Request.listObjectsV2 bucket prefixKey continuationToken] }
    | Except.ok listOut =>
      let here : TraverseResult :=
        { items := (scanObjects std client charts bucket prefixKey listOut.Contents).1.items
          errs := (scanObjects std client charts bucket prefixKey listOut.Contents).1.errs
          requests := Request.listObjectsV2 bucket prefixKey continuationToken ::
            (scanObjects std client charts bucket prefixKey listOut.Contents).1.requests }
      if (scanObjects std client charts bucket prefixKey listOut.Contents).2 = false then
        some here
      else if !listOut.IsTruncated then some here
      else
        match listOut.NextContinuationToken with
        | none => some here
        | some token =>
          if token = "" then some here
          else
            (scanPages std client charts bucket prefixKey fuel (some token)).map here.append

/-- The method `Storage.traverse`. -/
def Storage.traverse (std : Std) (client : Client) (charts : Charts) (repoURI : String)
    (fuel : Nat) : Option TraverseResult :=
  match parseURI std repoURI with
  | Except.error err => some { items := [], errs := [err], requests := [] }
  | Except.ok (bucket, prefixKey) => scanPages std client charts bucket prefixKey fuel none

/-- The pages that the store serves for a prefix, followed from the given continuation
token until a page is not truncated or carries no token: the keys of all pages in order,
and the error of the listing if a request of it fails. `none` when the listing has more
than `fuel` pages. -/
def listing (client : Client) (bucket prefixKey : String) :
    Nat → Option String → Option (List String × Option ClientError)
  | 0, _ => none
  | fuel + 1, continuationToken =>
    match client.ListObjectsV2 bucket prefixKey continuationToken with
    | Except.error err => some ([], some err)
    | Except.ok listOut =>
      if !listOut.IsTruncated then some (listOut.Contents, none)
      else
        match listOut.NextContinuationToken with
        | none => some (listOut.Contents, none)
        | some token =>
          if token = "" then some (listOut.Contents, none)
          else
            (listing client bucket prefixKey fuel (some token)).map
              fun r => (listOut.Contents ++ r.1, r.2)

/-- A relative key names a top-level archive: no slash, and the suffix `.tgz`. -/
def isTopLevelArchive (key : String) : Bool :=
  !Contains key "/" && HasSuffix key ".tgz"

/-- The step on an object has failed. -/
def ObjectResult.isFailed : ObjectResult → Bool
  | ObjectResult.failed _ => true
  | _ => false

/-- The record that the step on an object has sent, if any. -/
def ObjectResult.record : ObjectResult → Option ChartInfo
  | ObjectResult.item info => some info
  | _ => none

/-- The steps of a scan in the order of the listing: one step for every listed key,
and after them the failed request of the listing, if it ended in one. -/
def scanSteps (std : Std) (client : Client) (charts : Charts) (bucket prefixKey : String)
    (keys : List String) (listErr : Option ClientError) : List ObjectResult :=
  keys.map (fun objKey => (scanObject std client charts bucket prefixKey objKey).2) ++
    match listErr with
    | some err => [ObjectResult.failed (StorageError.listObjects err)]
    | none => []

/-- Fail-fast reading of a sequence of steps: the records of the steps before the first
failed one, and the error of that step alone. -/
def failFast : List ObjectResult → List ChartInfo × List StorageError
  | [] => ([], [])
  | ObjectResult.failed err :: _ => ([], [err])
  | ObjectResult.skipped :: rest => failFast rest
  | ObjectResult.item info :: rest => (info :: (failFast rest).1, (failFast rest).2)

/-! ## A concrete store, for evaluating the scan and the workflows on inputs -/

/-- An object of the store: key, attributes and body. -/
structure StoredObject where
  key : String
  attrs : Attributes
  body : String
deriving DecidableEq, Repr

/-- A client of a bucket that holds the given objects and answers every request: the
listing is one page, a missing object is answered with status 404. -/
def bucketClient (objects : List StoredObject) : Client :=
  { ListObjectsV2 := fun _ prefixKey _ =>
      Except.ok
        { Contents := (objects.filter fun o => HasPrefix o.key prefixKey).map fun o => o.key
          IsTruncated := false
          NextContinuationToken := none }
    HeadObject := fun _ key =>
      match objects.find? fun o => o.key = key with
      | some o => Except.ok o.attrs
      | none => Except.error (ClientError.service 404 "NoSuchKey")
    GetObject := fun _ key =>
      match objects.find? fun o => o.key = key with
      | some o => Except.ok (some o.body)
      | none => Except.error (ClientError.service 404 "NoSuchKey")
    PutObject := fun _ _ => none
    DeleteMultipleObjects := fun _ _ => none }

/-- Reads a descriptor written as `name:version`. -/
def readDescriptor (s : String) : Option Metadata :=
  match semver.splitAux ':' s.toList [] with
  | [name, version] => some (descriptor (String.mk name) (String.mk version))
  | _ => none

/-- Chart functions for a toy format in which an archive and a serialized descriptor
are both the text `name:version`, and the digest of a text is the text behind `sha:`;
`localChart` is what loading the local chart file gives. -/
def toyCharts (localChart : Option Metadata) : Charts :=
  { LoadArchive := fun body =>
      match body with
      | some data => (readDescriptor data).map fun md => (md, data)
      | none => none
    Digest := fun data => some ("sha:" ++ data)
    UnmarshalJSON := readDescriptor
    MarshalJSON := fun md => some (md.Name ++ ":" ++ md.Version)
    LoadChart := fun _ => localChart
    DigestFile := fun path => some ("sha:" ++ path) }

/-! ## Repositories and the methods of `Storage` that the workflows call -/

/-- The function `IndexFileURL` of `internal/helmutil/helm.go`. -/
def IndexFileURL (repoURL : String) : String :=
  TrimSuffix repoURL "/" ++ "/index.yaml"

/-- The two implementations of the interface `Repository`: a local repository with the
URL and the cache file of its entry, and a remote one with its URI. -/
inductive Repository where
  | localRepository (url cacheFile : String)
  | remoteRepository (uri : String)
deriving DecidableEq, Repr

/-- The method `URL`. -/
def Repository.URL : Repository → String
  | Repository.localRepository url _ => url
  | Repository.remoteRepository uri => uri

/-- The method `IndexURL`. -/
def Repository.IndexURL (r : Repository) : String := IndexFileURL r.URL

/-- The method `CacheFile`. -/
def Repository.CacheFile : Repository → String
  | Repository.localRepository _ cacheFile => cacheFile
  | Repository.remoteRepository _ => ""

/-- The method `ShouldUpdateCache`. -/
def Repository.ShouldUpdateCache : Repository → Bool
  | Repository.localRepository _ _ => true
  | Repository.remoteRepository _ => false

/-- What `os.Open` returns: a file, the error `os.ErrNotExist`, or another error. -/
inductive OpenResult where
  | opened
  | notExist
  | failed
deriving DecidableEq, Repr

/-- The local machine and the codec of the index document, by what they answer; `none`
and `false` stand for an error. -/
structure Local where
  /-- the function `LookupRepoEntry`: URL and cache file of the entry of that name -/
  LookupRepoEntry : String → Option (String × String)
  /-- the function `LoadIndex` on the cache file -/
  LoadIndex : String → Option Index
  /-- the function `os.Open` -/
  Open : String → OpenResult
  /-- the method `Index.WriteFile` -/
  WriteFile : String → Index → Bool
  /-- the function `yaml.Marshal` on the index, in `MarshalBinary` -/
  Marshal : Index → Option String
  /-- the function `yaml.Unmarshal` into a new `repo.IndexFile`, in `UnmarshalBinary`; the
  map of the decoded index file is nil when the document has no `entries` -/
  Unmarshal : String → Option IndexFile
  /-- the times of the calls of `Index.Add` in a rebuild -/
  clock : Nat → Nat
  /-- the time of the call of `time.Now` elsewhere -/
  now : Nat

/-- The function `NewRepository`. -/
def NewRepository (loc : Local) (repoOrURI : String) : Option Repository :=
  if HasPrefix repoOrURI "oss://" then some (Repository.remoteRepository repoOrURI)
  else
    match loc.LookupRepoEntry repoOrURI with
    | none => none
    | some (url, cacheFile) => some (Repository.localRepository url cacheFile)

/-- The method `Index.UnmarshalBinary`: the decoded index file with its entries sorted; a
nil map stays nil. -/
def Index.UnmarshalBinary (lib : Lib) (std : Std) (loc : Local) (data : String) :
    Option Index :=
  match loc.Unmarshal data with
  | none => none
  | some i => some (Index.SortEntries lib std { index := i })

/-- The function `filepath.Base`. -/
def filepathBase (path : String) : String :=
  if path = "" then "."
  else
    let stripped := (path.toList.reverse.dropWhile fun c => c = '/').reverse
    let last := (stripped.reverse.takeWhile fun c => c ≠ '/').reverse
    if last = [] then "/" else String.mk last

/-- The method `Storage.FetchRaw`: the requests it issues and what it returns. -/
def Storage.FetchRaw (std : Std) (client : Client) (uri : String) :
    List Request × Except StorageError String :=
  match parseURI std uri with
  | Except.error err => ([], Except.error err)
  | Except.ok (bucket, key) =>
    match client.GetObject bucket key with
    | Except.error err =>
      ([Request.getObject bucket key],
        match err with
        | ClientError.service statusCode code =>
          if statusCode = 404 ∨ code = "NoSuchKey" then Except.error StorageError.objectNotFound
          else if code = "NoSuchBucket" then Except.error StorageError.bucketNotFound
          else Except.error (StorageError.fetchObject err)
        | _ => Except.error (StorageError.fetchObject err))
    | Except.ok body =>
      ([Request.getObject bucket key],
        match body with
        | none => Except.error StorageError.readBody
        | some data => Except.ok data)

/-- The method `Storage.Exists`. -/
def Storage.Exists (std : Std) (client : Client) (uri : String) :
    List Request × Except StorageError Bool :=
  match parseURI std uri with
  | Except.error err => ([], Except.error err)
  | Except.ok (bucket, key) =>
    match client.HeadObject bucket key with
    | Except.error err =>
      ([Request.headObject bucket key],
        match err with
        | ClientError.service statusCode code =>
          if statusCode = 404 ∨ code = "NoSuchKey" ∨ code = "NotFound" then Except.ok false
          else Except.error (StorageError.headFromOSS err)
        | ClientError.notFound => Except.ok false
        | ClientError.other _ => Except.error (StorageError.headFromOSS err))
    | Except.ok _ => ([Request.headObject bucket key], Except.ok true)

/-- The method `Storage.IndexExists`. -/
def Storage.IndexExists (std : Std) (client : Client) (uri : String) :
    List Request × Except StorageError Bool :=
  if HasPrefix uri "index.yaml" then ([], Except.error StorageError.indexSuffix)
  else Storage.Exists std client (IndexFileURL uri)

/-- The method `Storage.PutIndex`, with the bytes that the reader delivers. -/
def Storage.PutIndex (std : Std) (client : Client) (uri : String) (data : String) :
    List Request × Option StorageError :=
  if HasPrefix uri "index.yaml" then ([], some StorageError.indexSuffix)
  else
    match parseURI std (IndexFileURL uri) with
    | Except.error err => ([], some err)
    | Except.ok (bucket, key) =>
      ([Request.putObject bucket key (Payload.bytes data) none none],
        match client.PutObject bucket key with
        | some err => some (StorageError.uploadIndex err)
        | none => none)

/-- The method `Storage.PutChart`; the body of the chart object is the file at
`chartPath`, that of the provenance object the file at `chartPath` with `.prov`. -/
def Storage.PutChart (std : Std) (client : Client) (uri chartPath chartMeta chartDigest
    contentType : String) (prov : Bool) : List Request × Option StorageError :=
  match parseURI std uri with
  | Except.error err => ([], some err)
  | Except.ok (bucket, key) =>
    match client.PutObject bucket key with
    | some err =>
      ([Request.putObject bucket key (Payload.file chartPath) (some contentType)
          (assembleObjectMetadata chartMeta chartDigest)],
        some (StorageError.uploadChart err))
    | none =>
      if prov then
        ([Request.putObject bucket key (Payload.file chartPath) (some contentType)
            (assembleObjectMetadata chartMeta chartDigest),
          Request.putObject bucket (key ++ ".prov") (Payload.file (chartPath ++ ".prov"))
            none none],
          match client.PutObject bucket (key ++ ".prov") with
          | some err => some (StorageError.uploadProv err)
          | none => none)
      else
        ([Request.putObject bucket key (Payload.file chartPath) (some contentType)
            (assembleObjectMetadata chartMeta chartDigest)], none)

/-- The method `Storage.DeleteChart`. -/
def Storage.DeleteChart (std : Std) (client : Client) (uri : String) :
    List Request × Option StorageError :=
  match parseURI std uri with
  | Except.error err => ([], some err)
  | Except.ok (bucket, key) =>
    ([Request.deleteMultipleObjects bucket [key, key ++ ".prov"]],
      match client.DeleteMultipleObjects bucket [key, key ++ ".prov"] with
      | some err => some (StorageError.deleteObjects err)
      | none => none)

/-! ## The workflows of `cmd/helm-oss`: push, delete and reindex -/

/-- The errors that the method `run` of an action returns. -/
inductive RunError where
  /-- the error of `LoadChart` -/
  | loadChart
  /-- the error of `NewRepository` -/
  | newRepository
  /-- the silent error of `chartExistsError` -/
  | chartExists
  /-- the error "open prov file" -/
  | openProvFile
  /-- the error "check if chart already exists in the repository" -/
  | checkExists (err : StorageError)
  /-- the error "open chart file" -/
  | openChartFile
  /-- the error "get chart digest" -/
  | chartDigest
  /-- the error of `MarshalJSON` -/
  | marshalMetadata
  /-- the error "upload chart to oss" -/
  | uploadChart (err : StorageError)
  /-- the error "fetch current repo index" -/
  | fetchIndex (err : StorageError)
  /-- the error "load index from downloaded file" -/
  | loadIndex
  /-- the error "add/replace chart in the index" -/
  | addOrReplace (err : Error)
  /-- no error is returned: the run ends in the panic of `AddOrReplace` on a nil map -/
  | nilMapPanic
  /-- the error "get index reader" -/
  | indexReader
  /-- the error "upload index to oss" and its variants -/
  | uploadIndex (err : StorageError)
  /-- the error "update local index" -/
  | updateLocalIndex
  /-- the error of `Index.Delete`, returned as it is -/
  | delete (err : Error)
  /-- the error "delete chart file from oss" -/
  | deleteChart (err : StorageError)
  /-- the error "traverse the chart repository" -/
  | traverse (err : StorageError)
deriving DecidableEq, Repr

/-- What a run has done when it returns: the error it returns and the requests it has
issued to the store, in order. -/
structure RunResult where
  err : Option RunError
  requests : List Request
deriving DecidableEq, Repr

/-- The struct `pushAction`, without its printer. -/
structure pushAction where
  chartPath : String
  repoOrURI : String
  dryRun : Bool
  force : Bool
deriving DecidableEq, Repr

/-- The block `if !act.dryRun` of `pushAction.run` that uploads the chart. -/
def pushAction.uploadChart (std : Std) (client : Client) (charts : Charts) (act : pushAction)
    (repo : Repository) (chart : Metadata) (fname hash : String) (hasProv : Bool) :
    List Request × Option RunError :=
  if !act.dryRun then
    match charts.MarshalJSON chart with
    | none => ([], some RunError.marshalMetadata)
    | some chartMetaJSON =>
      match Storage.PutChart std client (repo.URL ++ "/" ++ fname) act.chartPath chartMetaJSON
          hash "application/gzip" hasProv with
      | (reqs, some err) => (reqs, some (RunError.uploadChart err))
      | (reqs, none) => (reqs, none)
  else ([], none)

/-- The last part of `pushAction.run`: the current index is fetched, updated and
uploaded back. -/
def pushAction.updateIndex (lib : Lib) (std : Std) (client : Client) (loc : Local)
    (act : pushAction) (repo : Repository) (chart : Metadata) (fname hash : String) :
    RunResult :=
  match Storage.FetchRaw std client repo.IndexURL with
  | (reqs, Except.error err) => { err := some (RunError.fetchIndex err), requests := reqs }
  | (reqs, Except.ok b) =>
    match Index.UnmarshalBinary lib std loc b with
    | none => { err := some RunError.loadIndex, requests := reqs }
    | some idx =>
      match Index.AddOrReplace lib loc.now idx (Value.chartMetadata chart) fname "" hash with
      | { receiver := _, err := _, panics := true } =>
        { err := some RunError.nilMapPanic, requests := reqs }
      | { receiver := _, err := some err, panics := false } =>
        { err := some (RunError.addOrReplace err), requests := reqs }
      | { receiver := idx, err := none, panics := false } =>
        match loc.Marshal ((idx.SortEntries lib std).UpdateGeneratedTime loc.now) with
        | none => { err := some RunError.indexReader, requests := reqs }
        | some data =>
          if !act.dryRun then
            match Storage.PutIndex std client repo.URL data with
            | (reqs2, some err) =>
              { err := some (RunError.uploadIndex err), requests := reqs ++ reqs2 }
            | (reqs2, none) =>
              if repo.ShouldUpdateCache = true ∧
                  loc.WriteFile repo.CacheFile
                    ((idx.SortEntries lib std).UpdateGeneratedTime loc.now) = false then
                { err := some RunError.updateLocalIndex, requests := reqs ++ reqs2 }
              else { err := none, requests := reqs ++ reqs2 }
          else { err := none, requests := reqs }

/-- The method `pushAction.run`. The loaded chart is represented by its metadata. -/
def pushAction.run (lib : Lib) (std : Std) (client : Client) (charts : Charts) (loc : Local)
    (act : pushAction) : RunResult :=
  match charts.LoadChart act.chartPath with
  | none => { err := some RunError.loadChart, requests := [] }
  | some chart =>
    match NewRepository loc act.repoOrURI with
    | none => { err := some RunError.newRepository, requests := [] }
    | some repo =>
      if repo.ShouldUpdateCache = true ∧
          (match loc.LoadIndex repo.CacheFile with
            | some cachedIndex => cachedIndex.Has lib chart.Name chart.Version
            | none => false) = true ∧
          act.force = false then
        { err := some RunError.chartExists, requests := [] }
      else
        match loc.Open (act.chartPath ++ ".prov") with
        | OpenResult.failed => { err := some RunError.openProvFile, requests := [] }
        | provOpen =>
          match Storage.Exists std client (repo.URL ++ "/" ++ filepathBase act.chartPath) with
          | (reqs, Except.error err) =>
            { err := some (RunError.checkExists err), requests := reqs }
          | (reqs, Except.ok objectExists) =>
            if objectExists = true ∧ act.force = false then
              { err := some RunError.chartExists, requests := reqs }
            else
              match loc.Open act.chartPath with
              | OpenResult.opened =>
                match charts.DigestFile act.chartPath with
                | none => { err := some RunError.chartDigest, requests := reqs }
                | some hash =>
                  match pushAction.uploadChart std client charts act repo chart
                      (filepathBase act.chartPath) hash (provOpen = OpenResult.opened) with
                  | (reqs2, some err) => { err := some err, requests := reqs ++ reqs2 }
                  | (reqs2, none) =>
                    { err := (pushAction.updateIndex lib std client loc act repo chart
                        (filepathBase act.chartPath) hash).err
                      requests := reqs ++ reqs2 ++
                        (pushAction.updateIndex lib std client loc act repo chart
                          (filepathBase act.chartPath) hash).requests }
              | _ => { err := some RunError.openChartFile, requests := reqs }

/-- The struct `deleteAction`, without its printer. -/
structure deleteAction where
  chartName : String
  repoOrURI : String
  version : String
deriving DecidableEq, Repr

/-- The URL of the chart file that `deleteAction.run` hands to `DeleteChart`. -/
def deleteAction.chartURL (repo : Repository) (url : String) : String :=
  if !HasPrefix url repo.URL then TrimSuffix repo.URL "/" ++ "/" ++ url else url

/-- The method `deleteAction.run`. -/
def deleteAction.run (lib : Lib) (std : Std) (client : Client) (loc : Local)
    (act : deleteAction) : RunResult :=
  match NewRepository loc act.repoOrURI with
  | none => { err := some RunError.newRepository, requests := [] }
  | some repo =>
    match Storage.FetchRaw std client repo.IndexURL with
    | (reqs, Except.error err) => { err := some (RunError.fetchIndex err), requests := reqs }
    | (reqs, Except.ok b) =>
      match Index.UnmarshalBinary lib std loc b with
      | none => { err := some RunError.loadIndex, requests := reqs }
      | some idx =>
        match idx.Delete act.chartName act.version with
        | (_, _, some err) => { err := some (RunError.delete err), requests := reqs }
        | (idx, url, none) =>
          match loc.Marshal (idx.UpdateGeneratedTime loc.now) with
          | none => { err := some RunError.indexReader, requests := reqs }
          | some data =>
            match (if url ≠ "" then
                Storage.DeleteChart std client (deleteAction.chartURL repo url)
              else ([], none)) with
            | (reqs2, some err) =>
              { err := some (RunError.deleteChart err), requests := reqs ++ reqs2 }
            | (reqs2, none) =>
              match Storage.PutIndex std client repo.URL data with
              | (reqs3, some err) =>
                { err := some (RunError.uploadIndex err), requests := reqs ++ reqs2 ++ reqs3 }
              | (reqs3, none) =>
                if repo.ShouldUpdateCache = true ∧
                    loc.WriteFile repo.CacheFile (idx.UpdateGeneratedTime loc.now) = false then
                  { err := some RunError.updateLocalIndex, requests := reqs ++ reqs2 ++ reqs3 }
                else { err := none, requests := reqs ++ reqs2 ++ reqs3 }

/-- The struct `reindexAction`, without its printer and the flag `verbose`. -/
structure reindexAction where
  repoOrURI : String
deriving DecidableEq, Repr

/-- The index that the consumer of `reindexAction.run` hands over: built from the
records, sorted and stamped. -/
def reindexAction.builtIndex (lib : Lib) (std : Std) (loc : Local) (items : List ChartInfo) :
    Index :=
  ((buildIndex lib loc.clock items).SortEntries lib std).UpdateGeneratedTime loc.now

/-- The method `reindexAction.run`; `none` when the scan has not ended within `fuel`
pages. The producer and the consumer run one after the other here: the index is used
only after the scan has closed its channels. -/
def reindexAction.run (lib : Lib) (std : Std) (client : Client) (charts : Charts)
    (loc : Local) (act : reindexAction) (fuel : Nat) : Option RunResult :=
  match NewRepository loc act.repoOrURI with
  | none => some { err := some RunError.newRepository, requests := [] }
  | some repo =>
    match Storage.traverse std client charts repo.URL fuel with
    | none => none
    | some t =>
      match t.errs with
      | err :: _ => some { err := some (RunError.traverse err), requests := t.requests }
      | [] =>
        match loc.Marshal (reindexAction.builtIndex lib std loc t.items) with
        | none => some { err := some RunError.indexReader, requests := t.requests }
        | some data =>
          match Storage.PutIndex std client repo.URL data with
          | (reqs, some err) =>
            some { err := some (RunError.uploadIndex err), requests := t.requests ++ reqs }
          | (reqs, none) =>
            if repo.ShouldUpdateCache = true ∧
                loc.WriteFile repo.CacheFile
                  (reindexAction.builtIndex lib std loc t.items) = false then
              some { err := some RunError.updateLocalIndex, requests := t.requests ++ reqs }
            else some { err := none, requests := t.requests ++ reqs }

/-- A local machine without repository entries and without provenance files, on which
every chart file opens and every write succeeds; an index is encoded as the text
`index` and a downloaded document is decoded by `decode`. -/
def toyLocal (decode : String → Option IndexFile) : Local :=
  { LookupRepoEntry := fun _ => none
    LoadIndex := fun _ => none
    Open := fun path => if HasSuffix path ".prov" then OpenResult.notExist else OpenResult.opened
    WriteFile := fun _ _ => true
    Marshal := fun _ => some "index"
    Unmarshal := decode
    clock := fun k => k
    now := 7 }

/-- Decodes a document as the index file of `indexOf name versions`, whatever its
bytes. -/
def decodeAs (name : String) (versions : List String) : String → Option IndexFile :=
  fun _ => some (indexOf name versions).index

/-! ## The responses that decide a step of the scan

The two conditions below speak of the responses of the store and of the chart functions
alone; the theorems on `traverse` take them as hypotheses. -/

/-- Every call that `traverse` makes for the object with key `objKey` succeeds, and
`info` is the record that the responses determine: the store returns the attributes of
the object; where the lookup of `chart-metadata` or of `chart-digest` gives the empty
string, the store returns the body, the body loads as a chart archive and the bytes read
have a digest; otherwise the value of `chart-metadata` deserializes. -/
def scanEmits (std : Std) (client : Client) (charts : Charts)
    (bucket prefixKey objKey : String) (info : ChartInfo) : Prop :=
  ∃ attrs, client.HeadObject bucket objKey = Except.ok attrs ∧
    (((getMetadataValue std.ToLower attrs metaChartMetadata = "" ∨
          getMetadataValue std.ToLower attrs metaChartDigest = "") ∧
        ∃ body md buf digest, client.GetObject bucket objKey = Except.ok body ∧
          charts.LoadArchive body = some (md, buf) ∧ charts.Digest buf = some digest ∧
          info = { Meta := md, Filename := relativeKey prefixKey objKey, Hash := digest }) ∨
      (¬ (getMetadataValue std.ToLower attrs metaChartMetadata = "" ∨
          getMetadataValue std.ToLower attrs metaChartDigest = "") ∧
        ∃ md, charts.UnmarshalJSON (getMetadataValue std.ToLower attrs metaChartMetadata) =
            some md ∧
          info = { Meta := md, Filename := relativeKey prefixKey objKey,
                   Hash := getMetadataValue std.ToLower attrs metaChartDigest }))

/-- A call that `traverse` makes for the object with key `objKey` fails, the calls
before it having succeeded, and `err` is the error that belongs to the failed call: the
head request; or, where an attribute is missing, the get request, the load of the
archive or the digest; or, where both attributes are there, the deserialization of the
descriptor. -/
def scanFails (std : Std) (client : Client) (charts : Charts)
    (bucket prefixKey objKey : String) (err : StorageError) : Prop :=
  (∃ e, client.HeadObject bucket objKey = Except.error e ∧
    err = StorageError.headObject (relativeKey prefixKey objKey) e) ∨
  ∃ attrs, client.HeadObject bucket objKey = Except.ok attrs ∧
    (((getMetadataValue std.ToLower attrs metaChartMetadata = "" ∨
          getMetadataValue std.ToLower attrs metaChartDigest = "") ∧
        ((∃ e, client.GetObject bucket objKey = Except.error e ∧
            err = StorageError.getObject (relativeKey prefixKey objKey) e) ∨
          ∃ body, client.GetObject bucket objKey = Except.ok body ∧
            ((charts.LoadArchive body = none ∧
                err = StorageError.loadArchive (relativeKey prefixKey objKey)) ∨
              ∃ md buf, charts.LoadArchive body = some (md, buf) ∧
                charts.Digest buf = none ∧
                err = StorageError.chartHash (relativeKey prefixKey objKey)))) ∨
      (¬ (getMetadataValue std.ToLower attrs metaChartMetadata = "" ∨
          getMetadataValue std.ToLower attrs metaChartDigest = "") ∧
        charts.UnmarshalJSON (getMetadataValue std.ToLower attrs metaChartMetadata) = none ∧
        err = StorageError.unserialize (relativeKey prefixKey objKey)))

/-- Decodes a document as an index file without `entries`, whatever its bytes: the map
of the decoded index file is nil. -/
def decodeWithoutEntries : String → Option IndexFile :=
  fun _ => some { Entries := fun _ => none, Generated := 0, nilEntries := true }

/-! ## What `sort.Sort` is taken to do on a long slice -/

/-- The comparison `less` is a strict weak order on the entries of `l`, as a sort sees
them, that is on entries at different positions: of two entries at most one is less than
the other, and an entry that is not less than a second one, which is not less than a
third one, is not less than the third. -/
def StrictWeakOn {α : Type} (less : α → α → Bool) (l : List α) : Prop :=
  (∀ a b, [a, b].Subperm l → ¬ (less a b = true ∧ less b a = true)) ∧
  (∀ a b c, [a, b, c].Subperm l → less a b = false → less b c = false → less a c = false)

/-- The contract of `sort.Sort` for a slice of more than 12 elements, which the standard
library sorts by its pattern-defeating quicksort: where the comparison is a strict weak
order on the slice, the result is a permutation of the slice in which no element is less
than the element before it, and a slice that is in that order already is left as it
is (the quicksort finds no inversion among its pivot candidates and its first pass of
insertion sort finds none among neighbours). -/
def Std.sorts (std : Std) : Prop :=
  ∀ (less : ChartVersion → ChartVersion → Bool) (l : ChartVersions), StrictWeakOn less l →
    (std.pdqsort less l).Perm l ∧
    (std.pdqsort less l).Chain' (fun earlier later => less later earlier = false) ∧
    (l.Chain' (fun earlier later => less later earlier = false) → std.pdqsort less l = l)

/-! ## `Version.Equal` is an equivalence -/

namespace semver

theorem compareSegment_eq_zero (v o : Nat) : compareSegment v o = 0 ↔ v = o := by
  unfold compareSegment
  by_cases h1 : v < o
  · simp only [h1, if_true]
    constructor
    · intro h
      exact absurd h (by decide)
    · intro h
      omega
  · by_cases h2 : v > o
    · simp only [h1, h2, if_true, if_false]
      constructor
      · intro h
        exact absurd h (by decide)
      · intro h
        omega
    · simp only [h1, h2, if_false, true_iff]
      omega

theorem comparePrePart_eq_zero (s o : List Char) : comparePrePart s o = 0 ↔ s = o := by
  unfold comparePrePart
  by_cases h : s = o
  · simp [h]
  · simp only [h, if_false, iff_false]
    split_ifs <;> first | decide | (split <;> first | decide | (split_ifs <;> decide))

theorem comparePrereleaseParts_nil_right :
    ∀ a : List (List Char), comparePrereleaseParts a [] = 0 ↔ trimParts a = [] := by
  intro a
  induction a with
  | nil => simp [comparePrereleaseParts, trimParts]
  | cons s ss ih =>
    unfold comparePrereleaseParts trimParts
    by_cases hs : s = []
    · subst hs
      have h0 : comparePrePart [] [] = 0 := (comparePrePart_eq_zero _ _).mpr rfl
      simp only [h0, ne_eq, not_true_eq_false, if_false, ih, true_and]
      by_cases ht : trimParts ss = [] <;> simp [ht]
    · have h0 : comparePrePart s [] ≠ 0 := fun h => hs ((comparePrePart_eq_zero _ _).mp h)
      simp [h0, hs]

theorem comparePrereleaseParts_nil_left :
    ∀ b : List (List Char), comparePrereleaseParts [] b = 0 ↔ trimParts b = [] := by
  intro b
  induction b with
  | nil => simp [comparePrereleaseParts, trimParts]
  | cons o os ih =>
    unfold comparePrereleaseParts trimParts
    by_cases ho : o = []
    · subst ho
      have h0 : comparePrePart [] [] = 0 := (comparePrePart_eq_zero _ _).mpr rfl
      simp only [h0, ne_eq, not_true_eq_false, if_false, ih, true_and]
      by_cases ht : trimParts os = [] <;> simp [ht]
    · have h0 : comparePrePart [] o ≠ 0 :=
        fun h => ho ((comparePrePart_eq_zero _ _).mp h).symm
      simp [h0, ho]

theorem comparePrereleaseParts_eq_zero :
    ∀ a b : List (List Char), comparePrereleaseParts a b = 0 ↔ trimParts a = trimParts b := by
  intro a
  induction a with
  | nil =>
    intro b
    rw [comparePrereleaseParts_nil_left]
    simp only [trimParts]
    exact eq_comm
  | cons s ss ih =>
    intro b
    cases b with
    | nil =>
      rw [comparePrereleaseParts_nil_right]
      simp only [trimParts]
    | cons o os =>
      unfold comparePrereleaseParts
      by_cases hso : s = o
      · subst hso
        have h0 : comparePrePart s s = 0 := (comparePrePart_eq_zero _ _).mpr rfl
        simp only [h0, ne_eq, not_true_eq_false, if_false, ih os, trimParts]
        constructor
        · intro h
          rw [h]
        · intro h
          by_cases h1 : s = [] ∧ trimParts ss = []
          · by_cases h2 : s = [] ∧ trimParts os = []
            · rw [h1.2, h2.2]
            · rw [if_pos h1, if_neg h2] at h
              exact absurd h (by simp)
          · by_cases h2 : s = [] ∧ trimParts os = []
            · rw [if_neg h1, if_pos h2] at h
              exact absurd h (by simp)
            · rw [if_neg h1, if_neg h2] at h
              exact (List.cons.inj h).2
      · have h0 : comparePrePart s o ≠ 0 := fun h => hso ((comparePrePart_eq_zero _ _).mp h)
        simp only [h0, ne_eq, not_false_eq_true, if_true, false_iff, trimParts]
        intro h
        by_cases h1 : s = [] ∧ trimParts ss = []
        · by_cases h2 : o = [] ∧ trimParts os = []
          · exact hso (h1.1.trans h2.1.symm)
          · rw [if_pos h1, if_neg h2] at h
            exact absurd h (by simp)
        · by_cases h2 : o = [] ∧ trimParts os = []
          · rw [if_neg h1, if_pos h2] at h
            exact absurd h (by simp)
          · rw [if_neg h1, if_neg h2] at h
            exact hso (List.cons.inj h).1

theorem Version.Equal_iff_key (v o : Version) : v.Equal o = true ↔ v.key = o.key := by
  unfold Version.Equal Version.Compare Version.key comparePrerelease
  rw [beq_iff_eq]
  by_cases h1 : v.major = o.major
  · by_cases h2 : v.minor = o.minor
    · by_cases h3 : v.patch = o.patch
      · have e1 := (compareSegment_eq_zero v.major o.major).mpr h1
        have e2 := (compareSegment_eq_zero v.minor o.minor).mpr h2
        have e3 := (compareSegment_eq_zero v.patch o.patch).mpr h3
        simp only [e1, e2, e3, ne_eq, not_true_eq_false, if_false]
        simp only [Prod.mk.injEq, h1, h2, h3, true_and]
        by_cases hv : v.pre = ""
        · by_cases ho : o.pre = "" <;> simp [hv, ho]
        · by_cases ho : o.pre = ""
          · simp [hv, ho]
          · simp [hv, ho, comparePrereleaseParts_eq_zero]
      · have e1 := (compareSegment_eq_zero v.major o.major).mpr h1
        have e2 := (compareSegment_eq_zero v.minor o.minor).mpr h2
        have e3 : compareSegment v.patch o.patch ≠ 0 :=
          fun h => h3 ((compareSegment_eq_zero _ _).mp h)
        simp [e1, e2, e3, h3]
    · have e1 := (compareSegment_eq_zero v.major o.major).mpr h1
      have e2 : compareSegment v.minor o.minor ≠ 0 :=
        fun h => h2 ((compareSegment_eq_zero _ _).mp h)
      simp [e1, e2, h2]
  · have e1 : compareSegment v.major o.major ≠ 0 :=
      fun h => h1 ((compareSegment_eq_zero _ _).mp h)
    simp [e1, h1]

theorem Version.Equal_comm (v o : Version) : v.Equal o = o.Equal v := by
  rw [Bool.eq_iff_iff, Version.Equal_iff_key, Version.Equal_iff_key]
  exact eq_comm

theorem Version.Equal_trans {u v o : Version} (h1 : u.Equal v = true)
    (h2 : v.Equal o = true) : u.Equal o = true := by
  rw [Version.Equal_iff_key] at *
  exact h1.trans h2

end semver

/-! ## The range loop of `AddOrReplace` -/

theorem semEqual_of_new (lib : Lib) {a : String} {va : semver.Version}
    (ha : lib.NewVersion a = some va) (b : String) :
    semEqual lib a b = (match lib.NewVersion b with
      | some vb => va.Equal vb
      | none => false) := by
  unfold semEqual
  rw [ha]
  cases lib.NewVersion b <;> rfl

/-- The loop runs to its end when every stored version parses and none is equal to the
new one. -/
theorem scanVersions_done (lib : Lib) {new : String} {csv : semver.Version}
    (hnew : lib.NewVersion new = some csv) :
    ∀ (entry : ChartVersions) (k : Nat),
      (∀ v ∈ entry, (lib.NewVersion v.Version).isSome) →
      (∀ v ∈ entry, semEqual lib new v.Version = false) →
      scanVersions lib csv entry k = Scan.done := by
  intro entry
  induction entry with
  | nil => intro k _ _; rfl
  | cons x rest ih =>
    intro k hp hne
    have hx0 := hp x (List.mem_cons_self _ _)
    have he0 := hne x (List.mem_cons_self _ _)
    rw [semEqual_of_new lib hnew] at he0
    unfold scanVersions
    cases hx : lib.NewVersion x.Version with
    | none => rw [hx] at hx0; simp at hx0
    | some w =>
      rw [hx] at he0
      simp only at he0
      simp only [he0]
      exact ih (k + 1) (fun v hv => hp v (List.mem_cons_of_mem _ hv))
        (fun v hv => hne v (List.mem_cons_of_mem _ hv))

/-- The loop returns the parse error when a stored version does not parse and no entry
before it is equal to the new version. -/
theorem scanVersions_failed (lib : Lib) {new : String} {csv : semver.Version}
    (hnew : lib.NewVersion new = some csv) :
    ∀ (entry : ChartVersions) (k i : Nat),
      (∀ j v, j < i → entry[j]? = some v → semEqual lib new v.Version = false) →
      (∃ v, entry[i]? = some v ∧ lib.NewVersion v.Version = none) →
      ∃ s, scanVersions lib csv entry k = Scan.failed s := by
  intro entry
  induction entry with
  | nil =>
    intro k i _ h
    obtain ⟨v, hv, _⟩ := h
    simp at hv
  | cons x rest ih =>
    intro k i hne hex
    unfold scanVersions
    cases hx : lib.NewVersion x.Version with
    | none => exact ⟨_, rfl⟩
    | some w =>
      cases i with
      | zero =>
        obtain ⟨v, hv, he⟩ := hex
        simp at hv
        subst hv
        rw [hx] at he
        simp at he
      | succ i =>
        have he0 := hne 0 x (Nat.succ_pos i) (by simp)
        rw [semEqual_of_new lib hnew, hx] at he0
        simp only at he0
        simp only [he0]
        exact ih (k + 1) i
          (fun j v hj hv => hne (j + 1) v (Nat.succ_lt_succ hj) (by simpa using hv))
          (by simpa using hex)

/-! ## What `AddOrReplace` returns, by outcome of the loop -/

theorem AddOrReplace_absent (lib : Lib) (now : Nat) (idx : Index) (md : Metadata)
    (filename baseURL digest : String) (hmap : idx.index.nilEntries = false)
    (habs : idx.index.Entries md.Name = none) :
    Index.AddOrReplace lib now idx (Value.chartMetadata md) filename baseURL digest =
      { receiver := { index := { idx.index with
          Entries := Function.update idx.index.Entries md.Name
            (some [newEntry lib now md filename baseURL digest]) } }
        err := none
        panics := false } := by
  unfold Index.AddOrReplace
  simp only [habs, hmap, Bool.false_eq_true, if_false]
  rfl

theorem AddOrReplace_absent_nil (lib : Lib) (now : Nat) (idx : Index) (md : Metadata)
    (filename baseURL digest : String) (hmap : idx.index.nilEntries = true)
    (habs : idx.index.Entries md.Name = none) :
    Index.AddOrReplace lib now idx (Value.chartMetadata md) filename baseURL digest =
      { receiver := idx, err := none, panics := true } := by
  unfold Index.AddOrReplace
  simp only [habs, hmap, if_true]

theorem AddOrReplace_invalid (lib : Lib) (now : Nat) (idx : Index) (md : Metadata)
    (filename baseURL digest : String) {entry : ChartVersions}
    (hentry : idx.index.Entries md.Name = some entry)
    (hnew : lib.NewVersion md.Version = none) :
    Index.AddOrReplace lib now idx (Value.chartMetadata md) filename baseURL digest =
      { receiver := idx, err := some (Error.invalidSemVer md.Version), panics := false } := by
  unfold Index.AddOrReplace
  simp only [hentry, hnew]

theorem AddOrReplace_failed (lib : Lib) (now : Nat) (idx : Index) (md : Metadata)
    (filename baseURL digest : String) {entry : ChartVersions} {csv : semver.Version}
    {s : String} (hentry : idx.index.Entries md.Name = some entry)
    (hnew : lib.NewVersion md.Version = some csv)
    (hscan : scanVersions lib csv entry 0 = Scan.failed s) :
    Index.AddOrReplace lib now idx (Value.chartMetadata md) filename baseURL digest =
      { receiver := idx, err := some (Error.invalidSemVer s), panics := false } := by
  unfold Index.AddOrReplace
  simp only [hentry, hnew, hscan]

theorem AddOrReplace_found (lib : Lib) (now : Nat) (idx : Index) (md : Metadata)
    (filename baseURL digest : String) {entry : ChartVersions} {csv : semver.Version}
    {i : Nat} (hentry : idx.index.Entries md.Name = some entry)
    (hnew : lib.NewVersion md.Version = some csv)
    (hscan : scanVersions lib csv entry 0 = Scan.found i) :
    Index.AddOrReplace lib now idx (Value.chartMetadata md) filename baseURL digest =
      { receiver := { index := { idx.index with
          Entries := Function.update idx.index.Entries md.Name
            (some (entry.set i (newEntry lib now md filename baseURL digest))) } }
        err := none
        panics := false } := by
  unfold Index.AddOrReplace
  simp only [hentry, hnew, hscan]
  rfl

theorem AddOrReplace_done (lib : Lib) (now : Nat) (idx : Index) (md : Metadata)
    (filename baseURL digest : String) {entry : ChartVersions} {csv : semver.Version}
    (hmap : idx.index.nilEntries = false)
    (hentry : idx.index.Entries md.Name = some entry)
    (hnew : lib.NewVersion md.Version = some csv)
    (hscan : scanVersions lib csv entry 0 = Scan.done) :
    Index.AddOrReplace lib now idx (Value.chartMetadata md) filename baseURL digest =
      { receiver := { index := { idx.index with
          Entries := Function.update idx.index.Entries md.Name
            (some (entry ++ [newEntry lib now md filename baseURL digest])) } }
        err := none
        panics := false } := by
  unfold Index.AddOrReplace
  simp only [hentry, hnew, hscan, hmap, Bool.false_eq_true, if_false]
  rfl

theorem AddOrReplace_done_nil (lib : Lib) (now : Nat) (idx : Index) (md : Metadata)
    (filename baseURL digest : String) {entry : ChartVersions} {csv : semver.Version}
    (hmap : idx.index.nilEntries = true)
    (hentry : idx.index.Entries md.Name = some entry)
    (hnew : lib.NewVersion md.Version = some csv)
    (hscan : scanVersions lib csv entry 0 = Scan.done) :
    Index.AddOrReplace lib now idx (Value.chartMetadata md) filename baseURL digest =
      { receiver := idx, err := none, panics := true } := by
  unfold Index.AddOrReplace
  simp only [hentry, hnew, hscan, hmap, if_true]

/-- A call that panics has returned no error. -/
theorem AddOrReplace_panics_err (lib : Lib) (now : Nat) (idx : Index) (metadata : Value)
    (filename baseURL digest : String) :
    (Index.AddOrReplace lib now idx metadata filename baseURL digest).panics = true →
    (Index.AddOrReplace lib now idx metadata filename baseURL digest).err = none := by
  unfold Index.AddOrReplace
  repeat' split
  all_goals simp

/-- The entries of the index after `AddOrReplace` differ from those before at most in
the list of the descriptor's package, and the rest of the index is kept. -/
theorem AddOrReplace_shape (lib : Lib) (now : Nat) (idx : Index) (md : Metadata)
    (filename baseURL digest : String) :
    (Index.AddOrReplace lib now idx (Value.chartMetadata md) filename baseURL digest).1 = idx ∨
    ∃ l, (Index.AddOrReplace lib now idx (Value.chartMetadata md) filename baseURL digest).1 =
      { index := { idx.index with
          Entries := Function.update idx.index.Entries md.Name (some l) } } := by
  cases hentry : idx.index.Entries md.Name with
  | none =>
    cases hmap : idx.index.nilEntries with
    | true =>
      rw [AddOrReplace_absent_nil lib now idx md filename baseURL digest hmap hentry]
      exact Or.inl rfl
    | false =>
      rw [AddOrReplace_absent lib now idx md filename baseURL digest hmap hentry]
      exact Or.inr ⟨_, rfl⟩
  | some entry =>
    cases hnew : lib.NewVersion md.Version with
    | none =>
      rw [AddOrReplace_invalid lib now idx md filename baseURL digest hentry hnew]
      exact Or.inl rfl
    | some csv =>
      cases hscan : scanVersions lib csv entry 0 with
      | failed s =>
        rw [AddOrReplace_failed lib now idx md filename baseURL digest hentry hnew hscan]
        exact Or.inl rfl
      | found i =>
        rw [AddOrReplace_found lib now idx md filename baseURL digest hentry hnew hscan]
        exact Or.inr ⟨_, rfl⟩
      | done =>
        cases hmap : idx.index.nilEntries with
        | true =>
          rw [AddOrReplace_done_nil lib now idx md filename baseURL digest hmap hentry hnew
            hscan]
          exact Or.inl rfl
        | false =>
          rw [AddOrReplace_done lib now idx md filename baseURL digest hmap hentry hnew
            hscan]
          exact Or.inr ⟨_, rfl⟩

/-- The lists of the packages other than the descriptor's are the same after
`AddOrReplace`. -/
theorem AddOrReplace_frame (lib : Lib) (now : Nat) (idx : Index) (md : Metadata)
    (filename baseURL digest : String) (q : String) (hq : q ≠ md.Name) :
    (Index.AddOrReplace lib now idx (Value.chartMetadata md) filename baseURL
      digest).1.index.Entries q = idx.index.Entries q := by
  rcases AddOrReplace_shape lib now idx md filename baseURL digest with h | ⟨l, h⟩
  · rw [h]
  · rw [h]
    exact Function.update_noteq hq _ _

/-- C2, amended: for an index whose map of entries is allocated (not nil), when the
package name is absent, or when the new version parses, every stored version of the
package parses and none is semantically equal to the new version, `AddOrReplace` with an
empty `baseURL` returns without a panic and without an error, and the list of the
package is the old list (empty for an absent name) followed by one new entry whose URLs
are `[filename]`, whose digest is the given digest and whose metadata is the given
descriptor; the other packages are as before. -/
theorem AddOrReplace_appends (lib : Lib) (now : Nat) (idx : Index) (md : Metadata)
    (filename digest : String)
    (hmap : idx.index.nilEntries = false)
    (h : idx.index.Entries md.Name = none ∨
      ∃ entry, idx.index.Entries md.Name = some entry ∧
        (lib.NewVersion md.Version).isSome ∧
        (∀ v ∈ entry, (lib.NewVersion v.Version).isSome) ∧
        (∀ v ∈ entry, semEqual lib md.Version v.Version = false)) :
    (Index.AddOrReplace lib now idx (Value.chartMetadata md) filename "" digest).panics =
      false ∧
    (Index.AddOrReplace lib now idx (Value.chartMetadata md) filename "" digest).2 = none ∧
    (Index.AddOrReplace lib now idx (Value.chartMetadata md) filename ""
        digest).1.index.Entries md.Name =
      some ((idx.index.Entries md.Name).getD [] ++
        [{ URLs := [filename], Metadata := md, Digest := digest, Created := now }]) ∧
    ∀ q, q ≠ md.Name →
      (Index.AddOrReplace lib now idx (Value.chartMetadata md) filename ""
        digest).1.index.Entries q = idx.index.Entries q := by
  refine ⟨?_, ?_, ?_, fun q hq => AddOrReplace_frame lib now idx md filename "" digest q hq⟩
  · rcases h with habs | ⟨entry, hentry, hnew, hparse, hne⟩
    · rw [AddOrReplace_absent lib now idx md filename "" digest hmap habs]
    · obtain ⟨csv, hcsv⟩ := Option.isSome_iff_exists.mp hnew
      rw [AddOrReplace_done lib now idx md filename "" digest hmap hentry hcsv
        (scanVersions_done lib hcsv entry 0 hparse hne)]
  · rcases h with habs | ⟨entry, hentry, hnew, hparse, hne⟩
    · rw [AddOrReplace_absent lib now idx md filename "" digest hmap habs]
    · obtain ⟨csv, hcsv⟩ := Option.isSome_iff_exists.mp hnew
      rw [AddOrReplace_done lib now idx md filename "" digest hmap hentry hcsv
        (scanVersions_done lib hcsv entry 0 hparse hne)]
  · rcases h with habs | ⟨entry, hentry, hnew, hparse, hne⟩
    · rw [AddOrReplace_absent lib now idx md filename "" digest hmap habs, habs]
      simp [newEntry, entryURL]
    · obtain ⟨csv, hcsv⟩ := Option.isSome_iff_exists.mp hnew
      rw [AddOrReplace_done lib now idx md filename "" digest hmap hentry hcsv
        (scanVersions_done lib hcsv entry 0 hparse hne), hentry]
      simp [newEntry, entryURL]

/-- Witness of C2, the publish scenario: `app` 1.0.0 with file `app-1.0.0.tgz` goes into
the empty index that `NewIndex` creates; afterwards `app` has the one entry located at
`app-1.0.0.tgz` and no other package exists. -/
theorem AddOrReplace_appends_witness :
    (Index.AddOrReplace helmLib 7 NewIndex (Value.chartMetadata (descriptor "app" "1.0.0"))
      "app-1.0.0.tgz" "" "sha").panics = false ∧
    (Index.AddOrReplace helmLib 7 NewIndex (Value.chartMetadata (descriptor "app" "1.0.0"))
      "app-1.0.0.tgz" "" "sha").2 = none ∧
    (Index.AddOrReplace helmLib 7 NewIndex (Value.chartMetadata (descriptor "app" "1.0.0"))
      "app-1.0.0.tgz" "" "sha").1.index.Entries "app" =
      some [{ URLs := ["app-1.0.0.tgz"], Metadata := descriptor "app" "1.0.0", Digest := "sha",
              Created := 7 }] ∧
    ∀ q, q ≠ "app" →
      (Index.AddOrReplace helmLib 7 NewIndex (Value.chartMetadata (descriptor "app" "1.0.0"))
        "app-1.0.0.tgz" "" "sha").1.index.Entries q = none :=
  AddOrReplace_appends helmLib 7 NewIndex (descriptor "app" "1.0.0") "app-1.0.0.tgz" "sha"
    rfl (Or.inl rfl)

/-- Counterexample to C2 as stated: the package is present, its one stored version
`1.0.0` parses and is not semantically equal to the new version `not-a-version`, and yet
`AddOrReplace` returns an error and appends nothing. -/
theorem AddOrReplace_appends_counterexample :
    (indexOf "app" ["1.0.0"]).index.Entries "app" =
      some [mkEntry "app" "1.0.0" "app-1.0.0.tgz"] ∧
    (helmLib.NewVersion (mkEntry "app" "1.0.0" "app-1.0.0.tgz").Version).isSome = true ∧
    semEqual helmLib "not-a-version" (mkEntry "app" "1.0.0" "app-1.0.0.tgz").Version = false ∧
    (Index.AddOrReplace helmLib 7 (indexOf "app" ["1.0.0"])
      (Value.chartMetadata (descriptor "app" "not-a-version")) "app.tgz" "" "sha").2 =
      some (Error.invalidSemVer "not-a-version") ∧
    (Index.AddOrReplace helmLib 7 (indexOf "app" ["1.0.0"])
      (Value.chartMetadata (descriptor "app" "not-a-version")) "app.tgz" "" "sha").1.index.Entries
        "app" = some [mkEntry "app" "1.0.0" "app-1.0.0.tgz"] := by
  decide

/-- C3, amended: when the package name is already present in the index and the new
descriptor's version does not parse as a semantic version, `AddOrReplace` fails with the
parse error of that version and leaves the index as it was. -/
theorem AddOrReplace_invalid_new_version (lib : Lib) (now : Nat) (idx : Index)
    (md : Metadata) (filename baseURL digest : String)
    (hpresent : (idx.index.Entries md.Name).isSome)
    (hnew : lib.NewVersion md.Version = none) :
    (Index.AddOrReplace lib now idx (Value.chartMetadata md) filename baseURL digest).2 =
      some (Error.invalidSemVer md.Version) ∧
    (Index.AddOrReplace lib now idx (Value.chartMetadata md) filename baseURL digest).1 = idx := by
  obtain ⟨entry, hentry⟩ := Option.isSome_iff_exists.mp hpresent
  rw [AddOrReplace_invalid lib now idx md filename baseURL digest hentry hnew]
  exact ⟨rfl, rfl⟩

/-- Witness of C3, amended: `app` is present and the new version is `not-a-version`. -/
theorem AddOrReplace_invalid_new_version_witness :
    (Index.AddOrReplace helmLib 7 (indexOf "app" ["1.0.0"])
      (Value.chartMetadata (descriptor "app" "not-a-version")) "app.tgz" "" "sha").2 =
      some (Error.invalidSemVer "not-a-version") :=
  (AddOrReplace_invalid_new_version helmLib 7 (indexOf "app" ["1.0.0"])
    (descriptor "app" "not-a-version") "app.tgz" "" "sha" (by decide) (by decide)).1

/-- Counterexample to C3 as stated: in an empty index the version `not-a-version`, which
does not parse, is accepted: `AddOrReplace` returns no error and stores the entry. -/
theorem AddOrReplace_invalid_new_version_counterexample :
    helmLib.NewVersion "not-a-version" = none ∧
    (Index.AddOrReplace helmLib 7 NewIndex
      (Value.chartMetadata (descriptor "app" "not-a-version")) "app.tgz" "" "sha").2 = none ∧
    (Index.AddOrReplace helmLib 7 NewIndex
      (Value.chartMetadata (descriptor "app" "not-a-version")) "app.tgz" "" "sha").1.index.Entries
        "app" =
      some [{ URLs := ["app.tgz"], Metadata := descriptor "app" "not-a-version", Digest := "sha",
              Created := 7 }] := by
  decide

/-- C4, amended: when the list of the package holds a version that does not parse, at a
position before which no entry is semantically equal to the new version, `AddOrReplace`
returns an error and leaves the index as it was. -/
theorem AddOrReplace_unparseable_stored (lib : Lib) (now : Nat) (idx : Index)
    (md : Metadata) (filename baseURL digest : String) (entry : ChartVersions) (i : Nat)
    (hentry : idx.index.Entries md.Name = some entry)
    (hbad : ∃ v, entry[i]? = some v ∧ lib.NewVersion v.Version = none)
    (hbefore : ∀ j v, j < i → entry[j]? = some v →
      semEqual lib md.Version v.Version = false) :
    (∃ s, (Index.AddOrReplace lib now idx (Value.chartMetadata md) filename baseURL digest).2 =
      some (Error.invalidSemVer s)) ∧
    (Index.AddOrReplace lib now idx (Value.chartMetadata md) filename baseURL digest).1 = idx := by
  cases hnew : lib.NewVersion md.Version with
  | none =>
    rw [AddOrReplace_invalid lib now idx md filename baseURL digest hentry hnew]
    exact ⟨⟨_, rfl⟩, rfl⟩
  | some csv =>
    obtain ⟨s, hs⟩ := scanVersions_failed lib hnew entry 0 i hbefore hbad
    rw [AddOrReplace_failed lib now idx md filename baseURL digest hentry hnew hs]
    exact ⟨⟨_, rfl⟩, rfl⟩

/-- Witness of C4, amended: stored `bad` then `1.0.0`, new version `1.0.0`; the
unparseable entry comes first and blocks the replacement. -/
theorem AddOrReplace_unparseable_stored_witness :
    (Index.AddOrReplace helmLib 7 (indexOf "app" ["bad", "1.0.0"])
      (Value.chartMetadata (descriptor "app" "1.0.0")) "app-1.0.0.tgz" "" "sha").1 =
      indexOf "app" ["bad", "1.0.0"] :=
  (AddOrReplace_unparseable_stored helmLib 7 (indexOf "app" ["bad", "1.0.0"])
    (descriptor "app" "1.0.0") "app-1.0.0.tgz" "" "sha"
    [mkEntry "app" "bad" "app-bad.tgz", mkEntry "app" "1.0.0" "app-1.0.0.tgz"] 0
    (by decide) ⟨mkEntry "app" "bad" "app-bad.tgz", by decide, by decide⟩
    (fun j v hj _ => absurd hj (Nat.not_lt_zero j))).2

/-- Counterexample to C4 as stated: the list holds the unparseable version `bad` after
`1.0.0`; `AddOrReplace` of version `1.0.0` returns no error, it replaces the entry at
position 0 and never reads `bad`. -/
theorem AddOrReplace_unparseable_stored_counterexample :
    (indexOf "app" ["1.0.0", "bad"]).index.Entries "app" =
      some [mkEntry "app" "1.0.0" "app-1.0.0.tgz", mkEntry "app" "bad" "app-bad.tgz"] ∧
    helmLib.NewVersion (mkEntry "app" "bad" "app-bad.tgz").Version = none ∧
    (Index.AddOrReplace helmLib 7 (indexOf "app" ["1.0.0", "bad"])
      (Value.chartMetadata (descriptor "app" "1.0.0")) "app-1.0.0.tgz" "" "sha").2 = none ∧
    (Index.AddOrReplace helmLib 7 (indexOf "app" ["1.0.0", "bad"])
      (Value.chartMetadata (descriptor "app" "1.0.0")) "app-1.0.0.tgz" "" "sha").1.index.Entries
        "app" =
      some [newEntry helmLib 7 (descriptor "app" "1.0.0") "app-1.0.0.tgz" "" "sha",
        mkEntry "app" "bad" "app-bad.tgz"] := by
  decide

/-! ## The loop of `Delete` -/

theorem findVersion_none (version : String) :
    ∀ (l : ChartVersions) (k : Nat),
      findVersion version l k = none ↔ ∀ cv ∈ l, cv.Version ≠ version := by
  intro l
  induction l with
  | nil => intro k; simp [findVersion]
  | cons x rest ih =>
    intro k
    unfold findVersion
    by_cases hx : x.Version = version
    · simp [hx]
    · simp [hx, ih (k + 1)]

theorem findVersion_first (version : String) :
    ∀ (l : ChartVersions) (k i : Nat) (cv : ChartVersion),
      l[i]? = some cv → cv.Version = version →
      (∀ j w, j < i → l[j]? = some w → w.Version ≠ version) →
      findVersion version l k = some (k + i, cv) := by
  intro l
  induction l with
  | nil => intro k i cv h; simp at h
  | cons x rest ih =>
    intro k i cv hi hv hfirst
    unfold findVersion
    cases i with
    | zero =>
      simp at hi
      subst hi
      simp [hv]
    | succ i =>
      have hx : x.Version ≠ version := hfirst 0 x (Nat.succ_pos i) (by simp)
      simp only [hx, if_false]
      rw [ih (k + 1) i cv (by simpa using hi) hv
        (fun j w hj hw => hfirst (j + 1) w (Nat.succ_lt_succ hj) (by simpa using hw))]
      simp
      omega

/-! ## What `Delete` returns, by outcome of its loop -/

theorem Delete_absent (idx : Index) (name version : String)
    (habs : idx.index.Entries name = none) :
    idx.Delete name version = (idx, "", some (Error.notFound name version)) := by
  unfold Index.Delete
  simp only [habs]

theorem Delete_nomatch (idx : Index) (name version : String) {entry : ChartVersions}
    (hentry : idx.index.Entries name = some entry)
    (hfind : findVersion version entry 0 = none) :
    idx.Delete name version = (idx, "", some (Error.notFound name version)) := by
  unfold Index.Delete
  simp only [hentry, hfind]

theorem Delete_match (idx : Index) (name version : String) {entry : ChartVersions}
    {i : Nat} {cv : ChartVersion}
    (hentry : idx.index.Entries name = some entry)
    (hfind : findVersion version entry 0 = some (i, cv)) :
    idx.Delete name version =
      ({ index := { idx.index with
          Entries := Function.update idx.index.Entries name
            (some (entry.take i ++ entry.drop (i + 1))) } },
        cv.URLs.headD "", none) := by
  unfold Index.Delete
  simp only [hentry, hfind]
  cases cv.URLs <;> rfl

/-! ## Claims about `Delete` -/

/-- C5: `Delete` returns an error exactly when no entry of package `name` has a version
string equal to `version`; the error is then the not-found error and the index is the
one before the call. -/
theorem Delete_fails_iff_no_exact_match (idx : Index) (name version : String) :
    ((idx.Delete name version).2.2 ≠ none ↔
      ¬ ∃ entry cv, idx.index.Entries name = some entry ∧ cv ∈ entry ∧
        cv.Version = version) ∧
    ((idx.Delete name version).2.2 ≠ none →
      (idx.Delete name version).2.2 = some (Error.notFound name version) ∧
      (idx.Delete name version).1 = idx) := by
  cases hentry : idx.index.Entries name with
  | none =>
    rw [Delete_absent idx name version hentry]
    simp
  | some entry =>
    cases hfind : findVersion version entry 0 with
    | none =>
      rw [Delete_nomatch idx name version hentry hfind]
      have := (findVersion_none version entry 0).mp hfind
      refine ⟨⟨fun _ => ?_, fun _ => by simp⟩, fun _ => ⟨rfl, rfl⟩⟩
      rintro ⟨e, cv, he, hcv, hv⟩
      cases he
      exact this cv hcv hv
    | some r =>
      obtain ⟨i, cv⟩ := r
      rw [Delete_match idx name version hentry hfind]
      have hne : ¬ (findVersion version entry 0 = none) := by rw [hfind]; simp
      rw [findVersion_none] at hne
      push_neg at hne
      obtain ⟨cv', hmem, hv⟩ := hne
      refine ⟨⟨fun h => absurd rfl h, fun h => absurd ⟨entry, cv', rfl, hmem, hv⟩ h⟩,
        fun h => absurd rfl h⟩

/-- Witness of C5: only `1.0.0` is stored, and `Delete` of `1.0` fails and changes
nothing. -/
theorem Delete_fails_iff_no_exact_match_witness :
    ((indexOf "app" ["1.0.0"]).Delete "app" "1.0").2.2 = some (Error.notFound "app" "1.0") ∧
    ((indexOf "app" ["1.0.0"]).Delete "app" "1.0").1 = indexOf "app" ["1.0.0"] :=
  (Delete_fails_iff_no_exact_match (indexOf "app" ["1.0.0"]) "app" "1.0").2 (by decide)

/-- C6: when the list of package `name` holds an entry whose version string is
`version`, the first such entry being `cv` at position `i`, then `Delete` succeeds, the
package keeps its key and its list is the old list without position `i` (one entry
fewer, the others in their order), and the returned URL is the first URL of `cv`, or
the empty string when `cv` has no URL. -/
theorem Delete_removes_first_match (idx : Index) (name version : String)
    (entry : ChartVersions) (i : Nat) (cv : ChartVersion)
    (hentry : idx.index.Entries name = some entry)
    (hi : entry[i]? = some cv) (hv : cv.Version = version)
    (hfirst : ∀ j w, j < i → entry[j]? = some w → w.Version ≠ version) :
    (idx.Delete name version).2.2 = none ∧
    (idx.Delete name version).1.index.Entries name = some (entry.eraseIdx i) ∧
    (idx.Delete name version).2.1 = cv.URLs.headD "" ∧
    (entry.eraseIdx i).length + 1 = entry.length ∧
    (entry.eraseIdx i).Sublist entry := by
  have hfind := findVersion_first version entry 0 i cv hi hv hfirst
  rw [Nat.zero_add] at hfind
  have hlt : i < entry.length := by
    rcases Nat.lt_or_ge i entry.length with h | h
    · exact h
    · rw [List.getElem?_eq_none h] at hi
      cases hi
  rw [Delete_match idx name version hentry hfind]
  refine ⟨rfl, ?_, rfl, ?_, List.eraseIdx_sublist entry i⟩
  · simp [List.eraseIdx_eq_take_drop_succ]
  · rw [List.length_eraseIdx_of_lt hlt]
    omega

/-- Witness of C6: the only entry of `app` is deleted, the key `app` stays with an
empty list and the stored URL is returned; and the second of three entries is deleted,
the first and the third stay in their order. -/
theorem Delete_removes_first_match_witness :
    ((indexOf "app" ["1.0.0"]).Delete "app" "1.0.0").2.2 = none ∧
    ((indexOf "app" ["1.0.0"]).Delete "app" "1.0.0").1.index.Entries "app" = some [] ∧
    ((indexOf "app" ["1.0.0"]).Delete "app" "1.0.0").2.1 = "app-1.0.0.tgz" ∧
    ((indexOf "app" ["1.0.0", "1.1.0", "1.2.0"]).Delete "app" "1.1.0").2.2 = none ∧
    ((indexOf "app" ["1.0.0", "1.1.0", "1.2.0"]).Delete "app" "1.1.0").1.index.Entries "app" =
      some [mkEntry "app" "1.0.0" "app-1.0.0.tgz", mkEntry "app" "1.2.0" "app-1.2.0.tgz"] ∧
    ((indexOf "app" ["1.0.0", "1.1.0", "1.2.0"]).Delete "app" "1.1.0").2.1 =
      "app-1.1.0.tgz" := by
  have h := Delete_removes_first_match (indexOf "app" ["1.0.0"]) "app" "1.0.0"
    [mkEntry "app" "1.0.0" "app-1.0.0.tgz"] 0 (mkEntry "app" "1.0.0" "app-1.0.0.tgz")
    (by decide) (by decide) (by decide) (fun j w hj _ => absurd hj (Nat.not_lt_zero j))
  have h3 := Delete_removes_first_match (indexOf "app" ["1.0.0", "1.1.0", "1.2.0"]) "app"
    "1.1.0"
    [mkEntry "app" "1.0.0" "app-1.0.0.tgz", mkEntry "app" "1.1.0" "app-1.1.0.tgz",
      mkEntry "app" "1.2.0" "app-1.2.0.tgz"] 1 (mkEntry "app" "1.1.0" "app-1.1.0.tgz")
    (by decide) (by decide) (by decide)
    (fun j w hj hw => by
      have hj0 : j = 0 := by omega
      subst hj0
      simp only [List.getElem?_cons_zero, Option.some.injEq] at hw
      rw [← hw]
      decide)
  exact ⟨h.1, h.2.1, h.2.2.1, h3.1, h3.2.1, h3.2.2.1⟩

/-- The lists of the packages other than `name` are the same after `Delete`. -/
theorem Delete_frame (idx : Index) (name version q : String) (hq : q ≠ name) :
    (idx.Delete name version).1.index.Entries q = idx.index.Entries q := by
  cases hentry : idx.index.Entries name with
  | none => rw [Delete_absent idx name version hentry]
  | some entry =>
    cases hfind : findVersion version entry 0 with
    | none => rw [Delete_nomatch idx name version hentry hfind]
    | some r =>
      rw [Delete_match idx name version hentry hfind]
      exact Function.update_noteq hq _ _

/-- C10: for a package name `q` other than the one being mutated, the list stored under
`q` (or the absence of the key `q`) is the same before and after `AddOrReplace` of a
descriptor for another package and before and after `Delete` for another package,
whatever the call returns. -/
theorem mutations_keep_other_packages (lib : Lib) (now : Nat) (idx : Index)
    (metadata : Value) (filename baseURL digest name version q : String) :
    (∀ md, metadata = Value.chartMetadata md → q ≠ md.Name →
      (Index.AddOrReplace lib now idx metadata filename baseURL digest).1.index.Entries q =
        idx.index.Entries q) ∧
    (metadata = Value.other →
      (Index.AddOrReplace lib now idx metadata filename baseURL digest).1 = idx) ∧
    (q ≠ name → (idx.Delete name version).1.index.Entries q = idx.index.Entries q) := by
  refine ⟨?_, ?_, Delete_frame idx name version q⟩
  · intro md hmd hq
    subst hmd
    exact AddOrReplace_frame lib now idx md filename baseURL digest q hq
  · intro hmd
    subst hmd
    rfl

/-- Witness of C10: replacing and deleting in package `app` leaves the key `lib`
absent; and adding `app` to an index that holds `lib`, or deleting from `app` there,
leaves the list of `lib` as it was. -/
theorem mutations_keep_other_packages_witness :
    (Index.AddOrReplace helmLib 7 (indexOf "app" ["1.0.0"])
      (Value.chartMetadata (descriptor "app" "1.0")) "app-1.0.tgz" "" "sha").1.index.Entries
        "lib" = none ∧
    ((indexOf "app" ["1.0.0"]).Delete "app" "1.0.0").1.index.Entries "lib" = none ∧
    (Index.AddOrReplace helmLib 7 (indexOf "lib" ["0.1.0", "0.2.0"])
      (Value.chartMetadata (descriptor "app" "1.0.0")) "app-1.0.0.tgz" ""
        "sha").1.index.Entries "lib" =
      some [mkEntry "lib" "0.1.0" "lib-0.1.0.tgz", mkEntry "lib" "0.2.0" "lib-0.2.0.tgz"] ∧
    ((indexOf "lib" ["0.1.0", "0.2.0"]).Delete "app" "1.0.0").1.index.Entries "lib" =
      some [mkEntry "lib" "0.1.0" "lib-0.1.0.tgz", mkEntry "lib" "0.2.0" "lib-0.2.0.tgz"] :=
  ⟨(mutations_keep_other_packages helmLib 7 (indexOf "app" ["1.0.0"])
      (Value.chartMetadata (descriptor "app" "1.0")) "app-1.0.tgz" "" "sha" "app" "1.0.0"
      "lib").1 (descriptor "app" "1.0") rfl (by decide),
   (mutations_keep_other_packages helmLib 7 (indexOf "app" ["1.0.0"])
      (Value.chartMetadata (descriptor "app" "1.0")) "app-1.0.tgz" "" "sha" "app" "1.0.0"
      "lib").2.2 (by decide),
   (mutations_keep_other_packages helmLib 7 (indexOf "lib" ["0.1.0", "0.2.0"])
      (Value.chartMetadata (descriptor "app" "1.0.0")) "app-1.0.0.tgz" "" "sha" "app"
      "1.0.0" "lib").1 (descriptor "app" "1.0.0") rfl (by decide),
   (mutations_keep_other_packages helmLib 7 (indexOf "lib" ["0.1.0", "0.2.0"])
      (Value.chartMetadata (descriptor "app" "1.0.0")) "app-1.0.0.tgz" "" "sha" "app"
      "1.0.0" "lib").2.2 (by decide)⟩

/-! ## The invariant: no two entries of a package with equal versions -/

theorem semEqual_comm (lib : Lib) (a b : String) : semEqual lib a b = semEqual lib b a := by
  unfold semEqual
  cases lib.NewVersion a <;> cases lib.NewVersion b <;>
    first | rfl | exact semver.Version.Equal_comm _ _

theorem semEqual_trans (lib : Lib) {a b c : String} (h1 : semEqual lib a b = true)
    (h2 : semEqual lib b c = true) : semEqual lib a c = true := by
  unfold semEqual at *
  cases ha : lib.NewVersion a with
  | none => rw [ha] at h1; simp at h1
  | some va =>
    cases hb : lib.NewVersion b with
    | none => rw [ha, hb] at h1; simp at h1
    | some vb =>
      cases hc : lib.NewVersion c with
      | none => rw [hb, hc] at h2; simp at h2
      | some vc =>
        rw [ha, hb] at h1
        rw [hb, hc] at h2
        exact semver.Version.Equal_trans h1 h2

/-- After the slot of the first equal entry is overwritten with an entry of the new
version, the list still has no two equal versions. -/
theorem scanVersions_found_noDuplicates (lib : Lib) {csv : semver.Version}
    (cr : ChartVersion) (hnew : lib.NewVersion cr.Version = some csv) :
    ∀ (entry : ChartVersions) (k n : Nat),
      scanVersions lib csv entry k = Scan.found n → NoDuplicateVersions lib entry →
      ∃ i, n = k + i ∧ NoDuplicateVersions lib (entry.set i cr) := by
  intro entry
  induction entry with
  | nil => intro k n h; simp [scanVersions] at h
  | cons x rest ih =>
    intro k n hscan hinv
    unfold NoDuplicateVersions at hinv
    rw [List.pairwise_cons] at hinv
    unfold scanVersions at hscan
    cases hx : lib.NewVersion x.Version with
    | none => rw [hx] at hscan; simp at hscan
    | some w =>
      rw [hx] at hscan
      simp only at hscan
      by_cases he : csv.Equal w = true
      · rw [if_pos he] at hscan
        refine ⟨0, by simpa using (Scan.found.inj hscan).symm, ?_⟩
        have hnx : semEqual lib cr.Version x.Version = true := by
          rw [semEqual_of_new lib hnew, hx]
          exact he
        unfold NoDuplicateVersions
        rw [List.set_cons_zero, List.pairwise_cons]
        refine ⟨fun b hb => ?_, hinv.2⟩
        have hxb := (hinv.1 b hb).1
        have hcb : semEqual lib cr.Version b.Version = false := by
          cases hcb : semEqual lib cr.Version b.Version with
          | false => rfl
          | true =>
            rw [semEqual_comm] at hnx
            rw [semEqual_trans lib hnx hcb] at hxb
            cases hxb
        exact ⟨hcb, by rw [semEqual_comm]; exact hcb⟩
      · rw [if_neg he] at hscan
        obtain ⟨i, hn, hi⟩ := ih (k + 1) n hscan hinv.2
        refine ⟨i + 1, by omega, ?_⟩
        have hnx : semEqual lib cr.Version x.Version = false := by
          rw [semEqual_of_new lib hnew, hx]
          simpa using he
        unfold NoDuplicateVersions
        rw [List.set_cons_succ, List.pairwise_cons]
        refine ⟨fun b hb => ?_, hi⟩
        rcases List.mem_or_eq_of_mem_set hb with hb | hb
        · exact hinv.1 b hb
        · subst hb
          exact ⟨by rw [semEqual_comm]; exact hnx, hnx⟩

/-- When the loop runs to its end, no stored version is equal to the new one. -/
theorem scanVersions_done_spec (lib : Lib) {new : String} {csv : semver.Version}
    (hnew : lib.NewVersion new = some csv) :
    ∀ (entry : ChartVersions) (k : Nat),
      scanVersions lib csv entry k = Scan.done →
      ∀ v ∈ entry, semEqual lib new v.Version = false := by
  intro entry
  induction entry with
  | nil => intro k _ v hv; simp at hv
  | cons x rest ih =>
    intro k hscan v hv
    unfold scanVersions at hscan
    cases hx : lib.NewVersion x.Version with
    | none => rw [hx] at hscan; simp at hscan
    | some w =>
      rw [hx] at hscan
      simp only at hscan
      by_cases he : csv.Equal w = true
      · rw [if_pos he] at hscan
        cases hscan
      · rw [if_neg he] at hscan
        rcases List.mem_cons.mp hv with hv | hv
        · subst hv
          rw [semEqual_of_new lib hnew, hx]
          simpa using he
        · exact ih (k + 1) hscan v hv

theorem NoDuplicates_update (lib : Lib) (idx : Index) (name : String) (l : ChartVersions)
    (hinv : idx.NoDuplicates lib) (hl : NoDuplicateVersions lib l) :
    Index.NoDuplicates lib { index := { idx.index with
      Entries := Function.update idx.index.Entries name (some l) } } := by
  intro n entry hn
  by_cases hnn : n = name
  · subst hnn
    simp only [Function.update_same, Option.some.injEq] at hn
    subst hn
    exact hl
  · simp only [Function.update_noteq hnn] at hn
    exact hinv n entry hn

theorem AddOrReplace_noDuplicates (lib : Lib) (now : Nat) (idx : Index) (metadata : Value)
    (filename baseURL digest : String) (hinv : idx.NoDuplicates lib) :
    (Index.AddOrReplace lib now idx metadata filename baseURL digest).1.NoDuplicates lib := by
  cases metadata with
  | other => exact hinv
  | chartMetadata md =>
    cases hentry : idx.index.Entries md.Name with
    | none =>
      cases hmap : idx.index.nilEntries with
      | true =>
        rw [AddOrReplace_absent_nil lib now idx md filename baseURL digest hmap hentry]
        exact hinv
      | false =>
        rw [AddOrReplace_absent lib now idx md filename baseURL digest hmap hentry]
        exact NoDuplicates_update lib idx md.Name _ hinv (List.pairwise_singleton _ _)
    | some entry =>
      cases hnew : lib.NewVersion md.Version with
      | none =>
        rw [AddOrReplace_invalid lib now idx md filename baseURL digest hentry hnew]
        exact hinv
      | some csv =>
        cases hscan : scanVersions lib csv entry 0 with
        | failed s =>
          rw [AddOrReplace_failed lib now idx md filename baseURL digest hentry hnew hscan]
          exact hinv
        | found i =>
          rw [AddOrReplace_found lib now idx md filename baseURL digest hentry hnew hscan]
          obtain ⟨j, hj, hset⟩ := scanVersions_found_noDuplicates lib
            (newEntry lib now md filename baseURL digest) hnew entry 0 i hscan
            (hinv md.Name entry hentry)
          rw [Nat.zero_add] at hj
          subst hj
          exact NoDuplicates_update lib idx md.Name _ hinv hset
        | done =>
          cases hmap : idx.index.nilEntries with
          | true =>
            rw [AddOrReplace_done_nil lib now idx md filename baseURL digest hmap hentry
              hnew hscan]
            exact hinv
          | false =>
            rw [AddOrReplace_done lib now idx md filename baseURL digest hmap hentry hnew
              hscan]
            refine NoDuplicates_update lib idx md.Name _ hinv ?_
            have hne := scanVersions_done_spec lib hnew entry 0 hscan
            unfold NoDuplicateVersions
            rw [List.pairwise_append]
            refine ⟨hinv md.Name entry hentry, List.pairwise_singleton _ _, ?_⟩
            intro a ha b hb
            rw [List.mem_singleton] at hb
            subst hb
            exact ⟨by rw [semEqual_comm]; exact hne a ha, hne a ha⟩

theorem Delete_noDuplicates (lib : Lib) (idx : Index) (name version : String)
    (hinv : idx.NoDuplicates lib) : (idx.Delete name version).1.NoDuplicates lib := by
  cases hentry : idx.index.Entries name with
  | none =>
    rw [Delete_absent idx name version hentry]
    exact hinv
  | some entry =>
    cases hfind : findVersion version entry 0 with
    | none =>
      rw [Delete_nomatch idx name version hentry hfind]
      exact hinv
    | some r =>
      obtain ⟨i, cv⟩ := r
      rw [Delete_match idx name version hentry hfind]
      refine NoDuplicates_update lib idx name _ hinv ?_
      rw [← List.eraseIdx_eq_take_drop_succ]
      exact List.Pairwise.sublist (List.eraseIdx_sublist entry i) (hinv name entry hentry)

/-- C8: if within the list of every package no two entries have semantically equal
versions, the same holds for the index after any call of `AddOrReplace`, whether it
returns an error or not, and after any call of `Delete`. -/
theorem NoDuplicates_preserved (lib : Lib) (now : Nat) (idx : Index) (metadata : Value)
    (filename baseURL digest name version : String) (hinv : idx.NoDuplicates lib) :
    (Index.AddOrReplace lib now idx metadata filename baseURL digest).1.NoDuplicates lib ∧
    (idx.Delete name version).1.NoDuplicates lib :=
  ⟨AddOrReplace_noDuplicates lib now idx metadata filename baseURL digest hinv,
    Delete_noDuplicates lib idx name version hinv⟩

theorem indexOf_noDuplicates (lib : Lib) (name : String) (versions : List String)
    (h : NoDuplicateVersions lib
      (versions.map fun v => mkEntry name v (name ++ "-" ++ v ++ ".tgz"))) :
    (indexOf name versions).NoDuplicates lib := by
  intro n entry hn
  unfold indexOf at hn
  by_cases hnn : n = name
  · subst hnn
    simp only [Function.update_same, Option.some.injEq] at hn
    subst hn
    exact h
  · simp only [Function.update_noteq hnn] at hn
    cases hn

/-- Witness of C8: the index holds `app` 2.0.0 and 1.0; replacing 1.0 by 1.0.0 and
deleting 2.0.0 both keep the invariant. -/
theorem NoDuplicates_preserved_witness :
    (indexOf "app" ["2.0.0", "1.0"]).NoDuplicates helmLib ∧
    (Index.AddOrReplace helmLib 7 (indexOf "app" ["2.0.0", "1.0"])
      (Value.chartMetadata (descriptor "app" "1.0.0")) "app-1.0.0.tgz" "" "sha").1.NoDuplicates
        helmLib ∧
    ((indexOf "app" ["2.0.0", "1.0"]).Delete "app" "2.0.0").1.NoDuplicates helmLib :=
  ⟨indexOf_noDuplicates helmLib "app" ["2.0.0", "1.0"] (by decide),
    NoDuplicates_preserved helmLib 7 (indexOf "app" ["2.0.0", "1.0"])
      (Value.chartMetadata (descriptor "app" "1.0.0")) "app-1.0.0.tgz" "" "sha" "app" "2.0.0"
      (indexOf_noDuplicates helmLib "app" ["2.0.0", "1.0"] (by decide))⟩

/-! ## `Add` and `Has` -/

theorem length_ne_zero_of_ne_empty {s : String} (h : s ≠ "") : s.length ≠ 0 := by
  intro h0
  apply h
  cases s with
  | mk data =>
    have hd : data = [] := List.length_eq_zero.mp h0
    subst hd
    rfl

theorem exactMatch_isSome (version : String) :
    ∀ l : ChartVersions, (∃ v ∈ l, v.Version = version) → (exactMatch version l).isSome := by
  intro l
  induction l with
  | nil => rintro ⟨v, hv, _⟩; cases hv
  | cons x rest ih =>
    rintro ⟨v, hv, hvv⟩
    unfold exactMatch
    by_cases hx : version = x.Version
    · simp [hx]
    · rw [if_neg hx]
      rcases List.mem_cons.mp hv with h | h
      · subst h
        exact absurd hvv.symm hx
      · exact ih ⟨v, h, hvv⟩

theorem Add_valid (lib : Lib) (now : Nat) (idx : Index) (md e : Metadata)
    (filename baseURL digest : String) (hmap : idx.index.nilEntries = false)
    (hvalid : lib.Validate (withAPIVersion md) = some e) :
    Index.Add lib now idx (Value.chartMetadata md) filename baseURL digest =
      { receiver := { index := { idx.index with
          Entries := Function.update idx.index.Entries e.Name
            (some ((idx.index.Entries e.Name).getD [] ++
              [newEntry lib now e filename baseURL digest])) } }
        err := none
        panics := false } := by
  unfold Index.Add IndexFile.MustAdd
  simp only [hvalid, hmap, Bool.false_eq_true, if_false]
  rfl

theorem Add_valid_nil (lib : Lib) (now : Nat) (idx : Index) (md e : Metadata)
    (filename baseURL digest : String) (hmap : idx.index.nilEntries = true)
    (hvalid : lib.Validate (withAPIVersion md) = some e) :
    Index.Add lib now idx (Value.chartMetadata md) filename baseURL digest =
      { receiver := idx, err := none, panics := true } := by
  unfold Index.Add IndexFile.MustAdd
  simp only [hvalid, hmap, if_true]

theorem Add_invalid (lib : Lib) (now : Nat) (idx : Index) (md : Metadata)
    (filename baseURL digest : String) (hvalid : lib.Validate (withAPIVersion md) = none) :
    Index.Add lib now idx (Value.chartMetadata md) filename baseURL digest =
      { receiver := idx, err := some (Error.addFile (Error.validateFailed filename)),
        panics := false } := by
  unfold Index.Add IndexFile.MustAdd
  simp only [hvalid]

/-- On an allocated map `Add` does not panic and leaves the map allocated. -/
theorem Add_allocated (lib : Lib) (now : Nat) (idx : Index) (metadata : Value)
    (filename baseURL digest : String) (hmap : idx.index.nilEntries = false) :
    (Index.Add lib now idx metadata filename baseURL digest).panics = false ∧
    (Index.Add lib now idx metadata filename baseURL digest).1.index.nilEntries = false := by
  cases metadata with
  | other => exact ⟨rfl, hmap⟩
  | chartMetadata md =>
    cases hvalid : lib.Validate (withAPIVersion md) with
    | none =>
      rw [Add_invalid lib now idx md filename baseURL digest hvalid]
      exact ⟨rfl, hmap⟩
    | some e =>
      rw [Add_valid lib now idx md e filename baseURL digest hmap hvalid]
      exact ⟨rfl, hmap⟩

/-- No call of `Add` in the loop of the consumer panics, from an allocated map on. -/
theorem consume_allocated (lib : Lib) (clock : Nat → Nat) :
    ∀ (items : List ChartInfo) (idx : Index) (k : Nat), idx.index.nilEntries = false →
      (consume lib clock idx k items).index.nilEntries = false := by
  intro items
  induction items with
  | nil => intro idx k h; exact h
  | cons item rest ih =>
    intro idx k h
    unfold consume
    exact ih _ (k + 1) (Add_allocated lib (clock k) idx _ item.Filename "" item.Hash h).2

/-- C7: for every index whose map of entries is allocated (not nil) and every descriptor
that `Validate` accepts, `e` being the descriptor as `Validate` leaves it, with a version
that is not empty and that `NewConstraint` parses: `Add` returns without a panic and
without an error, and afterwards `Has` of the name and the version of `e` is true. This
holds whether or not the name is absent from the index before. On a nil map `Add` does
not return. -/
theorem Add_then_Has (lib : Lib) (now : Nat) (idx : Index) (md e : Metadata)
    (filename baseURL digest : String)
    (hmap : idx.index.nilEntries = false)
    (hvalid : lib.Validate (withAPIVersion md) = some e)
    (hversion : e.Version ≠ "")
    (hconstraint : (lib.NewConstraint e.Version).isSome) :
    (Index.Add lib now idx (Value.chartMetadata md) filename baseURL digest).panics = false ∧
    (Index.Add lib now idx (Value.chartMetadata md) filename baseURL digest).2 = none ∧
    (Index.Add lib now idx (Value.chartMetadata md) filename baseURL digest).1.Has lib
      e.Name e.Version = true := by
  rw [Add_valid lib now idx md e filename baseURL digest hmap hvalid]
  refine ⟨rfl, rfl, ?_⟩
  obtain ⟨c, hc⟩ := Option.isSome_iff_exists.mp hconstraint
  have hex : (exactMatch e.Version ((idx.index.Entries e.Name).getD [] ++
      [newEntry lib now e filename baseURL digest])).isSome :=
    exactMatch_isSome e.Version _
      ⟨newEntry lib now e filename baseURL digest, by simp, rfl⟩
  obtain ⟨ver, hver⟩ := Option.isSome_iff_exists.mp hex
  unfold Index.Has IndexFile.Has IndexFile.Get
  simp only [Function.update_same, List.length_append, List.length_singleton,
    Nat.add_one_ne_zero, if_false, hversion, hc,
    length_ne_zero_of_ne_empty hversion, ne_eq, not_false_eq_true, if_true, hver]

/-- Witness of C7: `app` 1.0.0 is added to an empty index and is then found. -/
theorem Add_then_Has_witness :
    (Index.Add helmLib 7 NewIndex (Value.chartMetadata (descriptor "app" "1.0.0"))
      "app-1.0.0.tgz" "" "sha").panics = false ∧
    (Index.Add helmLib 7 NewIndex (Value.chartMetadata (descriptor "app" "1.0.0"))
      "app-1.0.0.tgz" "" "sha").2 = none ∧
    (Index.Add helmLib 7 NewIndex (Value.chartMetadata (descriptor "app" "1.0.0"))
      "app-1.0.0.tgz" "" "sha").1.Has helmLib "app" "1.0.0" = true :=
  Add_then_Has helmLib 7 NewIndex (descriptor "app" "1.0.0") (descriptor "app" "1.0.0")
    "app-1.0.0.tgz" "" "sha" rfl (by decide) (by decide) (by decide)

/-! ## The index built by the consumer of `reindex` -/

theorem noDuplicateVersions_iff_versions (lib : Lib) (l : ChartVersions) :
    NoDuplicateVersions lib l ↔
      (l.map ChartVersion.Version).Pairwise (distinctVersions lib) := by
  unfold NoDuplicateVersions
  rw [List.pairwise_map]

/-- Reordering a list, as sorting does, neither creates nor removes a pair of equal
versions. -/
theorem noDuplicateVersions_perm (lib : Lib) {l₁ l₂ : ChartVersions} (h : l₁.Perm l₂) :
    NoDuplicateVersions lib l₁ ↔ NoDuplicateVersions lib l₂ := by
  unfold NoDuplicateVersions
  exact List.Perm.pairwise_iff (fun hxy => ⟨hxy.2, hxy.1⟩) h

theorem noDuplicates_iff_versionsAt (lib : Lib) (idx : Index) :
    idx.NoDuplicates lib ↔ ∀ name, (versionsAt idx name).Pairwise (distinctVersions lib) := by
  constructor
  · intro h name
    unfold versionsAt
    cases hentry : idx.index.Entries name with
    | none => simp
    | some entry =>
      exact (noDuplicateVersions_iff_versions lib entry).mp (h name entry hentry)
  · intro h name entry hentry
    have := h name
    unfold versionsAt at this
    rw [hentry] at this
    exact (noDuplicateVersions_iff_versions lib entry).mpr this

/-- The versions of a package after the loop: those before it, followed by the versions
of the records of that package which `Add` accepted, in the order of the scan. -/
theorem consume_versionsAt (lib : Lib) (clock : Nat → Nat) (name : String) :
    ∀ (items : List ChartInfo) (idx : Index) (k : Nat), idx.index.nilEntries = false →
      versionsAt (consume lib clock idx k items) name =
        versionsAt idx name ++
          (((acceptedDescriptors lib items).filter fun e => e.Name = name).map
            Metadata.Version) := by
  intro items
  induction items with
  | nil => intro idx k _; simp [consume, acceptedDescriptors]
  | cons item rest ih =>
    intro idx k hmap
    unfold consume
    unfold acceptedDescriptors
    rw [List.filterMap_cons]
    cases hvalid : lib.Validate (withAPIVersion item.Meta) with
    | none =>
      rw [Add_invalid lib (clock k) idx item.Meta item.Filename "" item.Hash hvalid]
      dsimp only
      rw [ih idx (k + 1) hmap]
      rfl
    | some e =>
      rw [Add_valid lib (clock k) idx item.Meta e item.Filename "" item.Hash hmap hvalid]
      dsimp only
      rw [ih]
      · unfold acceptedDescriptors
        by_cases hn : e.Name = name
        · subst hn
          simp [versionsAt, List.filter_cons, newEntry, ChartVersion.Version]
        · have hn' : name ≠ e.Name := fun h => hn h.symm
          simp [versionsAt, List.filter_cons, hn, Function.update_noteq hn']
      · exact hmap

theorem pairwise_by_name (lib : Lib) :
    ∀ acc : List Metadata,
      (∀ name, (((acc.filter fun e => e.Name = name).map Metadata.Version).Pairwise
        (distinctVersions lib))) ↔
      acc.Pairwise fun a b => a.Name = b.Name → distinctVersions lib a.Version b.Version := by
  intro acc
  induction acc with
  | nil => simp
  | cons a t ih =>
    rw [List.pairwise_cons, ← ih]
    constructor
    · intro h
      refine ⟨fun b hb hab => ?_, fun name => ?_⟩
      · have := h a.Name
        rw [List.filter_cons] at this
        simp only [decide_True, if_true, List.map_cons, List.pairwise_cons] at this
        exact this.1 b.Version
          (List.mem_map.mpr ⟨b, List.mem_filter.mpr ⟨hb, by simp [hab]⟩, rfl⟩)
      · have := h name
        rw [List.filter_cons] at this
        by_cases hn : a.Name = name
        · simp only [hn, decide_True, if_true, List.map_cons, List.pairwise_cons] at this
          exact this.2
        · simpa only [hn, decide_False, Bool.false_eq_true, if_false] using this
    · rintro ⟨hhead, htail⟩ name
      rw [List.filter_cons]
      by_cases hn : a.Name = name
      · simp only [hn, decide_True, if_true, List.map_cons, List.pairwise_cons]
        refine ⟨fun v hv => ?_, htail name⟩
        obtain ⟨b, hb, hbv⟩ := List.mem_map.mp hv
        obtain ⟨hbt, hbn⟩ := List.mem_filter.mp hb
        rw [← hbv]
        exact hhead b hbt (hn.trans (of_decide_eq_true hbn).symm)
      · simpa only [hn, decide_False, Bool.false_eq_true, if_false] using htail name

/-- C9, amended: for every sequence of scan records, the index that the consumer builds
with `Index.Add` has no two entries with semantically equal versions within a package's
list exactly when no two records that `Add` accepts carry the same chart name and
semantically equal versions. -/
theorem buildIndex_noDuplicates_iff (lib : Lib) (clock : Nat → Nat)
    (items : List ChartInfo) :
    (buildIndex lib clock items).NoDuplicates lib ↔
      (acceptedDescriptors lib items).Pairwise fun a b =>
        a.Name = b.Name → distinctVersions lib a.Version b.Version := by
  rw [noDuplicates_iff_versionsAt, ← pairwise_by_name]
  unfold buildIndex
  constructor
  · intro h name
    have := h name
    rw [consume_versionsAt lib clock name items NewIndex 0 rfl] at this
    simpa [versionsAt, NewIndex] using this
  · intro h name
    rw [consume_versionsAt lib clock name items NewIndex 0 rfl]
    simpa [versionsAt, NewIndex] using h name

/-- Witness of C9, amended: two archives of `app`, versions 1.0.0 and 1.1.0, give an
index without equal versions. -/
theorem buildIndex_noDuplicates_iff_witness :
    (buildIndex helmLib (fun k => k)
      [{ Meta := descriptor "app" "1.0.0", Filename := "app-1.0.0.tgz", Hash := "h1" },
       { Meta := descriptor "app" "1.1.0", Filename := "app-1.1.0.tgz", Hash := "h2" }]).NoDuplicates
      helmLib :=
  (buildIndex_noDuplicates_iff helmLib (fun k => k)
    [{ Meta := descriptor "app" "1.0.0", Filename := "app-1.0.0.tgz", Hash := "h1" },
     { Meta := descriptor "app" "1.1.0", Filename := "app-1.1.0.tgz", Hash := "h2" }]).mpr
    (by
      unfold distinctVersions
      decide)

/-- Counterexample to C9 as stated: two archive objects with different file names carry
the same chart `app` 1.0.0; the index built from their records holds two entries of
version 1.0.0 under `app`. -/
theorem buildIndex_noDuplicates_counterexample :
    (buildIndex helmLib (fun k => k)
      [{ Meta := descriptor "app" "1.0.0", Filename := "app-1.0.0.tgz", Hash := "h1" },
       { Meta := descriptor "app" "1.0.0", Filename := "app-copy.tgz", Hash := "h1" }]).index.Entries
      "app" =
      some [{ URLs := ["app-1.0.0.tgz"], Metadata := descriptor "app" "1.0.0", Digest := "h1",
              Created := 0 },
            { URLs := ["app-copy.tgz"], Metadata := descriptor "app" "1.0.0", Digest := "h1",
              Created := 1 }] ∧
    semEqual helmLib "1.0.0" "1.0.0" = true ∧
    ¬ (buildIndex helmLib (fun k => k)
      [{ Meta := descriptor "app" "1.0.0", Filename := "app-1.0.0.tgz", Hash := "h1" },
       { Meta := descriptor "app" "1.0.0", Filename := "app-copy.tgz", Hash := "h1" }]).NoDuplicates
      helmLib := by
  refine ⟨by decide, by decide, fun h => ?_⟩
  exact absurd (h "app" _ rfl) (by decide)

/-! ## Side-channel attributes: `assembleObjectMetadata` and `getMetadataValue` -/

theorem utf8ByteSize_go_replicate (n : Nat) :
    String.utf8ByteSize.go (List.replicate n 'a') = n := by
  induction n with
  | zero => rfl
  | succ n ih =>
    rw [List.replicate_succ, String.utf8ByteSize.go, ih]
    rfl

theorem utf8ByteSize_replicate (n : Nat) :
    (String.mk (List.replicate n 'a')).utf8ByteSize = n :=
  utf8ByteSize_go_replicate n

theorem objectMetadataSize_pair (chartMeta chartDigest : String) :
    objectMetadataSize [(metaChartMetadata, chartMeta), (metaChartDigest, chartDigest)] =
      chartMeta.utf8ByteSize + chartDigest.utf8ByteSize + 26 := by
  have h1 : metaChartMetadata.utf8ByteSize = 14 := by decide
  have h2 : metaChartDigest.utf8ByteSize = 12 := by decide
  simp only [objectMetadataSize, h1, h2]
  omega

/-- C15, amended: `assembleObjectMetadata` returns no attributes exactly when the bytes
of `chartMeta` and `chartDigest` together with the 26 bytes of the two attribute keys
exceed the soft limit of 1900, that is when the two values together exceed 1874 bytes. -/
theorem assembleObjectMetadata_none_iff (chartMeta chartDigest : String) :
    assembleObjectMetadata chartMeta chartDigest = none ↔
      chartMeta.utf8ByteSize + chartDigest.utf8ByteSize + 26 > ossMetadataSoftLimitBytes := by
  unfold assembleObjectMetadata
  simp only [objectMetadataSize_pair]
  by_cases h : chartMeta.utf8ByteSize + chartDigest.utf8ByteSize + 26 > ossMetadataSoftLimitBytes
  · simp [h]
  · simp [h]

/-- Counterexample to C15 as stated: a descriptor of 1875 bytes with an empty digest is
below the soft limit of 1900 bytes, and yet no attributes are returned. -/
theorem assembleObjectMetadata_none_iff_counterexample :
    (String.mk (List.replicate 1875 'a')).utf8ByteSize + "".utf8ByteSize = 1875 ∧
    ¬ (1875 > ossMetadataSoftLimitBytes) ∧
    assembleObjectMetadata (String.mk (List.replicate 1875 'a')) "" = none := by
  refine ⟨?_, by decide, ?_⟩
  · rw [utf8ByteSize_replicate]
    rfl
  · unfold assembleObjectMetadata
    simp only [objectMetadataSize_pair, utf8ByteSize_replicate]
    decide

/-- C16: `assembleObjectMetadata` returns either no attributes at all, or the map of
exactly two attributes in which `chart-metadata` holds `chartMeta` and `chart-digest`
holds `chartDigest`, both as given. -/
theorem assembleObjectMetadata_all_or_nothing (chartMeta chartDigest : String) :
    assembleObjectMetadata chartMeta chartDigest = none ∨
    (assembleObjectMetadata chartMeta chartDigest =
        some [("chart-metadata", chartMeta), ("chart-digest", chartDigest)] ∧
      ∀ attrs, assembleObjectMetadata chartMeta chartDigest = some attrs →
        attrs.length = 2 ∧ attrs.lookup "chart-metadata" = some chartMeta ∧
        attrs.lookup "chart-digest" = some chartDigest) := by
  unfold assembleObjectMetadata
  by_cases h : objectMetadataSize
      [(metaChartMetadata, chartMeta), (metaChartDigest, chartDigest)] >
      ossMetadataSoftLimitBytes
  · left
    simp [h]
  · right
    simp only [h, if_false]
    refine ⟨rfl, ?_⟩
    intro attrs hattrs
    cases hattrs
    refine ⟨rfl, ?_, ?_⟩
    · simp [List.lookup, metaChartMetadata]
    · have hne : ("chart-digest" == metaChartMetadata) = false := by decide
      simp [List.lookup, metaChartDigest, hne]

theorem lookup_some_mem {key : String} :
    ∀ {attrs : Attributes} {v : String}, attrs.lookup key = some v → (key, v) ∈ attrs := by
  intro attrs
  induction attrs with
  | nil => intro v h; simp [List.lookup] at h
  | cons kv rest ih =>
    intro v h
    obtain ⟨k, w⟩ := kv
    unfold List.lookup at h
    by_cases hk : key == k
    · simp only [hk] at h
      cases h
      have : key = k := by simpa using hk
      subst this
      exact List.mem_cons_self _ _
    · simp only [hk] at h
      exact List.mem_cons_of_mem _ (ih h)

/-- C17: `getMetadataValue` returns the value stored under the key itself when the map
holds the key; otherwise, when some key of the map equals the key after lower-casing
both, it returns the value of such a key; and it returns the empty string when no key of
the map matches after lower-casing. -/
theorem getMetadataValue_case_insensitive (ToLower : String → String) (attrs : Attributes)
    (key : String) :
    (∀ v, attrs.lookup key = some v → getMetadataValue ToLower attrs key = v) ∧
    (attrs.lookup key = none → (∃ kv ∈ attrs, ToLower kv.1 = ToLower key) →
      ∃ kv ∈ attrs, ToLower kv.1 = ToLower key ∧
        getMetadataValue ToLower attrs key = kv.2) ∧
    ((∀ kv ∈ attrs, ToLower kv.1 ≠ ToLower key) →
      getMetadataValue ToLower attrs key = "") := by
  refine ⟨?_, ?_, ?_⟩
  · intro v hv
    unfold getMetadataValue
    rw [hv]
  · intro hnone hex
    unfold getMetadataValue
    rw [hnone]
    cases hfind : attrs.find? fun kv => ToLower kv.1 = ToLower key with
    | none =>
      obtain ⟨kv, hkv, hlow⟩ := hex
      have := List.find?_eq_none.mp hfind kv hkv
      simp [hlow] at this
    | some kv =>
      refine ⟨kv, List.mem_of_find?_eq_some hfind, ?_, rfl⟩
      simpa using List.find?_some hfind
  · intro hno
    unfold getMetadataValue
    cases hlook : attrs.lookup key with
    | some v => exact absurd rfl (hno (key, v) (lookup_some_mem hlook))
    | none =>
      have hfind : (attrs.find? fun kv => ToLower kv.1 = ToLower key) = none := by
        rw [List.find?_eq_none]
        intro kv hkv
        simpa using hno kv hkv
      simp only [hfind]

/-- Witness of C17: the store has capitalised the keys; the lookup of `Chart-Digest`
finds the value under the key itself, the lookup of an absent key gives the empty
string, and the lookup of `chart-digest` finds the value under `Chart-Digest`. -/
theorem getMetadataValue_case_insensitive_witness :
    getMetadataValue asciiToLower [("Chart-Digest", "abc"), ("Chart-Metadata", "m")]
      "Chart-Digest" = "abc" ∧
    getMetadataValue asciiToLower [("Chart-Digest", "abc"), ("Chart-Metadata", "m")]
      "content-type" = "" ∧
    getMetadataValue asciiToLower [("Chart-Digest", "abc"), ("Chart-Metadata", "m")]
      "chart-digest" = "abc" := by
  refine ⟨(getMetadataValue_case_insensitive asciiToLower
      [("Chart-Digest", "abc"), ("Chart-Metadata", "m")] "Chart-Digest").1 "abc" (by decide),
   (getMetadataValue_case_insensitive asciiToLower
      [("Chart-Digest", "abc"), ("Chart-Metadata", "m")] "content-type").2.2 (by decide), ?_⟩
  obtain ⟨kv, hmem, hlow, hval⟩ := (getMetadataValue_case_insensitive asciiToLower
      [("Chart-Digest", "abc"), ("Chart-Metadata", "m")] "chart-digest").2.1 (by decide)
    ⟨("Chart-Digest", "abc"), by decide, by decide⟩
  rw [hval]
  simp only [List.mem_cons, List.mem_singleton, List.not_mem_nil, or_false] at hmem
  rcases hmem with h | h
  · rw [h]
  · rw [h] at hlow
    exact absurd hlow (by decide)

/-! ## Insertion sort -/

theorem insertBack_perm {α : Type} (less : α → α → Bool) (x : α) :
    ∀ before : List α, (insertBack less x before).Perm (x :: before) := by
  intro before
  induction before with
  | nil => exact List.Perm.refl _
  | cons p before ih =>
    unfold insertBack
    by_cases h : less x p = true
    · rw [if_pos h]
      exact ((List.Perm.cons p ih).trans (List.Perm.swap x p before))
    · rw [if_neg h]

theorem insertionSortFrom_perm {α : Type} (less : α → α → Bool) :
    ∀ (rest done : List α), (insertionSortFrom less done rest).Perm (done ++ rest) := by
  intro rest
  induction rest with
  | nil =>
    intro done
    unfold insertionSortFrom
    rw [List.append_nil]
    exact List.reverse_perm done
  | cons x rest ih =>
    intro done
    unfold insertionSortFrom
    refine (ih (insertBack less x done)).trans ?_
    refine ((insertBack_perm less x done).append_right rest).trans ?_
    exact List.perm_middle.symm

theorem insertionSort_perm {α : Type} (less : α → α → Bool) (data : List α) :
    (insertionSort less data).Perm data := by
  unfold insertionSort
  simpa using insertionSortFrom_perm less data []

/-- The element `x` ends up behind an element it was not swapped with, and in front of
elements that do not rank before it, when no two elements rank before each other. -/
theorem insertBack_chain {α : Type} (less : α → α → Bool) (x : α) :
    ∀ before : List α,
      (∀ p ∈ before, ¬ (less x p = true ∧ less p x = true)) →
      before.Chain' (fun later earlier => less later earlier = false) →
      (insertBack less x before).Chain' (fun later earlier => less later earlier = false) := by
  intro before
  induction before with
  | nil => intro _ _; exact List.chain'_singleton x
  | cons p before ih =>
    intro hasym hchain
    unfold insertBack
    by_cases h : less x p = true
    · rw [if_pos h]
      have hrest := ih (fun q hq => hasym q (List.mem_cons_of_mem _ hq)) hchain.tail
      have hpx : less p x = false := by
        cases hp : less p x with
        | false => rfl
        | true => exact absurd ⟨h, hp⟩ (hasym p (List.mem_cons_self _ _))
      cases before with
      | nil =>
        unfold insertBack
        exact List.chain'_cons.mpr ⟨hpx, List.chain'_singleton x⟩
      | cons q before =>
        unfold insertBack at hrest ⊢
        by_cases hq : less x q = true
        · rw [if_pos hq] at hrest ⊢
          exact List.chain'_cons.mpr ⟨(List.chain'_cons.mp hchain).1, hrest⟩
        · rw [if_neg hq] at hrest ⊢
          exact List.chain'_cons.mpr ⟨hpx, hrest⟩
    · rw [if_neg h]
      exact List.chain'_cons.mpr ⟨by simpa using h, hchain⟩

theorem insertionSortFrom_sorted {α : Type} (less : α → α → Bool) :
    ∀ (rest done : List α),
      (∀ x ∈ rest, ∀ p ∈ done, ¬ (less x p = true ∧ less p x = true)) →
      rest.Pairwise (fun a b => ¬ (less b a = true ∧ less a b = true)) →
      done.Chain' (fun later earlier => less later earlier = false) →
      (insertionSortFrom less done rest).Chain' (fun earlier later => less later earlier = false) := by
  intro rest
  induction rest with
  | nil =>
    intro done _ _ hchain
    unfold insertionSortFrom
    rw [List.chain'_reverse]
    exact hchain
  | cons x rest ih =>
    intro done hcross hpair hchain
    unfold insertionSortFrom
    rw [List.pairwise_cons] at hpair
    refine ih (insertBack less x done) ?_ hpair.2 ?_
    · intro y hy p hp
      rcases List.mem_cons.mp ((insertBack_perm less x done).subset hp) with hpx | hpd
      · subst hpx
        exact hpair.1 y hy
      · exact hcross y (List.mem_cons_of_mem _ hy) p hpd
    · exact insertBack_chain less x done
        (fun p hp => hcross x (List.mem_cons_self _ _) p hp) hchain

/-- Insertion sort leaves a slice as it is when no element ranks before the element in
front of it. -/
theorem insertionSortFrom_of_sorted {α : Type} (less : α → α → Bool) :
    ∀ (rest done : List α),
      (done.reverse ++ rest).Chain' (fun earlier later => less later earlier = false) →
      insertionSortFrom less done rest = done.reverse ++ rest := by
  intro rest
  induction rest with
  | nil => intro done _; simp [insertionSortFrom]
  | cons x rest ih =>
    intro done hchain
    unfold insertionSortFrom
    have hins : insertBack less x done = x :: done := by
      cases done with
      | nil => rfl
      | cons p before =>
        unfold insertBack
        have hpx : less x p = false := by
          have h := hchain
          rw [List.reverse_cons, List.append_assoc] at h
          exact (List.chain'_cons.mp (List.Chain'.right_of_append h)).1
        simp [hpx]
    rw [hins, ih (x :: done) (by simpa using hchain)]
    simp

/-- Sorting twice by insertion gives what sorting once gives, when no two elements of
the slice rank before each other. -/
theorem insertionSort_idempotent {α : Type} (less : α → α → Bool) (data : List α)
    (hasym : data.Pairwise (fun a b => ¬ (less b a = true ∧ less a b = true))) :
    insertionSort less (insertionSort less data) = insertionSort less data := by
  have hsorted : (insertionSort less data).Chain'
      (fun earlier later => less later earlier = false) :=
    insertionSortFrom_sorted less data [] (fun _ _ p hp => absurd hp (List.not_mem_nil p))
      hasym List.chain'_nil
  have := insertionSortFrom_of_sorted less (insertionSort less data) [] (by simpa using hsorted)
  simpa [insertionSort] using this

/-! ## `Version.Compare` is antisymmetric on well-formed versions -/

namespace semver

theorem isDigit_bounds (c : Char) (h : c.isDigit = true) : 48 ≤ c.toNat ∧ c.toNat ≤ 57 := by
  unfold Char.isDigit at h
  simp only [Bool.and_eq_true, decide_eq_true_eq] at h
  have h1 : (48 : UInt32).toNat ≤ c.val.toNat := UInt32.le_def.mp h.1
  have h2 : c.val.toNat ≤ (57 : UInt32).toNat := UInt32.le_def.mp h.2
  exact ⟨h1, h2⟩

theorem digitsValue_acc : ∀ (s : List Char) (acc : Nat),
    digitsValue s acc = acc * 10 ^ s.length + digitsValue s 0 := by
  intro s
  induction s with
  | nil => intro acc; simp [digitsValue]
  | cons c cs ih =>
    intro acc
    unfold digitsValue
    rw [ih (10 * acc + (c.toNat - '0'.toNat)), ih (10 * 0 + (c.toNat - '0'.toNat))]
    simp only [List.length_cons, Nat.pow_succ]
    ring

theorem digitsValue_lt : ∀ s : List Char, s.all Char.isDigit = true →
    digitsValue s 0 < 10 ^ s.length := by
  intro s
  induction s with
  | nil => intro _; simp [digitsValue]
  | cons c cs ih =>
    intro h
    simp only [List.all_cons, Bool.and_eq_true] at h
    have hb := isDigit_bounds c h.1
    have h0 : '0'.toNat = 48 := by decide
    unfold digitsValue
    rw [digitsValue_acc, h0]
    have := ih h.2
    simp only [List.length_cons, Nat.pow_succ]
    have hd : c.toNat - 48 ≤ 9 := by omega
    nlinarith [pow_pos (show 0 < 10 by decide) cs.length]

theorem digitsValue_cons (c : Char) (cs : List Char) :
    digitsValue (c :: cs) 0 = (c.toNat - 48) * 10 ^ cs.length + digitsValue cs 0 := by
  have h0 : '0'.toNat = 48 := by decide
  show digitsValue cs (10 * 0 + (c.toNat - '0'.toNat)) = _
  rw [digitsValue_acc, h0]
  simp

theorem digitsValue_inj_of_length : ∀ s o : List Char, s.length = o.length →
    s.all Char.isDigit = true → o.all Char.isDigit = true →
    digitsValue s 0 = digitsValue o 0 → s = o := by
  intro s
  induction s with
  | nil =>
    intro o hlen _ _ _
    cases o with
    | nil => rfl
    | cons d ds => simp at hlen
  | cons c cs ih =>
    intro o hlen hs ho hval
    cases o with
    | nil => simp at hlen
    | cons d ds =>
      simp only [List.length_cons, Nat.add_right_cancel_iff] at hlen
      simp only [List.all_cons, Bool.and_eq_true] at hs ho
      rw [digitsValue_cons, digitsValue_cons, hlen] at hval
      have h1 := digitsValue_lt cs hs.2
      have h2 := digitsValue_lt ds ho.2
      rw [hlen] at h1
      have hc := isDigit_bounds c hs.1
      have hd := isDigit_bounds d ho.1
      have hpos : 0 < 10 ^ ds.length := pow_pos (by decide) _
      have hdig : c.toNat - 48 = d.toNat - 48 := by
        rcases Nat.lt_trichotomy (c.toNat - 48) (d.toNat - 48) with h | h | h
        · exfalso
          have : (c.toNat - 48 + 1) * 10 ^ ds.length ≤ (d.toNat - 48) * 10 ^ ds.length :=
            Nat.mul_le_mul_right _ h
          nlinarith
        · exact h
        · exfalso
          have : (d.toNat - 48 + 1) * 10 ^ ds.length ≤ (c.toNat - 48) * 10 ^ ds.length :=
            Nat.mul_le_mul_right _ h
          nlinarith
      have hcd : c = d := by
        have : c.toNat = d.toNat := by omega
        rw [← Char.ofNat_toNat c, ← Char.ofNat_toNat d, this]
      subst hcd
      rw [hdig] at hval
      have hrest : digitsValue cs 0 = digitsValue ds 0 := by omega
      rw [ih ds hlen hs.2 ho.2 hrest]

theorem digitsValue_ge : ∀ s : List Char, s.all Char.isDigit = true → noLeadingZero s →
    1 < s.length → 10 ^ (s.length - 1) ≤ digitsValue s 0 := by
  intro s hs hz hlen
  cases s with
  | nil => simp at hlen
  | cons c cs =>
    rw [digitsValue_cons]
    simp only [List.length_cons, Nat.add_sub_cancel]
    have hne : c ≠ '0' := by
      intro h
      exact hz hs hlen (by simp [h])
    simp only [List.all_cons, Bool.and_eq_true] at hs
    have hc := isDigit_bounds c hs.1
    have h1 : 1 ≤ c.toNat - 48 := by
      rcases Nat.eq_or_lt_of_le hc.1 with h | h
      · exfalso
        apply hne
        rw [← Char.ofNat_toNat c, ← h]
      · omega
    calc 10 ^ cs.length = 1 * 10 ^ cs.length := by ring
      _ ≤ (c.toNat - 48) * 10 ^ cs.length := Nat.mul_le_mul_right _ h1
      _ ≤ (c.toNat - 48) * 10 ^ cs.length + digitsValue cs 0 := Nat.le_add_right _ _

theorem digitsValue_length_le {s o : List Char} (hs : s.all Char.isDigit = true)
    (ho : o.all Char.isDigit = true) (hz : noLeadingZero o) (hne : s ≠ [])
    (hval : digitsValue s 0 = digitsValue o 0) : o.length ≤ s.length := by
  by_contra hlt
  have hlt : s.length < o.length := Nat.lt_of_not_le hlt
  have hspos : 0 < s.length := List.length_pos.mpr hne
  have h1 := digitsValue_lt s hs
  have h2 := digitsValue_ge o ho hz (by omega)
  have h3 : 10 ^ s.length ≤ 10 ^ (o.length - 1) :=
    Nat.pow_le_pow_right (by decide) (by omega)
  omega

theorem ParseUint_inj {s o : List Char} {n m : Nat} (hs : ParseUint s = some n)
    (ho : ParseUint o = some m) (hzs : noLeadingZero s) (hzo : noLeadingZero o)
    (hnm : n = m) : s = o := by
  unfold ParseUint at hs ho
  by_cases hse : s = []
  · simp [hse] at hs
  by_cases hoe : o = []
  · simp [hoe] at ho
  by_cases hsd : s.all Char.isDigit = true
  · by_cases hod : o.all Char.isDigit = true
    · rw [if_neg hse, if_pos hsd] at hs
      rw [if_neg hoe, if_pos hod] at ho
      by_cases h1 : digitsValue s 0 < 2 ^ 64
      · by_cases h2 : digitsValue o 0 < 2 ^ 64
        · rw [if_pos h1] at hs
          rw [if_pos h2] at ho
          have hval : digitsValue s 0 = digitsValue o 0 := by
            have a := Option.some.inj hs
            have b := Option.some.inj ho
            omega
          have hl1 := digitsValue_length_le hsd hod hzo hse hval
          have hl2 := digitsValue_length_le hod hsd hzs hoe hval.symm
          exact digitsValue_inj_of_length s o (by omega) hsd hod hval
        · rw [if_neg h2] at ho
          cases ho
      · rw [if_neg h1] at hs
        cases hs
    · rw [if_neg hoe, if_neg hod] at ho
      cases ho
  · rw [if_neg hse, if_neg hsd] at hs
    cases hs

end semver

namespace semver

theorem compareSegment_neg (v o : Nat) : compareSegment o v = - compareSegment v o := by
  unfold compareSegment
  by_cases h1 : v < o
  · have h2 : ¬ o < v := by omega
    have h3 : o > v := h1
    simp [h1, h2, h3]
  · by_cases h2 : o < v
    · have h3 : v > o := h2
      simp [h1, h2, h3]
    · have h3 : ¬ v > o := h2
      have h4 : ¬ o > v := h1
      simp [h1, h2, h3, h4]

theorem comparePrePart_neg (s o : List Char) (hzs : noLeadingZero s)
    (hzo : noLeadingZero o) : comparePrePart o s = - comparePrePart s o := by
  by_cases hso : s = o
  · subst hso
    simp [(comparePrePart_eq_zero s s).mpr rfl]
  have hos : ¬ o = s := fun h => hso h.symm
  unfold comparePrePart
  rw [if_neg hso, if_neg hos]
  by_cases hs : s = []
  · have ho : ¬ o = [] := fun h => hso (hs.trans h.symm)
    simp [hs, ho]
  by_cases ho : o = []
  · simp [hs, ho]
  rw [if_neg hs, if_neg ho, if_neg ho, if_neg hs]
  cases hpo : ParseUint o with
  | none =>
    cases hps : ParseUint s with
    | none =>
      simp only
      rcases lt_trichotomy o s with h | h | h
      · have h' : ¬ s < o := lt_asymm h
        simp [h, h']
      · exact absurd h hos
      · have h' : ¬ o < s := lt_asymm h
        simp [h, h']
    | some si => simp
  | some oi =>
    cases hps : ParseUint s with
    | none => simp
    | some si =>
      simp only
      have hne : si ≠ oi := fun h => hso (ParseUint_inj hps hpo hzs hzo h)
      by_cases h : si > oi
      · have h' : ¬ oi > si := by omega
        simp [h, h']
      · have h' : oi > si := by omega
        simp [h, h']

theorem noLeadingZero_nil : noLeadingZero [] := by
  intro _ h
  simp at h

theorem comparePrereleaseParts_neg : ∀ a b : List (List Char),
    (∀ p ∈ a, noLeadingZero p) → (∀ p ∈ b, noLeadingZero p) →
    comparePrereleaseParts b a = - comparePrereleaseParts a b := by
  intro a
  induction a with
  | nil =>
    intro b
    induction b with
    | nil => intro _ _; simp [comparePrereleaseParts]
    | cons o os ihb =>
      intro ha hb
      unfold comparePrereleaseParts
      rw [comparePrePart_neg [] o noLeadingZero_nil (hb o (List.mem_cons_self _ _)),
        ihb ha (fun p hp => hb p (List.mem_cons_of_mem _ hp))]
      by_cases h : comparePrePart [] o = 0
      · simp [h]
      · simp [h]
  | cons s ss ih =>
    intro b ha hb
    cases b with
    | nil =>
      unfold comparePrereleaseParts
      rw [comparePrePart_neg s [] (ha s (List.mem_cons_self _ _)) noLeadingZero_nil,
        ih [] (fun p hp => ha p (List.mem_cons_of_mem _ hp)) hb]
      by_cases h : comparePrePart s [] = 0
      · simp [h]
      · simp [h]
    | cons o os =>
      unfold comparePrereleaseParts
      rw [comparePrePart_neg s o (ha s (List.mem_cons_self _ _))
          (hb o (List.mem_cons_self _ _)),
        ih os (fun p hp => ha p (List.mem_cons_of_mem _ hp))
          (fun p hp => hb p (List.mem_cons_of_mem _ hp))]
      by_cases h : comparePrePart s o = 0
      · simp [h]
      · simp [h]

theorem Version.Compare_neg (v o : Version) (hv : v.wellFormed) (ho : o.wellFormed) :
    o.Compare v = - v.Compare o := by
  unfold Version.Compare comparePrerelease
  rw [compareSegment_neg v.major o.major, compareSegment_neg v.minor o.minor,
    compareSegment_neg v.patch o.patch, comparePrereleaseParts_neg _ _ hv ho]
  by_cases h1 : compareSegment v.major o.major = 0
  · by_cases h2 : compareSegment v.minor o.minor = 0
    · by_cases h3 : compareSegment v.patch o.patch = 0
      · by_cases hvp : v.pre = ""
        · by_cases hop : o.pre = "" <;> simp [h1, h2, h3, hvp, hop]
        · by_cases hop : o.pre = "" <;> simp [h1, h2, h3, hvp, hop]
      · simp [h1, h2, h3]
    · simp [h1, h2]
  · simp [h1]

theorem Version.LessThan_asymm (v o : Version) (hv : v.wellFormed) (ho : o.wellFormed) :
    ¬ (v.LessThan o = true ∧ o.LessThan v = true) := by
  unfold Version.LessThan
  rw [Version.Compare_neg v o hv ho]
  simp only [decide_eq_true_eq]
  omega

end semver

/-! ## `Version.Compare` is transitive on well-formed versions -/

namespace semver

/-- One step of a lexicographic comparison, on the values of the first comparison for
three things (`p` of the first and second, `q` of the second and third, `r` of the first
and third, and primed the same with the arguments exchanged) and of the comparison that
decides ties. -/
theorem lex_le_trans (p q r p' q' r' p2 q2 r2 : Int)
    (hp : p' = -p) (hq : q' = -q) (hr : r' = -r)
    (T1 : p ≤ 0 → q ≤ 0 → r ≤ 0) (T2 : q' ≤ 0 → p' ≤ 0 → r' ≤ 0)
    (T3 : q ≤ 0 → r' ≤ 0 → p' ≤ 0) (T4 : r' ≤ 0 → p ≤ 0 → q' ≤ 0)
    (ht : p2 ≤ 0 → q2 ≤ 0 → r2 ≤ 0) :
    (if p ≠ 0 then p else p2) ≤ 0 → (if q ≠ 0 then q else q2) ≤ 0 →
      (if r ≠ 0 then r else r2) ≤ 0 := by
  subst hp hq hr
  intro h1 h2
  by_cases hp0 : p = 0
  · by_cases hq0 : q = 0
    · have hr1 := T1 (by omega) (by omega)
      have hr2 := T2 (by omega) (by omega)
      have hr0 : r = 0 := by omega
      simp only [hp0, hq0, hr0, ne_eq, not_true_eq_false, if_false] at h1 h2 ⊢
      exact ht h1 h2
    · simp only [hp0, hq0, ne_eq, not_true_eq_false, not_false_eq_true, if_false,
        if_true] at h1 h2
      have hr1 := T1 (by omega) h2
      have hr0 : r ≠ 0 := by
        intro h
        have := T4 (by omega) (by omega)
        omega
      simp only [ne_eq, hr0, not_false_eq_true, if_true]
      exact hr1
  · simp only [ne_eq, hp0, not_false_eq_true, if_true] at h1
    have hq1 : q ≤ 0 := by
      by_cases hq0 : q = 0
      · omega
      · simpa only [ne_eq, hq0, not_false_eq_true, if_true] using h2
    have hr1 := T1 h1 hq1
    have hr0 : r ≠ 0 := by
      intro h
      have := T3 hq1 (by omega)
      omega
    simp only [ne_eq, hr0, not_false_eq_true, if_true]
    exact hr1

theorem compareSegment_le_trans (x y z : Nat) :
    compareSegment x y ≤ 0 → compareSegment y z ≤ 0 → compareSegment x z ≤ 0 := by
  unfold compareSegment
  split_ifs <;> intros <;> omega

theorem comparePrePart_le_iff (s o : List Char) (hso : s ≠ o) (hs : s ≠ []) (ho : o ≠ []) :
    comparePrePart s o ≤ 0 ↔
      match ParseUint s, ParseUint o with
      | some si, some oi => si ≤ oi
      | some _, none => True
      | none, some _ => False
      | none, none => s ≤ o := by
  unfold comparePrePart
  rw [if_neg hso, if_neg hs, if_neg ho]
  cases hps : ParseUint s with
  | none =>
    cases hpo : ParseUint o with
    | none =>
      simp only
      by_cases h : o < s
      · simp only [h, if_true]
        constructor
        · intro h'
          omega
        · intro h'
          exact absurd h (not_lt.mpr h')
      · simp only [h, if_false]
        constructor
        · intro _
          exact not_lt.mp h
        · intro _
          omega
    | some oi => simp
  | some si =>
    cases hpo : ParseUint o with
    | none => simp
    | some oi =>
      simp only
      by_cases h : si > oi
      · simp only [h, if_true]
        constructor
        · intro h'
          omega
        · intro h'
          omega
      · simp only [h, if_false]
        constructor
        · intro _
          omega
        · intro _
          omega

theorem comparePrePart_nil_left (o : List Char) : comparePrePart [] o ≤ 0 := by
  unfold comparePrePart
  by_cases h : ([] : List Char) = o
  · simp [h]
  · have ho : o ≠ [] := fun h' => h h'.symm
    simp [h, ho]

theorem comparePrePart_nil_right (s : List Char) (h : comparePrePart s [] ≤ 0) : s = [] := by
  by_contra hs
  unfold comparePrePart at h
  simp [hs] at h

theorem comparePrePart_le_trans (x y z : List Char) :
    comparePrePart x y ≤ 0 → comparePrePart y z ≤ 0 → comparePrePart x z ≤ 0 := by
  intro h1 h2
  by_cases hxz : x = z
  · rw [(comparePrePart_eq_zero x z).mpr hxz]
  by_cases hxy : x = y
  · rw [hxy]
    exact h2
  by_cases hyz : y = z
  · rw [← hyz]
    exact h1
  by_cases hx : x = []
  · rw [hx]
    exact comparePrePart_nil_left z
  by_cases hz : z = []
  · rw [hz] at h2
    have := comparePrePart_nil_right y h2
    exact absurd (this.trans hz.symm) hyz
  by_cases hy : y = []
  · rw [hy] at h1
    exact absurd (comparePrePart_nil_right x h1) hx
  rw [comparePrePart_le_iff x y hxy hx hy] at h1
  rw [comparePrePart_le_iff y z hyz hy hz] at h2
  rw [comparePrePart_le_iff x z hxz hx hz]
  cases hpx : ParseUint x <;> cases hpy : ParseUint y <;> cases hpz : ParseUint z <;>
    simp only [hpx, hpy, hpz] at h1 h2 ⊢
  · exact le_trans h1 h2
  · exact le_trans h1 h2

end semver

namespace semver

theorem comparePrereleaseParts_step (a b : List (List Char)) :
    comparePrereleaseParts a b =
      if comparePrePart (a.headD []) (b.headD []) ≠ 0 then
        comparePrePart (a.headD []) (b.headD [])
      else comparePrereleaseParts a.tail b.tail := by
  cases a with
  | nil =>
    cases b with
    | nil => simp [comparePrereleaseParts, (comparePrePart_eq_zero [] []).mpr rfl]
    | cons o os => simp [comparePrereleaseParts]
  | cons s ss =>
    cases b with
    | nil => simp [comparePrereleaseParts]
    | cons o os => simp [comparePrereleaseParts]

theorem noLeadingZero_headD (a : List (List Char)) (ha : ∀ p ∈ a, noLeadingZero p) :
    noLeadingZero (a.headD []) := by
  cases a with
  | nil => exact noLeadingZero_nil
  | cons s ss => exact ha s (List.mem_cons_self _ _)

theorem comparePrereleaseParts_le_trans_aux : ∀ (n : Nat) (a b c : List (List Char)),
    a.length ≤ n → b.length ≤ n → c.length ≤ n →
    (∀ p ∈ a, noLeadingZero p) → (∀ p ∈ b, noLeadingZero p) → (∀ p ∈ c, noLeadingZero p) →
    comparePrereleaseParts a b ≤ 0 → comparePrereleaseParts b c ≤ 0 →
    comparePrereleaseParts a c ≤ 0 := by
  intro n
  induction n with
  | zero =>
    intro a b c ha hb hc _ _ _ _ _
    have ha' : a = [] := List.length_eq_zero.mp (Nat.le_zero.mp ha)
    have hc' : c = [] := List.length_eq_zero.mp (Nat.le_zero.mp hc)
    rw [ha', hc']
    simp [comparePrereleaseParts]
  | succ n ih =>
    intro a b c ha hb hc hza hzb hzc
    rw [comparePrereleaseParts_step a b, comparePrereleaseParts_step b c,
      comparePrereleaseParts_step a c]
    have hx := noLeadingZero_headD a hza
    have hy := noLeadingZero_headD b hzb
    have hz := noLeadingZero_headD c hzc
    have hlen : ∀ l : List (List Char), l.length ≤ n + 1 → l.tail.length ≤ n := by
      intro l hl
      rw [List.length_tail]
      omega
    have htail : ∀ l : List (List Char), (∀ p ∈ l, noLeadingZero p) →
        ∀ p ∈ l.tail, noLeadingZero p :=
      fun l hl p hp => hl p (List.mem_of_mem_tail hp)
    exact lex_le_trans _ _ _ (comparePrePart (b.headD []) (a.headD []))
      (comparePrePart (c.headD []) (b.headD [])) (comparePrePart (c.headD []) (a.headD []))
      _ _ _
      (comparePrePart_neg _ _ hx hy) (comparePrePart_neg _ _ hy hz)
      (comparePrePart_neg _ _ hx hz)
      (comparePrePart_le_trans _ _ _) (comparePrePart_le_trans _ _ _)
      (comparePrePart_le_trans _ _ _) (comparePrePart_le_trans _ _ _)
      (ih a.tail b.tail c.tail (hlen a ha) (hlen b hb) (hlen c hc) (htail a hza)
        (htail b hzb) (htail c hzc))

theorem comparePrereleaseParts_le_trans (a b c : List (List Char))
    (hza : ∀ p ∈ a, noLeadingZero p) (hzb : ∀ p ∈ b, noLeadingZero p)
    (hzc : ∀ p ∈ c, noLeadingZero p) :
    comparePrereleaseParts a b ≤ 0 → comparePrereleaseParts b c ≤ 0 →
    comparePrereleaseParts a c ≤ 0 :=
  comparePrereleaseParts_le_trans_aux (a.length + b.length + c.length) a b c (by omega)
    (by omega) (by omega) hza hzb hzc

/-- The order of `Version.Compare` is transitive on versions whose numeric prerelease
parts have no leading zeros. -/
theorem Version.Compare_le_trans (x y z : Version) (hx : x.wellFormed) (hy : y.wellFormed)
    (hz : z.wellFormed) : x.Compare y ≤ 0 → y.Compare z ≤ 0 → x.Compare z ≤ 0 := by
  have hpre := comparePrereleaseParts_le_trans _ _ _ hx hy hz
  have hpc :
      (if x.pre = "" ∧ y.pre = "" then (0 : Int)
        else if x.pre = "" then 1
        else if y.pre = "" then -1
        else comparePrerelease x.pre y.pre) ≤ 0 →
      (if y.pre = "" ∧ z.pre = "" then (0 : Int)
        else if y.pre = "" then 1
        else if z.pre = "" then -1
        else comparePrerelease y.pre z.pre) ≤ 0 →
      (if x.pre = "" ∧ z.pre = "" then (0 : Int)
        else if x.pre = "" then 1
        else if z.pre = "" then -1
        else comparePrerelease x.pre z.pre) ≤ 0 := by
    unfold comparePrerelease
    by_cases h1 : x.pre = "" <;> by_cases h2 : y.pre = "" <;> by_cases h3 : z.pre = "" <;>
      simp only [h1, h2, h3, and_self, and_true, and_false, true_and, false_and, if_true,
        if_false] <;>
      first
        | exact hpre
        | (intro a b; omega)
  have h3 := lex_le_trans _ _ _ (compareSegment y.patch x.patch)
    (compareSegment z.patch y.patch) (compareSegment z.patch x.patch) _ _ _
    (compareSegment_neg _ _) (compareSegment_neg _ _) (compareSegment_neg _ _)
    (compareSegment_le_trans _ _ _) (compareSegment_le_trans _ _ _)
    (compareSegment_le_trans _ _ _) (compareSegment_le_trans _ _ _) hpc
  have h2 := lex_le_trans _ _ _ (compareSegment y.minor x.minor)
    (compareSegment z.minor y.minor) (compareSegment z.minor x.minor) _ _ _
    (compareSegment_neg _ _) (compareSegment_neg _ _) (compareSegment_neg _ _)
    (compareSegment_le_trans _ _ _) (compareSegment_le_trans _ _ _)
    (compareSegment_le_trans _ _ _) (compareSegment_le_trans _ _ _) h3
  have h1 := lex_le_trans _ _ _ (compareSegment y.major x.major)
    (compareSegment z.major y.major) (compareSegment z.major x.major) _ _ _
    (compareSegment_neg _ _) (compareSegment_neg _ _) (compareSegment_neg _ _)
    (compareSegment_le_trans _ _ _) (compareSegment_le_trans _ _ _)
    (compareSegment_le_trans _ _ _) (compareSegment_le_trans _ _ _) h2
  unfold Version.Compare
  exact h1

/-- The order of `LessThan` is negatively transitive on well-formed versions: a version
that is not below a second one, which is not below a third one, is not below the
third. -/
theorem Version.LessThan_negtrans (x y z : Version) (hx : x.wellFormed) (hy : y.wellFormed)
    (hz : z.wellFormed) :
    x.LessThan y = false → y.LessThan z = false → x.LessThan z = false := by
  unfold Version.LessThan
  simp only [decide_eq_false_iff_not, not_lt]
  intro h1 h2
  have h1' : y.Compare x ≤ 0 := by
    rw [Version.Compare_neg x y hx hy]
    omega
  have h2' : z.Compare y ≤ 0 := by
    rw [Version.Compare_neg y z hy hz]
    omega
  have h := Version.Compare_le_trans z y x hz hy hx h2' h1'
  rw [Version.Compare_neg x z hx hz] at h
  omega

end semver

/-! ## `SortEntries` twice -/

theorem validatePrerelease_noLeadingZero (pre : List Char)
    (h : pre = [] ∨ semver.validatePrerelease pre = true) :
    ∀ p ∈ semver.splitDot pre, semver.noLeadingZero p := by
  intro p hp hdig hlen
  rcases h with h | h
  · subst h
    have : p = [] := by simpa [semver.splitDot, semver.splitAux] using hp
    subst this
    simp at hlen
  · unfold semver.validatePrerelease at h
    have hpart := List.all_eq_true.mp h p hp
    simp only [hdig, if_true] at hpart
    intro hhead
    simp [hhead, hlen] at hpart

theorem helmLib_wellFormed : helmLib.wellFormed := by
  intro s v h
  change semver.NewVersion s = some v at h
  unfold semver.NewVersion at h
  simp only at h
  repeat' split at h
  all_goals first
    | (rename_i hok
       cases h
       exact validatePrerelease_noLeadingZero _ hok.2)
    | cases h

theorem reverseLess_asymm (lib : Lib) (hwf : lib.wellFormed) (a b : ChartVersion)
    (hparse : (lib.NewVersion a.Version).isSome ∨ (lib.NewVersion b.Version).isSome) :
    ¬ (reverseLess lib b a = true ∧ reverseLess lib a b = true) := by
  unfold reverseLess ChartVersions.Less
  cases ha : lib.NewVersion a.Version with
  | none =>
    cases hb : lib.NewVersion b.Version with
    | none => rw [ha, hb] at hparse; simp at hparse
    | some j => simp
  | some i =>
    cases hb : lib.NewVersion b.Version with
    | none => simp
    | some j =>
      simp only
      exact semver.Version.LessThan_asymm i j (hwf _ _ ha) (hwf _ _ hb)

/-- An entry that does not sort before a second one, which does not sort before a third
one, does not sort before the third: an entry whose version fails to parse sorts before
no entry whose version parses, and every entry sorts before it. -/
theorem reverseLess_negtrans (lib : Lib) (hwf : lib.wellFormed) (a b c : ChartVersion) :
    reverseLess lib a b = false → reverseLess lib b c = false →
    reverseLess lib a c = false := by
  unfold reverseLess ChartVersions.Less
  cases hc : lib.NewVersion c.Version with
  | none => simp
  | some k =>
    cases hb : lib.NewVersion b.Version with
    | none => simp
    | some j =>
      cases ha : lib.NewVersion a.Version with
      | none => simp
      | some i =>
        simp only
        intro h1 h2
        exact semver.Version.LessThan_negtrans k j i (hwf _ _ hc) (hwf _ _ hb) (hwf _ _ ha)
          h2 h1

theorem pairwise_parse_of_one_unparseable (lib : Lib) :
    ∀ l : ChartVersions,
      (l.filter fun v => (lib.NewVersion v.Version).isNone).length ≤ 1 →
      l.Pairwise fun a b =>
        (lib.NewVersion a.Version).isSome ∨ (lib.NewVersion b.Version).isSome := by
  intro l
  induction l with
  | nil => intro _; exact List.Pairwise.nil
  | cons x t ih =>
    intro h
    rw [List.filter_cons] at h
    rw [List.pairwise_cons]
    cases hx : lib.NewVersion x.Version with
    | some i =>
      simp only [hx, Option.isNone_some, Bool.false_eq_true, if_false] at h
      exact ⟨fun _ _ => Or.inl rfl, ih h⟩
    | none =>
      simp only [hx, Option.isNone_none, if_true, List.length_cons] at h
      have hnil : (t.filter fun v => (lib.NewVersion v.Version).isNone) = [] :=
        List.length_eq_zero.mp (by omega)
      refine ⟨fun b hb => Or.inr ?_, ih (by rw [hnil]; exact Nat.zero_le _)⟩
      by_contra hnone
      have hmem : b ∈ t.filter fun v => (lib.NewVersion v.Version).isNone :=
        List.mem_filter.mpr ⟨hb, by simpa using hnone⟩
      rw [hnil] at hmem
      exact absurd hmem (List.not_mem_nil b)

theorem StrictWeakOn_perm {α : Type} (less : α → α → Bool) {l l' : List α}
    (hperm : l'.Perm l) (h : StrictWeakOn less l) : StrictWeakOn less l' :=
  ⟨fun a b hab => h.1 a b (hab.trans hperm.subperm),
    fun a b c habc => h.2 a b c (habc.trans hperm.subperm)⟩

theorem pairwise_of_subperm {α : Type} {R : α → α → Prop} (hsymm : ∀ a b, R a b → R b a)
    {l s : List α} (hl : l.Pairwise R) (hs : s.Subperm l) : s.Pairwise R := by
  obtain ⟨s', hperm, hsub⟩ := hs
  exact (List.Perm.pairwise_iff (fun {a b} h => hsymm a b h) hperm).mp (hl.sublist hsub)

/-- The comparison of `SortEntries` is a strict weak order on a list that holds at most
one version that fails to parse. -/
theorem reverseLess_strictWeakOn (lib : Lib) (hwf : lib.wellFormed) (l : ChartVersions)
    (hbad : (l.filter fun v => (lib.NewVersion v.Version).isNone).length ≤ 1) :
    StrictWeakOn (reverseLess lib) l := by
  refine ⟨fun a b hab => ?_, fun a b c _ => reverseLess_negtrans lib hwf a b c⟩
  have hpair := pairwise_of_subperm (fun a b (h : (lib.NewVersion a.Version).isSome ∨
      (lib.NewVersion b.Version).isSome) => h.symm)
    (pairwise_parse_of_one_unparseable lib l hbad) hab
  rw [List.pairwise_cons] at hpair
  have hparse := hpair.1 b (List.mem_singleton_self b)
  intro h
  exact reverseLess_asymm lib hwf a b hparse ⟨h.2, h.1⟩

theorem insertionSort_sorts {α : Type} (less : α → α → Bool) (l : List α)
    (h : StrictWeakOn less l) :
    (insertionSort less l).Chain' (fun earlier later => less later earlier = false) := by
  apply insertionSortFrom_sorted less l [] (fun _ _ p hp => absurd hp (List.not_mem_nil p))
    _ List.chain'_nil
  rw [List.pairwise_iff_forall_sublist]
  intro a b hab hboth
  exact h.1 a b hab.subperm ⟨hboth.2, hboth.1⟩

theorem insertionSort_of_sorted {α : Type} (less : α → α → Bool) (l : List α)
    (h : l.Chain' (fun earlier later => less later earlier = false)) :
    insertionSort less l = l := by
  have := insertionSortFrom_of_sorted less l [] (by simpa using h)
  simpa [insertionSort] using this

/-- Insertion sort fulfils the contract of the long sort. -/
theorem goStd_sorts : goStd.sorts := by
  intro less l h
  exact ⟨insertionSort_perm less l, insertionSort_sorts less l h,
    insertionSort_of_sorted less l⟩

theorem sortSort_idempotent (lib : Lib) (std : Std) (hwf : lib.wellFormed)
    (hstd : std.sorts) (l : ChartVersions)
    (hbad : (l.filter fun v => (lib.NewVersion v.Version).isNone).length ≤ 1) :
    sortSort std (reverseLess lib) (sortSort std (reverseLess lib) l) =
      sortSort std (reverseLess lib) l := by
  have hswo := reverseLess_strictWeakOn lib hwf l hbad
  by_cases hlen : l.length ≤ 12
  · have hlen' : (insertionSort (reverseLess lib) l).length ≤ 12 := by
      rw [(insertionSort_perm (reverseLess lib) l).length_eq]
      exact hlen
    unfold sortSort
    rw [if_pos hlen, if_pos hlen']
    apply insertionSort_idempotent
    exact (pairwise_parse_of_one_unparseable lib l hbad).imp
      (fun {a b} h => reverseLess_asymm lib hwf a b h)
  · obtain ⟨hperm, hchain, _⟩ := hstd (reverseLess lib) l hswo
    have hlen' : ¬ (std.pdqsort (reverseLess lib) l).length ≤ 12 := by
      rw [hperm.length_eq]
      exact hlen
    unfold sortSort
    rw [if_neg hlen, if_neg hlen']
    exact (hstd (reverseLess lib) _ (StrictWeakOn_perm _ hperm hswo)).2.2 hchain

/-- C20, amended: for every index in which the list of every package holds at most one
version that fails to parse, calling `SortEntries` twice leaves the index in the state
in which calling it once leaves it. The parser returns well-formed versions, and
`sort.Sort` sorts: a list of at most 12 entries goes through its insertion sort, which
is embedded here, and on a longer list its quicksort returns a sorted permutation and
leaves a sorted list as it is. -/
theorem SortEntries_idempotent (lib : Lib) (std : Std) (idx : Index)
    (hwf : lib.wellFormed) (hstd : std.sorts)
    (hbad : ∀ name l, idx.index.Entries name = some l →
      (l.filter fun v => (lib.NewVersion v.Version).isNone).length ≤ 1) :
    (idx.SortEntries lib std).SortEntries lib std = idx.SortEntries lib std := by
  unfold Index.SortEntries
  simp only
  congr 2
  funext name
  cases hentry : idx.index.Entries name with
  | none => rfl
  | some l =>
    simp only [Option.map_some']
    rw [sortSort_idempotent lib std hwf hstd l (hbad name l hentry)]

theorem indexOf_entries (name : String) (versions : List String) (n : String)
    (l : ChartVersions) (h : (indexOf name versions).index.Entries n = some l) :
    l = versions.map fun v => mkEntry name v (name ++ "-" ++ v ++ ".tgz") := by
  unfold indexOf at h
  by_cases hnn : n = name
  · subst hnn
    simp only [Function.update_same, Option.some.injEq] at h
    exact h.symm
  · simp only [Function.update_noteq hnn] at h
    cases h

/-- Witness of C20, amended: `app` holds 13 versions, one of which fails to parse. -/
theorem SortEntries_idempotent_witness :
    ((indexOf "app"
        ["1.0.0", "bad", "2.0.0", "1.1.0", "1.2.0", "1.3.0", "1.4.0", "1.5.0", "1.6.0",
          "1.7.0", "1.8.0", "1.9.0", "1.10.0"]).SortEntries helmLib goStd).SortEntries
        helmLib goStd =
      (indexOf "app"
        ["1.0.0", "bad", "2.0.0", "1.1.0", "1.2.0", "1.3.0", "1.4.0", "1.5.0", "1.6.0",
          "1.7.0", "1.8.0", "1.9.0", "1.10.0"]).SortEntries helmLib goStd :=
  SortEntries_idempotent helmLib goStd
    (indexOf "app"
      ["1.0.0", "bad", "2.0.0", "1.1.0", "1.2.0", "1.3.0", "1.4.0", "1.5.0", "1.6.0",
        "1.7.0", "1.8.0", "1.9.0", "1.10.0"])
    helmLib_wellFormed goStd_sorts
    (fun n l h => by rw [indexOf_entries _ _ n l h]; decide)

/-- Counterexample to C20 as stated: `app` holds two versions that fail to parse; each
call of `SortEntries` exchanges them, so the second call undoes the first. -/
theorem SortEntries_idempotent_counterexample :
    ((indexOf "app" ["bad1", "bad2"]).SortEntries helmLib goStd).index.Entries "app" =
      some [mkEntry "app" "bad2" "app-bad2.tgz", mkEntry "app" "bad1" "app-bad1.tgz"] ∧
    (((indexOf "app" ["bad1", "bad2"]).SortEntries helmLib goStd).SortEntries helmLib
        goStd).index.Entries "app" =
      some [mkEntry "app" "bad1" "app-bad1.tgz", mkEntry "app" "bad2" "app-bad2.tgz"] ∧
    ((indexOf "app" ["bad1", "bad2"]).SortEntries helmLib goStd).SortEntries helmLib goStd ≠
      (indexOf "app" ["bad1", "bad2"]).SortEntries helmLib goStd := by
  refine ⟨by decide, by decide, fun h => ?_⟩
  have := congrArg (fun i : Index => i.index.Entries "app") h
  revert this
  decide

/-! ## The scan is fail-fast -/

theorem failFast_ok : ∀ steps : List ObjectResult,
    (∀ o ∈ steps, o.isFailed = false) →
    failFast steps = (steps.filterMap ObjectResult.record, []) := by
  intro steps
  induction steps with
  | nil => intro _; rfl
  | cons o rest ih =>
    intro h
    have hrest := ih (fun x hx => h x (List.mem_cons_of_mem _ hx))
    have ho := h o (List.mem_cons_self _ _)
    cases o with
    | failed err => simp [ObjectResult.isFailed] at ho
    | skipped => simp [failFast, hrest, ObjectResult.record]
    | item info => simp [failFast, hrest, ObjectResult.record]

theorem failFast_failed : ∀ (before : List ObjectResult) (err : StorageError)
    (after : List ObjectResult), (∀ o ∈ before, o.isFailed = false) →
    failFast (before ++ ObjectResult.failed err :: after) =
      (before.filterMap ObjectResult.record, [err]) := by
  intro before
  induction before with
  | nil => intro err after _; rfl
  | cons o rest ih =>
    intro err after h
    have hrest := ih err after (fun x hx => h x (List.mem_cons_of_mem _ hx))
    have ho := h o (List.mem_cons_self _ _)
    cases o with
    | failed e => simp [ObjectResult.isFailed] at ho
    | skipped => simp [failFast, hrest, ObjectResult.record]
    | item info => simp [failFast, hrest, ObjectResult.record]

theorem failFast_errs_length : ∀ steps : List ObjectResult, (failFast steps).2.length ≤ 1 := by
  intro steps
  induction steps with
  | nil => simp [failFast]
  | cons o rest ih => cases o <;> simp [failFast, ih]

theorem failFast_append_ok : ∀ (a b : List ObjectResult), (failFast a).2 = [] →
    failFast (a ++ b) = ((failFast a).1 ++ (failFast b).1, (failFast b).2) := by
  intro a
  induction a with
  | nil => intro b _; rfl
  | cons o rest ih =>
    intro b h
    cases o with
    | failed err => simp [failFast] at h
    | skipped =>
      simp only [failFast] at h
      simp [failFast, ih b h]
    | item info =>
      simp only [failFast] at h
      simp [failFast, ih b h]

theorem failFast_append_failed : ∀ (a b : List ObjectResult), (failFast a).2 ≠ [] →
    failFast (a ++ b) = failFast a := by
  intro a
  induction a with
  | nil => intro b h; simp [failFast] at h
  | cons o rest ih =>
    intro b h
    cases o with
    | failed err => rfl
    | skipped =>
      simp only [failFast] at h
      simp [failFast, ih b h]
    | item info =>
      simp only [failFast] at h
      simp [failFast, ih b h]

theorem scanObjects_failFast (std : Std) (client : Client) (charts : Charts)
    (bucket prefixKey : String) : ∀ keys : List String,
    ((scanObjects std client charts bucket prefixKey keys).1.items,
      (scanObjects std client charts bucket prefixKey keys).1.errs) =
      failFast (keys.map fun k => (scanObject std client charts bucket prefixKey k).2) ∧
    ((scanObjects std client charts bucket prefixKey keys).2 = true ↔
      (failFast (keys.map fun k =>
        (scanObject std client charts bucket prefixKey k).2)).2 = []) := by
  intro keys
  induction keys with
  | nil => simp [scanObjects, failFast]
  | cons k rest ih =>
    unfold scanObjects
    rcases hres : scanObject std client charts bucket prefixKey k with ⟨reqs, res⟩
    have ih1 := Prod.mk.inj ih.1
    cases res with
    | failed err => simp [hres, failFast]
    | skipped =>
      simp only [List.map_cons, hres, failFast]
      exact ⟨ih.1, ih.2⟩
    | item info =>
      simp only [List.map_cons, hres, failFast]
      refine ⟨?_, ih.2⟩
      rw [← ih1.1, ← ih1.2]

/-- The scan of a listing that ends within the bound returns, and what it has sent is
the fail-fast reading of the steps of the listing. -/
theorem scanPages_failFast (std : Std) (client : Client) (charts : Charts)
    (bucket prefixKey : String) : ∀ (fuel : Nat) (token : Option String)
    (keys : List String) (listErr : Option ClientError),
    listing client bucket prefixKey fuel token = some (keys, listErr) →
    ∃ r, scanPages std client charts bucket prefixKey fuel token = some r ∧
      (r.items, r.errs) = failFast (scanSteps std client charts bucket prefixKey keys listErr) := by
  intro fuel
  induction fuel with
  | zero => intro token keys listErr h; simp [listing] at h
  | succ fuel ih =>
    intro token keys listErr h
    unfold listing at h
    unfold scanPages
    cases hlist : client.ListObjectsV2 bucket prefixKey token with
    | error err =>
      rw [hlist] at h
      simp only [Option.some.injEq, Prod.mk.injEq] at h
      obtain ⟨hk, he⟩ := h
      subst hk he
      exact ⟨_, rfl, rfl⟩
    | ok listOut =>
      rw [hlist] at h
      simp only at h ⊢
      obtain ⟨hff, hflag⟩ := scanObjects_failFast std client charts bucket prefixKey
        listOut.Contents
      have hff' := Prod.mk.inj hff
      -- what the steps of this page give when the listing is this page alone
      have hpage : ∀ r : TraverseResult,
          r.items = (scanObjects std client charts bucket prefixKey listOut.Contents).1.items →
          r.errs = (scanObjects std client charts bucket prefixKey listOut.Contents).1.errs →
          (r.items, r.errs) =
            failFast (scanSteps std client charts bucket prefixKey listOut.Contents none) := by
        intro r h1 h2
        unfold scanSteps
        rw [List.append_nil, ← hff, h1, h2]
      by_cases hstop : (scanObjects std client charts bucket prefixKey listOut.Contents).2 = false
      · rw [if_pos hstop]
        refine ⟨_, rfl, ?_⟩
        have hfailed : (failFast (listOut.Contents.map fun k =>
            (scanObject std client charts bucket prefixKey k).2)).2 ≠ [] := by
          intro hnil
          rw [hflag.mpr hnil] at hstop
          cases hstop
        have hall : ∀ (more : List String) (le : Option ClientError),
            failFast (scanSteps std client charts bucket prefixKey
              (listOut.Contents ++ more) le) =
            failFast (listOut.Contents.map fun k =>
              (scanObject std client charts bucket prefixKey k).2) := by
          intro more le
          unfold scanSteps
          rw [List.map_append, List.append_assoc]
          exact failFast_append_failed _ _ hfailed
        by_cases htr : (!listOut.IsTruncated) = true
        · rw [if_pos htr] at h
          cases h
          exact hpage _ rfl rfl
        · rw [if_neg htr] at h
          cases htok : listOut.NextContinuationToken with
          | none =>
            rw [htok] at h
            cases h
            exact hpage _ rfl rfl
          | some tok =>
            rw [htok] at h
            simp only at h
            by_cases hempty : tok = ""
            · rw [if_pos hempty] at h
              cases h
              exact hpage _ rfl rfl
            · rw [if_neg hempty] at h
              cases hrec : listing client bucket prefixKey fuel (some tok) with
              | none => rw [hrec] at h; cases h
              | some r =>
                rw [hrec] at h
                simp only [Option.map_some', Option.some.injEq, Prod.mk.injEq] at h
                obtain ⟨hk, he⟩ := h
                subst hk he
                rw [hall r.1 r.2]
                exact hff
      · rw [if_neg hstop]
        have hflagtrue : (scanObjects std client charts bucket prefixKey
            listOut.Contents).2 = true := by simpa using hstop
        have hnil := hflag.mp hflagtrue
        by_cases htr : (!listOut.IsTruncated) = true
        · rw [if_pos htr] at h ⊢
          cases h
          exact ⟨_, rfl, hpage _ rfl rfl⟩
        · rw [if_neg htr] at h ⊢
          cases htok : listOut.NextContinuationToken with
          | none =>
            rw [htok] at h
            cases h
            exact ⟨_, rfl, hpage _ rfl rfl⟩
          | some tok =>
            rw [htok] at h
            simp only at h ⊢
            by_cases hempty : tok = ""
            · rw [if_pos hempty] at h ⊢
              cases h
              exact ⟨_, rfl, hpage _ rfl rfl⟩
            · rw [if_neg hempty] at h ⊢
              cases hrec : listing client bucket prefixKey fuel (some tok) with
              | none => rw [hrec] at h; cases h
              | some r =>
                rw [hrec] at h
                simp only [Option.map_some', Option.some.injEq, Prod.mk.injEq] at h
                obtain ⟨hk, he⟩ := h
                subst hk he
                obtain ⟨r', hr', hsent⟩ := ih (some tok) r.1 r.2 hrec
                rw [hr']
                refine ⟨_, rfl, ?_⟩
                have hsent' := Prod.mk.inj hsent
                unfold scanSteps
                rw [List.map_append, List.append_assoc, failFast_append_ok _ _ hnil]
                unfold scanSteps at hsent'
                simp only [TraverseResult.append]
                rw [hsent'.1, hsent'.2, ← hff'.1, hff'.2.trans hnil, List.nil_append]

/-! ## The steps of the scan, from the responses -/

theorem scanObject_of_not_archive (std : Std) (client : Client) (charts : Charts)
    (bucket prefixKey objKey : String)
    (harchive : isTopLevelArchive (relativeKey prefixKey objKey) = false) :
    scanObject std client charts bucket prefixKey objKey = ([], ObjectResult.skipped) := by
  unfold isTopLevelArchive at harchive
  unfold scanObject
  simp only
  by_cases hslash : Contains (relativeKey prefixKey objKey) "/" = true
  · rw [if_pos hslash]
  · rw [if_neg hslash]
    have hslash' : Contains (relativeKey prefixKey objKey) "/" = false := by
      simpa using hslash
    rw [hslash'] at harchive
    simp only [Bool.not_false, Bool.true_and] at harchive
    simp [harchive]

theorem scanObject_of_scanEmits (std : Std) (client : Client) (charts : Charts)
    (bucket prefixKey objKey : String) (info : ChartInfo)
    (harchive : isTopLevelArchive (relativeKey prefixKey objKey) = true)
    (h : scanEmits std client charts bucket prefixKey objKey info) :
    (scanObject std client charts bucket prefixKey objKey).2 = ObjectResult.item info := by
  obtain ⟨attrs, hhead, h⟩ := h
  unfold isTopLevelArchive at harchive
  simp only [Bool.and_eq_true, Bool.not_eq_true'] at harchive
  unfold scanObject
  simp only [harchive.1, harchive.2, hhead, Bool.false_eq_true, if_false, Bool.not_true]
  rcases h with ⟨hslow, body, md, buf, digest, hget, hload, hdig, hinfo⟩ |
    ⟨hfast, md, hjson, hinfo⟩
  · rw [if_pos hslow]
    simp only [hget, hload, hdig]
    rw [hinfo]
  · rw [if_neg hfast]
    simp only [hjson]
    rw [hinfo]

theorem scanObject_of_scanFails (std : Std) (client : Client) (charts : Charts)
    (bucket prefixKey objKey : String) (err : StorageError)
    (harchive : isTopLevelArchive (relativeKey prefixKey objKey) = true)
    (h : scanFails std client charts bucket prefixKey objKey err) :
    (scanObject std client charts bucket prefixKey objKey).2 = ObjectResult.failed err := by
  unfold isTopLevelArchive at harchive
  simp only [Bool.and_eq_true, Bool.not_eq_true'] at harchive
  unfold scanObject
  simp only [harchive.1, harchive.2, Bool.false_eq_true, if_false, Bool.not_true]
  rcases h with ⟨e, hhead, herr⟩ | ⟨attrs, hhead, h⟩
  · simp only [hhead]
    rw [herr]
  · simp only [hhead]
    rcases h with ⟨hslow, hget | ⟨body, hget, hload | ⟨md, buf, hload, hdig, herr⟩⟩⟩ |
      ⟨hfast, hjson, herr⟩
    · obtain ⟨e, hget, herr⟩ := hget
      rw [if_pos hslow]
      simp only [hget]
      rw [herr]
    · rw [if_pos hslow]
      simp only [hget, hload.1]
      rw [hload.2]
    · rw [if_pos hslow]
      simp only [hget, hload, hdig]
      rw [herr]
    · rw [if_neg hfast]
      simp only [hjson]
      rw [herr]

/-- The steps on keys whose calls all succeed: none of them fails, the records are those
that the responses determine, one for every top-level archive key in the order of the
keys, and the file name of each is the relative key. -/
theorem scanSteps_of_scanEmits (std : Std) (client : Client) (charts : Charts)
    (bucket prefixKey : String) :
    ∀ keys : List String,
      (∀ k ∈ keys, isTopLevelArchive (relativeKey prefixKey k) = true →
        ∃ info, scanEmits std client charts bucket prefixKey k info) →
      (∀ o ∈ keys.map fun k => (scanObject std client charts bucket prefixKey k).2,
        o.isFailed = false) ∧
      List.Forall₂ (fun k info => scanEmits std client charts bucket prefixKey k info)
        (keys.filter fun k => isTopLevelArchive (relativeKey prefixKey k))
        ((keys.map fun k => (scanObject std client charts bucket prefixKey k).2).filterMap
          ObjectResult.record) ∧
      (((keys.map fun k => (scanObject std client charts bucket prefixKey k).2).filterMap
          ObjectResult.record).map fun info => info.Filename) =
        (keys.map (relativeKey prefixKey)).filter isTopLevelArchive := by
  intro keys
  induction keys with
  | nil =>
    intro _
    exact ⟨by simp, List.Forall₂.nil, rfl⟩
  | cons k rest ih =>
    intro h
    obtain ⟨hfail, hrec, hnames⟩ := ih (fun x hx => h x (List.mem_cons_of_mem _ hx))
    by_cases hq : isTopLevelArchive (relativeKey prefixKey k) = true
    · obtain ⟨info, hinfo⟩ := h k (List.mem_cons_self _ _) hq
      have hstep := scanObject_of_scanEmits std client charts bucket prefixKey k info hq hinfo
      have hname : info.Filename = relativeKey prefixKey k := by
        obtain ⟨attrs, _, h1 | h1⟩ := hinfo
        · obtain ⟨_, _, _, _, _, _, _, _, hi⟩ := h1
          rw [hi]
        · obtain ⟨_, _, _, hi⟩ := h1
          rw [hi]
      refine ⟨?_, ?_, ?_⟩
      · intro o ho
        rcases List.mem_cons.mp ho with ho | ho
        · rw [ho]
          show (scanObject std client charts bucket prefixKey k).2.isFailed = false
          rw [hstep]
          rfl
        · exact hfail o ho
      · simp only [List.map_cons, hstep, List.filterMap_cons, ObjectResult.record,
          List.filter_cons, hq, if_true]
        exact List.Forall₂.cons hinfo hrec
      · simp only [List.map_cons, hstep, List.filterMap_cons, ObjectResult.record,
          List.filter_cons, hq, if_true, hname]
        rw [← hnames]
    · have hq' : isTopLevelArchive (relativeKey prefixKey k) = false := by
        simpa using hq
      have hstep : (scanObject std client charts bucket prefixKey k).2 =
          ObjectResult.skipped := by
        rw [scanObject_of_not_archive std client charts bucket prefixKey k hq']
      refine ⟨?_, ?_, ?_⟩
      · intro o ho
        rcases List.mem_cons.mp ho with ho | ho
        · rw [ho]
          show (scanObject std client charts bucket prefixKey k).2.isFailed = false
          rw [hstep]
          rfl
        · exact hfail o ho
      · simp only [List.map_cons, hstep, List.filterMap_cons, ObjectResult.record,
          List.filter_cons, hq', Bool.false_eq_true, if_false]
        exact hrec
      · simp only [List.map_cons, hstep, List.filterMap_cons, ObjectResult.record,
          List.filter_cons, hq', Bool.false_eq_true, if_false]
        rw [← hnames]

/-- The scan read as a sequence of steps: with a repository URI that parses and a listing
that ends, `traverse` returns, and its records and errors are the fail-fast reading of
the steps on the listed keys, followed by the failed request of the listing, if any. -/
theorem traverse_failFast_steps (std : Std) (client : Client) (charts : Charts)
    (repoURI bucket prefixKey : String) (fuel : Nat) (keys : List String)
    (listErr : Option ClientError)
    (huri : parseURI std repoURI = Except.ok (bucket, prefixKey))
    (hlist : listing client bucket prefixKey fuel none = some (keys, listErr)) :
    ∃ r, Storage.traverse std client charts repoURI fuel = some r ∧
      r.errs.length ≤ 1 ∧
      ((∀ o ∈ scanSteps std client charts bucket prefixKey keys listErr, o.isFailed = false) →
        r.errs = [] ∧
        r.items = (scanSteps std client charts bucket prefixKey keys listErr).filterMap
          ObjectResult.record) ∧
      (∀ before err after,
        scanSteps std client charts bucket prefixKey keys listErr =
          before ++ ObjectResult.failed err :: after →
        (∀ o ∈ before, o.isFailed = false) →
        r.errs = [err] ∧ r.items = before.filterMap ObjectResult.record) := by
  obtain ⟨r, hr, hsent⟩ := scanPages_failFast std client charts bucket prefixKey fuel none
    keys listErr hlist
  have hsent' := Prod.mk.inj hsent
  refine ⟨r, ?_, ?_, ?_, ?_⟩
  · unfold Storage.traverse
    rw [huri]
    exact hr
  · rw [hsent'.2]
    exact failFast_errs_length _
  · intro hok
    rw [hsent'.1, hsent'.2, failFast_ok _ hok]
    exact ⟨rfl, rfl⟩
  · intro before err after hsplit hok
    rw [hsent'.1, hsent'.2, hsplit, failFast_failed before err after hok]
    exact ⟨rfl, rfl⟩

/-- C13: with a repository URI that parses and a listing that ends, `traverse` returns
and reports at most one error. When every call for every listed top-level archive
succeeds and the listing ends without a failed request, no error is reported and the
records are those of all these archives. When a call for a listed archive fails (head,
get, archive parse, digest or descriptor deserialization), the calls for the archives
listed before it having succeeded, `traverse` reports the error of that call alone and
has emitted exactly the records of the archives listed before it, in listing order, and
none of a later key. When a request of the listing fails, it reports that error alone
after the records of the archives listed until then. -/
theorem traverse_fail_fast (std : Std) (client : Client) (charts : Charts)
    (repoURI bucket prefixKey : String) (fuel : Nat) (keys : List String)
    (listErr : Option ClientError)
    (huri : parseURI std repoURI = Except.ok (bucket, prefixKey))
    (hlist : listing client bucket prefixKey fuel none = some (keys, listErr)) :
    ∃ r, Storage.traverse std client charts repoURI fuel = some r ∧
      r.errs.length ≤ 1 ∧
      (listErr = none →
        (∀ k ∈ keys, isTopLevelArchive (relativeKey prefixKey k) = true →
          ∃ info, scanEmits std client charts bucket prefixKey k info) →
        r.errs = [] ∧
        List.Forall₂ (fun k info => scanEmits std client charts bucket prefixKey k info)
          (keys.filter fun k => isTopLevelArchive (relativeKey prefixKey k)) r.items ∧
        r.items.map (fun info => info.Filename) =
          (keys.map (relativeKey prefixKey)).filter isTopLevelArchive) ∧
      (∀ before k after err, keys = before ++ k :: after →
        (∀ k' ∈ before, isTopLevelArchive (relativeKey prefixKey k') = true →
          ∃ info, scanEmits std client charts bucket prefixKey k' info) →
        isTopLevelArchive (relativeKey prefixKey k) = true →
        scanFails std client charts bucket prefixKey k err →
        r.errs = [err] ∧
        List.Forall₂ (fun k info => scanEmits std client charts bucket prefixKey k info)
          (before.filter fun k => isTopLevelArchive (relativeKey prefixKey k)) r.items ∧
        r.items.map (fun info => info.Filename) =
          (before.map (relativeKey prefixKey)).filter isTopLevelArchive) ∧
      (∀ e, listErr = some e →
        (∀ k ∈ keys, isTopLevelArchive (relativeKey prefixKey k) = true →
          ∃ info, scanEmits std client charts bucket prefixKey k info) →
        r.errs = [StorageError.listObjects e] ∧
        List.Forall₂ (fun k info => scanEmits std client charts bucket prefixKey k info)
          (keys.filter fun k => isTopLevelArchive (relativeKey prefixKey k)) r.items ∧
        r.items.map (fun info => info.Filename) =
          (keys.map (relativeKey prefixKey)).filter isTopLevelArchive) := by
  obtain ⟨r, hr, hsent⟩ := scanPages_failFast std client charts bucket prefixKey fuel none
    keys listErr hlist
  have hsent' := Prod.mk.inj hsent
  refine ⟨r, ?_, ?_, ?_, ?_, ?_⟩
  · unfold Storage.traverse
    rw [huri]
    exact hr
  · rw [hsent'.2]
    exact failFast_errs_length _
  · intro hnone hok
    obtain ⟨hfail, hrec, hnames⟩ :=
      scanSteps_of_scanEmits std client charts bucket prefixKey keys hok
    have hsteps : scanSteps std client charts bucket prefixKey keys listErr =
        keys.map fun k => (scanObject std client charts bucket prefixKey k).2 := by
      unfold scanSteps
      rw [hnone]
      simp
    rw [hsent'.1, hsent'.2, hsteps, failFast_ok _ hfail]
    exact ⟨rfl, hrec, hnames⟩
  · intro before k after err hkeys hok harchive hfails
    obtain ⟨hfail, hrec, hnames⟩ :=
      scanSteps_of_scanEmits std client charts bucket prefixKey before hok
    have hstep := scanObject_of_scanFails std client charts bucket prefixKey k err harchive
      hfails
    have hsteps : ∃ tail, scanSteps std client charts bucket prefixKey keys listErr =
        (before.map fun k => (scanObject std client charts bucket prefixKey k).2) ++
          ObjectResult.failed err :: tail := by
      unfold scanSteps
      rw [hkeys]
      simp only [List.map_append, List.map_cons, hstep, List.append_assoc, List.cons_append]
      exact ⟨_, rfl⟩
    obtain ⟨tail, hsteps⟩ := hsteps
    rw [hsent'.1, hsent'.2, hsteps, failFast_failed _ err _ hfail]
    exact ⟨rfl, hrec, hnames⟩
  · intro e hsome hok
    obtain ⟨hfail, hrec, hnames⟩ :=
      scanSteps_of_scanEmits std client charts bucket prefixKey keys hok
    have hsteps : scanSteps std client charts bucket prefixKey keys listErr =
        (keys.map fun k => (scanObject std client charts bucket prefixKey k).2) ++
          ObjectResult.failed (StorageError.listObjects e) :: [] := by
      unfold scanSteps
      rw [hsome]
    rw [hsent'.1, hsent'.2, hsteps, failFast_failed _ _ _ hfail]
    exact ⟨rfl, hrec, hnames⟩

/-- Witness of C13: the second of three archives has a body that is no archive; the scan
emits the record of the first archive, reports the one error of the load, and emits no
record of the third archive. -/
theorem traverse_fail_fast_witness :
    ∃ r, Storage.traverse goStd
      (bucketClient
        [{ key := "charts/app-1.0.0.tgz", attrs := [], body := "app:1.0.0" },
         { key := "charts/app-1.1.0.tgz", attrs := [], body := "garbage" },
         { key := "charts/app-1.2.0.tgz", attrs := [], body := "app:1.2.0" }])
      (toyCharts none) "oss://bucket/charts" 1 = some r ∧
      r.errs = [StorageError.loadArchive "app-1.1.0.tgz"] ∧
      r.items.map (fun info => info.Filename) = ["app-1.0.0.tgz"] := by
  obtain ⟨r, hr, _, _, hfails, _⟩ := traverse_fail_fast goStd
    (bucketClient
      [{ key := "charts/app-1.0.0.tgz", attrs := [], body := "app:1.0.0" },
       { key := "charts/app-1.1.0.tgz", attrs := [], body := "garbage" },
       { key := "charts/app-1.2.0.tgz", attrs := [], body := "app:1.2.0" }])
    (toyCharts none) "oss://bucket/charts" "bucket" "charts" 1
    ["charts/app-1.0.0.tgz", "charts/app-1.1.0.tgz", "charts/app-1.2.0.tgz"] none
    rfl rfl
  obtain ⟨herrs, _, hnames⟩ := hfails ["charts/app-1.0.0.tgz"] "charts/app-1.1.0.tgz"
    ["charts/app-1.2.0.tgz"] (StorageError.loadArchive "app-1.1.0.tgz") rfl
    (by
      intro k hk _
      rw [List.mem_singleton.mp hk]
      exact ⟨{ Meta := descriptor "app" "1.0.0", Filename := "app-1.0.0.tgz",
               Hash := "sha:app:1.0.0" }, [], rfl,
        Or.inl ⟨Or.inl (by decide), some "app:1.0.0", descriptor "app" "1.0.0", "app:1.0.0",
          "sha:app:1.0.0", rfl, by decide, by decide, by decide⟩⟩)
    (by decide)
    (Or.inr ⟨[], rfl, Or.inl ⟨Or.inl (by decide),
      Or.inr ⟨some "garbage", rfl, Or.inl ⟨by decide, by decide⟩⟩⟩⟩)
  exact ⟨r, hr, herrs, hnames.trans (by decide)⟩

theorem scanObject_record (std : Std) (client : Client) (charts : Charts)
    (bucket prefixKey objKey : String)
    (hok : (scanObject std client charts bucket prefixKey objKey).2.isFailed = false) :
    ((scanObject std client charts bucket prefixKey objKey).2.record).map
        (fun info => info.Filename) =
      if isTopLevelArchive (relativeKey prefixKey objKey) = true then
        some (relativeKey prefixKey objKey)
      else none := by
  unfold scanObject isTopLevelArchive at *
  simp only at hok ⊢
  by_cases hslash : Contains (relativeKey prefixKey objKey) "/" = true
  · simp [hslash, ObjectResult.record]
  · by_cases hsuf : (!HasSuffix (relativeKey prefixKey objKey) ".tgz") = true
    · have hsuf' : HasSuffix (relativeKey prefixKey objKey) ".tgz" = false := by
        simpa using hsuf
      simp [hslash, hsuf', ObjectResult.record]
    · have hsuf' : HasSuffix (relativeKey prefixKey objKey) ".tgz" = true := by
        simpa using hsuf
      have hslash' : Contains (relativeKey prefixKey objKey) "/" = false := by
        simpa using hslash
      simp only [hslash', hsuf', Bool.false_eq_true, if_false, Bool.not_true, Bool.not_false,
        Bool.and_self, if_true] at hok ⊢
      repeat' split at hok
      all_goals first
        | (simp [ObjectResult.isFailed] at hok; done)
        | simp_all [ObjectResult.record]

/-- C11, amended: when the repository URI parses, the listing ends without a failed
request, and every call for every listed top-level archive succeeds (head; get, load of
the archive and digest where an attribute is missing; deserialization of the descriptor
otherwise), `traverse` returns without an error and has emitted, in listing order, one
record for every listed object whose relative key contains no slash and ends with
`.tgz`, with that relative key as `Filename`, and no other record. -/
theorem traverse_keeps_top_level_archives (std : Std) (client : Client) (charts : Charts)
    (repoURI bucket prefixKey : String) (fuel : Nat) (keys : List String)
    (huri : parseURI std repoURI = Except.ok (bucket, prefixKey))
    (hlist : listing client bucket prefixKey fuel none = some (keys, none))
    (hok : ∀ k ∈ keys, isTopLevelArchive (relativeKey prefixKey k) = true →
      ∃ info, scanEmits std client charts bucket prefixKey k info) :
    ∃ r, Storage.traverse std client charts repoURI fuel = some r ∧
      r.errs = [] ∧
      r.items.map (fun info => info.Filename) =
        (keys.map (relativeKey prefixKey)).filter isTopLevelArchive := by
  obtain ⟨r, hr, hsent⟩ := scanPages_failFast std client charts bucket prefixKey fuel none
    keys none hlist
  have hsent' := Prod.mk.inj hsent
  have hsteps : scanSteps std client charts bucket prefixKey keys none =
      keys.map fun k => (scanObject std client charts bucket prefixKey k).2 := by
    unfold scanSteps
    simp
  obtain ⟨hfail, _, hnames⟩ :=
    scanSteps_of_scanEmits std client charts bucket prefixKey keys hok
  refine ⟨r, ?_, ?_, ?_⟩
  · unfold Storage.traverse
    rw [huri]
    exact hr
  · rw [hsent'.2, hsteps, failFast_ok _ hfail]
  · rw [hsent'.1, hsteps, failFast_ok _ hfail]
    exact hnames

/-- Witness of C11, amended: three archives and a stray README under the prefix give
exactly three records. -/
theorem traverse_keeps_top_level_archives_witness :
    ∃ r, Storage.traverse goStd
      (bucketClient
        [{ key := "charts/README.md", attrs := [], body := "read me" },
         { key := "charts/app-1.0.0.tgz", attrs := [], body := "app:1.0.0" },
         { key := "charts/app-1.1.0.tgz", attrs := [], body := "app:1.1.0" },
         { key := "charts/lib-0.1.0.tgz", attrs := [], body := "lib:0.1.0" }])
      (toyCharts none) "oss://bucket/charts" 1 = some r ∧
      r.errs = [] ∧
      r.items.map (fun info => info.Filename) =
        ["app-1.0.0.tgz", "app-1.1.0.tgz", "lib-0.1.0.tgz"] :=
  traverse_keeps_top_level_archives goStd
    (bucketClient
      [{ key := "charts/README.md", attrs := [], body := "read me" },
       { key := "charts/app-1.0.0.tgz", attrs := [], body := "app:1.0.0" },
       { key := "charts/app-1.1.0.tgz", attrs := [], body := "app:1.1.0" },
       { key := "charts/lib-0.1.0.tgz", attrs := [], body := "lib:0.1.0" }])
    (toyCharts none) "oss://bucket/charts" "bucket" "charts" 1
    ["charts/README.md", "charts/app-1.0.0.tgz", "charts/app-1.1.0.tgz",
      "charts/lib-0.1.0.tgz"]
    rfl rfl
    (by
      intro k hk harchive
      simp only [List.mem_cons, List.mem_singleton, List.not_mem_nil, or_false] at hk
      rcases hk with hk | hk | hk | hk
      · rw [hk] at harchive
        exact absurd harchive (by decide)
      · rw [hk]
        exact ⟨{ Meta := descriptor "app" "1.0.0", Filename := "app-1.0.0.tgz",
                 Hash := "sha:app:1.0.0" }, [], rfl,
          Or.inl ⟨Or.inl (by decide), some "app:1.0.0", descriptor "app" "1.0.0",
            "app:1.0.0", "sha:app:1.0.0", rfl, by decide, by decide, by decide⟩⟩
      · rw [hk]
        exact ⟨{ Meta := descriptor "app" "1.1.0", Filename := "app-1.1.0.tgz",
                 Hash := "sha:app:1.1.0" }, [], rfl,
          Or.inl ⟨Or.inl (by decide), some "app:1.1.0", descriptor "app" "1.1.0",
            "app:1.1.0", "sha:app:1.1.0", rfl, by decide, by decide, by decide⟩⟩
      · rw [hk]
        exact ⟨{ Meta := descriptor "lib" "0.1.0", Filename := "lib-0.1.0.tgz",
                 Hash := "sha:lib:0.1.0" }, [], rfl,
          Or.inl ⟨Or.inl (by decide), some "lib:0.1.0", descriptor "lib" "0.1.0",
            "lib:0.1.0", "sha:lib:0.1.0", rfl, by decide, by decide, by decide⟩⟩)

/-- Counterexample to C11 as stated: the one listed object is a top-level archive key,
every request to the store is answered without an error, but the body is no chart
archive; the scan emits no record for the object. -/
theorem traverse_keeps_top_level_archives_counterexample :
    isTopLevelArchive (relativeKey "charts" "charts/app-1.0.0.tgz") = true ∧
    (bucketClient [{ key := "charts/app-1.0.0.tgz", attrs := [], body := "garbage" }]).ListObjectsV2
      "bucket" "charts" none =
      Except.ok { Contents := ["charts/app-1.0.0.tgz"], IsTruncated := false,
                  NextContinuationToken := none } ∧
    (bucketClient [{ key := "charts/app-1.0.0.tgz", attrs := [], body := "garbage" }]).HeadObject
      "bucket" "charts/app-1.0.0.tgz" = Except.ok [] ∧
    (bucketClient [{ key := "charts/app-1.0.0.tgz", attrs := [], body := "garbage" }]).GetObject
      "bucket" "charts/app-1.0.0.tgz" = Except.ok (some "garbage") ∧
    Storage.traverse goStd
      (bucketClient [{ key := "charts/app-1.0.0.tgz", attrs := [], body := "garbage" }])
      (toyCharts none) "oss://bucket/charts" 1 =
    some
      { items := []
        errs := [StorageError.loadArchive "app-1.0.0.tgz"]
        requests :=
          [Request.listObjectsV2 "bucket" "charts" none,
           Request.headObject "bucket" "charts/app-1.0.0.tgz",
           Request.getObject "bucket" "charts/app-1.0.0.tgz"] } :=
  ⟨by decide, rfl, rfl, rfl, by decide⟩

/-- C12: for an object whose relative key names a top-level archive and whose attributes
the store returns, the scan requests the body of the object exactly when the lookup of
`chart-metadata` or the lookup of `chart-digest` in the attributes gives the empty
string; otherwise the record it emits, if any, has as `Hash` the value of the
`chart-digest` attribute and as `Meta` the descriptor deserialized from the value of the
`chart-metadata` attribute, and it emits that record whenever the value deserializes. -/
theorem scanObject_fast_path (std : Std) (client : Client) (charts : Charts)
    (bucket prefixKey objKey : String) (attrs : Attributes)
    (harchive : isTopLevelArchive (relativeKey prefixKey objKey) = true)
    (hhead : client.HeadObject bucket objKey = Except.ok attrs) :
    (Request.getObject bucket objKey ∈
        (scanObject std client charts bucket prefixKey objKey).1 ↔
      (getMetadataValue std.ToLower attrs "chart-metadata" = "" ∨
        getMetadataValue std.ToLower attrs "chart-digest" = "")) ∧
    (¬ (getMetadataValue std.ToLower attrs "chart-metadata" = "" ∨
        getMetadataValue std.ToLower attrs "chart-digest" = "") →
      (∀ info, (scanObject std client charts bucket prefixKey objKey).2 =
          ObjectResult.item info →
        info.Hash = getMetadataValue std.ToLower attrs "chart-digest" ∧
        charts.UnmarshalJSON (getMetadataValue std.ToLower attrs "chart-metadata") =
          some info.Meta) ∧
      (∀ md, charts.UnmarshalJSON (getMetadataValue std.ToLower attrs "chart-metadata") =
          some md →
        (scanObject std client charts bucket prefixKey objKey).2 =
          ObjectResult.item
            { Meta := md, Filename := relativeKey prefixKey objKey,
              Hash := getMetadataValue std.ToLower attrs "chart-digest" })) := by
  unfold isTopLevelArchive at harchive
  simp only [Bool.and_eq_true, Bool.not_eq_true'] at harchive
  unfold scanObject
  simp only [harchive.1, harchive.2, hhead, Bool.false_eq_true, if_false, Bool.not_true,
    metaChartMetadata, metaChartDigest]
  by_cases hslow : getMetadataValue std.ToLower attrs "chart-metadata" = "" ∨
      getMetadataValue std.ToLower attrs "chart-digest" = ""
  · simp only [hslow, if_true, true_iff, not_true_eq_false, false_implies, and_true]
    repeat' split
    all_goals simp
  · simp only [hslow, if_false, false_iff, not_false_eq_true, true_implies]
    cases hjson : charts.UnmarshalJSON (getMetadataValue std.ToLower attrs "chart-metadata") with
    | none => simp
    | some md =>
      simp only [List.mem_singleton, reduceCtorEq, not_false_eq_true, ObjectResult.item.injEq,
        Option.some.injEq, true_and]
      refine ⟨?_, ?_⟩
      · intro info hinfo
        rw [← hinfo]
        exact ⟨rfl, rfl⟩
      · intro md' hmd
        rw [hmd]

/-- Witness of C12: the first archive carries both attributes and is not downloaded, the
second lacks the digest and is downloaded. -/
theorem scanObject_fast_path_witness :
    scanObject goStd
      (bucketClient
        [{ key := "charts/app-1.0.0.tgz",
           attrs := [("Chart-Metadata", "app:1.0.0"), ("Chart-Digest", "sha:stored")],
           body := "app:1.0.0" }])
      (toyCharts none) "bucket" "charts" "charts/app-1.0.0.tgz" =
      ([Request.headObject "bucket" "charts/app-1.0.0.tgz"],
        ObjectResult.item
          { Meta := descriptor "app" "1.0.0", Filename := "app-1.0.0.tgz",
            Hash := "sha:stored" }) ∧
    Request.getObject "bucket" "charts/app-1.1.0.tgz" ∈
      (scanObject goStd
        (bucketClient
          [{ key := "charts/app-1.1.0.tgz", attrs := [("Chart-Metadata", "app:1.1.0")],
             body := "app:1.1.0" }])
        (toyCharts none) "bucket" "charts" "charts/app-1.1.0.tgz").1 :=
  ⟨by decide,
   (scanObject_fast_path goStd
      (bucketClient
        [{ key := "charts/app-1.1.0.tgz", attrs := [("Chart-Metadata", "app:1.1.0")],
           body := "app:1.1.0" }])
      (toyCharts none) "bucket" "charts" "charts/app-1.1.0.tgz"
      [("Chart-Metadata", "app:1.1.0")] (by decide) rfl).1.mpr (Or.inr (by decide))⟩

/-! ## The workflows and the writes they issue -/

theorem Exists_reads (std : Std) (client : Client) (uri : String) :
    ∀ req ∈ (Storage.Exists std client uri).1, req.isWrite = false := by
  unfold Storage.Exists
  repeat' split
  all_goals simp [Request.isWrite]

theorem FetchRaw_reads (std : Std) (client : Client) (uri : String) :
    ∀ req ∈ (Storage.FetchRaw std client uri).1, req.isWrite = false := by
  unfold Storage.FetchRaw
  repeat' split
  all_goals simp [Request.isWrite]

theorem Exists_of_head (std : Std) (client : Client) (uri bucket key : String)
    (attrs : Attributes) (huri : parseURI std uri = Except.ok (bucket, key))
    (hhead : client.HeadObject bucket key = Except.ok attrs) :
    Storage.Exists std client uri = ([Request.headObject bucket key], Except.ok true) := by
  unfold Storage.Exists
  simp only [huri, hhead]

/-- C18, amended: when the store already holds an object at the key of the chart file
(the repository URL, a slash and the base name of the chart path), or the cached index
of a named repository already has the name and the version of the chart,
`pushAction.run` with `force = false` returns an error and issues no write to the
store. -/
theorem push_without_force_rejects_existing (lib : Lib) (std : Std) (client : Client)
    (charts : Charts) (loc : Local) (act : pushAction) (chart : Metadata) (repo : Repository)
    (hforce : act.force = false)
    (hchart : charts.LoadChart act.chartPath = some chart)
    (hrepo : NewRepository loc act.repoOrURI = some repo)
    (hexists :
      (repo.ShouldUpdateCache = true ∧ ∃ cachedIndex,
        loc.LoadIndex repo.CacheFile = some cachedIndex ∧
        cachedIndex.Has lib chart.Name chart.Version = true) ∨
      (∃ bucket key attrs,
        parseURI std (repo.URL ++ "/" ++ filepathBase act.chartPath) =
          Except.ok (bucket, key) ∧
        client.HeadObject bucket key = Except.ok attrs)) :
    (pushAction.run lib std client charts loc act).err ≠ none ∧
    ∀ req ∈ (pushAction.run lib std client charts loc act).requests, req.isWrite = false := by
  unfold pushAction.run
  simp only [hchart, hrepo]
  by_cases hcache : repo.ShouldUpdateCache = true ∧
      (match loc.LoadIndex repo.CacheFile with
        | some cachedIndex => cachedIndex.Has lib chart.Name chart.Version
        | none => false) = true ∧
      act.force = false
  · rw [if_pos hcache]
    simp
  · rw [if_neg hcache]
    rcases hexists with ⟨hupd, cachedIndex, hload, hhas⟩ | ⟨bucket, key, attrs, huri, hhead⟩
    · exfalso
      apply hcache
      rw [hload]
      exact ⟨hupd, hhas, hforce⟩
    · cases hprov : loc.Open (act.chartPath ++ ".prov") with
      | failed => simp
      | opened =>
        simp only [Exists_of_head std client _ bucket key attrs huri hhead, hforce, and_self,
          if_true]
        simp [Request.isWrite]
      | notExist =>
        simp only [Exists_of_head std client _ bucket key attrs huri hhead, hforce, and_self,
          if_true]
        simp [Request.isWrite]

/-- Witness of C18, amended: the archive `app-1.0.0.tgz` is already in the bucket. -/
theorem push_without_force_rejects_existing_witness :
    pushAction.run helmLib goStd
      (bucketClient
        [{ key := "charts/index.yaml", attrs := [], body := "doc" },
         { key := "charts/app-1.0.0.tgz", attrs := [], body := "app:1.0.0" }])
      (toyCharts (some (descriptor "app" "1.0.0"))) (toyLocal (decodeAs "app" ["1.0.0"]))
      { chartPath := "./app-1.0.0.tgz", repoOrURI := "oss://bucket/charts", dryRun := false,
        force := false } =
    { err := some RunError.chartExists
      requests := [Request.headObject "bucket" "charts/app-1.0.0.tgz"] } := by
  have h := push_without_force_rejects_existing helmLib goStd
    (bucketClient
      [{ key := "charts/index.yaml", attrs := [], body := "doc" },
       { key := "charts/app-1.0.0.tgz", attrs := [], body := "app:1.0.0" }])
    (toyCharts (some (descriptor "app" "1.0.0"))) (toyLocal (decodeAs "app" ["1.0.0"]))
    { chartPath := "./app-1.0.0.tgz", repoOrURI := "oss://bucket/charts", dryRun := false,
      force := false }
    (descriptor "app" "1.0.0") (Repository.remoteRepository "oss://bucket/charts")
    rfl rfl (by decide)
    (Or.inr ⟨"bucket", "charts/app-1.0.0.tgz", [], rfl, rfl⟩)
  decide

/-- Counterexample to C18 as stated: the catalog on the store holds `app` 1.0.0, the
chart `app` 1.0.0 is pushed without force from a file named `renamed.tgz`, for which the
store holds no object; the run returns no error and writes the chart and the index. -/
theorem push_without_force_rejects_existing_counterexample :
    (Storage.FetchRaw goStd
      (bucketClient
        [{ key := "charts/index.yaml", attrs := [], body := "doc" },
         { key := "charts/app-1.0.0.tgz", attrs := [], body := "app:1.0.0" }])
      "oss://bucket/charts/index.yaml").2 = Except.ok "doc" ∧
    (Index.UnmarshalBinary helmLib goStd (toyLocal (decodeAs "app" ["1.0.0"])) "doc").map
      (fun idx => idx.Has helmLib "app" "1.0.0") = some true ∧
    pushAction.run helmLib goStd
      (bucketClient
        [{ key := "charts/index.yaml", attrs := [], body := "doc" },
         { key := "charts/app-1.0.0.tgz", attrs := [], body := "app:1.0.0" }])
      (toyCharts (some (descriptor "app" "1.0.0"))) (toyLocal (decodeAs "app" ["1.0.0"]))
      { chartPath := "./renamed.tgz", repoOrURI := "oss://bucket/charts", dryRun := false,
        force := false } =
    { err := none
      requests :=
        [Request.headObject "bucket" "charts/renamed.tgz",
         Request.putObject "bucket" "charts/renamed.tgz" (Payload.file "./renamed.tgz")
           (some "application/gzip")
           (some [("chart-metadata", "app:1.0.0"), ("chart-digest", "sha:./renamed.tgz")]),
         Request.getObject "bucket" "charts/index.yaml",
         Request.putObject "bucket" "charts/index.yaml" (Payload.bytes "index") none none] } :=
  ⟨rfl, by decide, by decide⟩

theorem FetchRaw_of_get (std : Std) (client : Client) (uri bucket key b : String)
    (huri : parseURI std uri = Except.ok (bucket, key))
    (hget : client.GetObject bucket key = Except.ok (some b)) :
    Storage.FetchRaw std client uri = ([Request.getObject bucket key], Except.ok b) := by
  unfold Storage.FetchRaw
  simp only [huri, hget]

theorem Exists_of_not_found (std : Std) (client : Client) (uri bucket key : String)
    (huri : parseURI std uri = Except.ok (bucket, key))
    (hhead : client.HeadObject bucket key = Except.error ClientError.notFound ∨
      ∃ statusCode code,
        client.HeadObject bucket key = Except.error (ClientError.service statusCode code) ∧
        (statusCode = 404 ∨ code = "NoSuchKey" ∨ code = "NotFound")) :
    Storage.Exists std client uri = ([Request.headObject bucket key], Except.ok false) := by
  unfold Storage.Exists
  rcases hhead with h | ⟨statusCode, code, h, hcode⟩
  · simp only [huri, h]
  · simp only [huri, h, if_pos hcode]

theorem PutChart_of_put (std : Std) (client : Client)
    (uri chartPath chartMeta chartDigest contentType bucket key : String) (prov : Bool)
    (huri : parseURI std uri = Except.ok (bucket, key))
    (hput : client.PutObject bucket key = none)
    (hputProv : prov = true → client.PutObject bucket (key ++ ".prov") = none) :
    Storage.PutChart std client uri chartPath chartMeta chartDigest contentType prov =
      (Request.putObject bucket key (Payload.file chartPath) (some contentType)
          (assembleObjectMetadata chartMeta chartDigest) ::
        (if prov = true then
          [Request.putObject bucket (key ++ ".prov") (Payload.file (chartPath ++ ".prov"))
            none none]
        else []), none) := by
  unfold Storage.PutChart
  simp only [huri, hput]
  cases prov with
  | true => simp [hputProv rfl]
  | false => simp

/-- C19, amended: in the delete workflow, when `Index.Delete` returns an error for the
index fetched from the store, the run returns that error and the one request it has
issued is the get of the index: no put and no delete. In the publish workflow with
`dryRun = false`, when the run passes its checks, uploads the chart and fetches the
index, and `Index.AddOrReplace` then returns an error, the run returns an error and has
not uploaded an index, but it has uploaded the chart before: its requests are the head
of the chart object, the put of the chart archive (and of the provenance file, if there
is one), and the get of the index. -/
theorem failed_mutation_writes (lib : Lib) (std : Std) (client : Client) (charts : Charts)
    (loc : Local) :
    (∀ (act : deleteAction) (repo : Repository) (ibucket ikey b : String) (i : IndexFile)
        (err : Error),
      NewRepository loc act.repoOrURI = some repo →
      parseURI std repo.IndexURL = Except.ok (ibucket, ikey) →
      client.GetObject ibucket ikey = Except.ok (some b) →
      loc.Unmarshal b = some i →
      ((Index.SortEntries lib std { index := i }).Delete act.chartName act.version).2.2 =
        some err →
      deleteAction.run lib std client loc act =
        { err := some (RunError.delete err)
          requests := [Request.getObject ibucket ikey] }) ∧
    (∀ (act : pushAction) (chart : Metadata) (repo : Repository)
        (hash json bucket key ibucket ikey b : String) (i : IndexFile) (err : Error),
      act.dryRun = false →
      charts.LoadChart act.chartPath = some chart →
      NewRepository loc act.repoOrURI = some repo →
      ¬ (repo.ShouldUpdateCache = true ∧
          (match loc.LoadIndex repo.CacheFile with
            | some cachedIndex => cachedIndex.Has lib chart.Name chart.Version
            | none => false) = true ∧
          act.force = false) →
      loc.Open (act.chartPath ++ ".prov") ≠ OpenResult.failed →
      parseURI std (repo.URL ++ "/" ++ filepathBase act.chartPath) = Except.ok (bucket, key) →
      ((∃ attrs, client.HeadObject bucket key = Except.ok attrs ∧ act.force = true) ∨
        client.HeadObject bucket key = Except.error ClientError.notFound ∨
        ∃ statusCode code,
          client.HeadObject bucket key = Except.error (ClientError.service statusCode code) ∧
          (statusCode = 404 ∨ code = "NoSuchKey" ∨ code = "NotFound")) →
      loc.Open act.chartPath = OpenResult.opened →
      charts.DigestFile act.chartPath = some hash →
      charts.MarshalJSON chart = some json →
      client.PutObject bucket key = none →
      (loc.Open (act.chartPath ++ ".prov") = OpenResult.opened →
        client.PutObject bucket (key ++ ".prov") = none) →
      parseURI std repo.IndexURL = Except.ok (ibucket, ikey) →
      client.GetObject ibucket ikey = Except.ok (some b) →
      loc.Unmarshal b = some i →
      (Index.AddOrReplace lib loc.now (Index.SortEntries lib std { index := i })
        (Value.chartMetadata chart) (filepathBase act.chartPath) "" hash).2 = some err →
      pushAction.run lib std client charts loc act =
        { err := some (RunError.addOrReplace err)
          requests :=
            Request.headObject bucket key ::
            Request.putObject bucket key (Payload.file act.chartPath) (some "application/gzip")
              (assembleObjectMetadata json hash) ::
            ((if loc.Open (act.chartPath ++ ".prov") = OpenResult.opened then
                [Request.putObject bucket (key ++ ".prov")
                  (Payload.file (act.chartPath ++ ".prov")) none none]
              else []) ++
              [Request.getObject ibucket ikey]) }) := by
  refine ⟨?_, ?_⟩
  · intro act repo ibucket ikey b i err hrepo huri hget hdecode hdel
    have hfetch := FetchRaw_of_get std client repo.IndexURL ibucket ikey b huri hget
    have hidx : Index.UnmarshalBinary lib std loc b =
        some (Index.SortEntries lib std { index := i }) := by
      unfold Index.UnmarshalBinary
      simp only [hdecode]
    rcases hd : (Index.SortEntries lib std { index := i }).Delete act.chartName act.version
      with ⟨idx', url, e⟩
    rw [hd] at hdel
    simp only at hdel
    subst hdel
    unfold deleteAction.run
    simp only [hrepo, hfetch, hidx, hd]
  · intro act chart repo hash json bucket key ibucket ikey b i err hdry hchart hrepo hcache
      hprov huri hhead hopen hdigest hjson hput hputProv hiuri hget hdecode hmut
    have hfetch := FetchRaw_of_get std client repo.IndexURL ibucket ikey b hiuri hget
    have hidx : Index.UnmarshalBinary lib std loc b =
        some (Index.SortEntries lib std { index := i }) := by
      unfold Index.UnmarshalBinary
      simp only [hdecode]
    have hexists : ∃ objectExists,
        Storage.Exists std client (repo.URL ++ "/" ++ filepathBase act.chartPath) =
          ([Request.headObject bucket key], Except.ok objectExists) ∧
        ¬ (objectExists = true ∧ act.force = false) := by
      rcases hhead with ⟨attrs, hok, hforce⟩ | hnot
      · refine ⟨true, Exists_of_head std client _ bucket key attrs huri hok, ?_⟩
        rw [hforce]
        simp
      · refine ⟨false, Exists_of_not_found std client _ bucket key huri hnot, ?_⟩
        simp
    obtain ⟨objectExists, hexists, hgo⟩ := hexists
    have hupload : pushAction.uploadChart std client charts act repo chart
        (filepathBase act.chartPath) hash
        (loc.Open (act.chartPath ++ ".prov") = OpenResult.opened) =
        (Request.putObject bucket key (Payload.file act.chartPath) (some "application/gzip")
            (assembleObjectMetadata json hash) ::
          (if loc.Open (act.chartPath ++ ".prov") = OpenResult.opened then
            [Request.putObject bucket (key ++ ".prov")
              (Payload.file (act.chartPath ++ ".prov")) none none]
          else []), none) := by
      unfold pushAction.uploadChart
      simp only [hdry, Bool.not_false, if_true, hjson]
      rw [PutChart_of_put std client _ act.chartPath json hash "application/gzip" bucket key
        _ huri hput (by simpa using hputProv)]
      simp
    rcases hm : Index.AddOrReplace lib loc.now (Index.SortEntries lib std { index := i })
      (Value.chartMetadata chart) (filepathBase act.chartPath) "" hash with ⟨idx', e, p⟩
    rw [hm] at hmut
    simp only at hmut
    subst hmut
    have hp : p = false := by
      have hshape : (Index.AddOrReplace lib loc.now (Index.SortEntries lib std { index := i })
          (Value.chartMetadata chart) (filepathBase act.chartPath) "" hash).panics = true →
          (Index.AddOrReplace lib loc.now (Index.SortEntries lib std { index := i })
            (Value.chartMetadata chart) (filepathBase act.chartPath) "" hash).err = none :=
        AddOrReplace_panics_err lib loc.now _ _ _ _ _
      rw [hm] at hshape
      cases p with
      | false => rfl
      | true => exact absurd (hshape rfl) (by simp)
    subst hp
    have hupdate : pushAction.updateIndex lib std client loc act repo chart
        (filepathBase act.chartPath) hash =
        { err := some (RunError.addOrReplace err), requests := [Request.getObject ibucket ikey] } := by
      unfold pushAction.updateIndex
      simp only [hfetch, hidx, hm]
    unfold pushAction.run
    simp only [hchart, hrepo, if_neg hcache, hexists, if_neg hgo, hopen, hdigest]
    cases hp : loc.Open (act.chartPath ++ ".prov") with
    | failed => exact absurd hp hprov
    | opened =>
      rw [hp] at hupload
      simp only [decide_True, if_true] at hupload ⊢
      simp only [hupload, hupdate]
      rfl
    | notExist =>
      rw [hp] at hupload
      simp only [reduceCtorEq, decide_False, if_false] at hupload ⊢
      simp only [hupload, hupdate]
      rfl

/-- Witness of C19, amended: deleting `app` 1.0 from a catalog that holds 1.0.0 fails
after the get of the index alone; pushing `app` 1.0.0 onto a catalog whose entry of
`app` does not parse fails after the chart has been uploaded. -/
theorem failed_mutation_writes_witness :
    deleteAction.run helmLib goStd
      (bucketClient [{ key := "charts/index.yaml", attrs := [], body := "doc" }])
      (toyLocal (decodeAs "app" ["1.0.0"]))
      { chartName := "app", repoOrURI := "oss://bucket/charts", version := "1.0" } =
      { err := some (RunError.delete (Error.notFound "app" "1.0"))
        requests := [Request.getObject "bucket" "charts/index.yaml"] } ∧
    pushAction.run helmLib goStd
      (bucketClient [{ key := "charts/index.yaml", attrs := [], body := "doc" }])
      (toyCharts (some (descriptor "app" "1.0.0"))) (toyLocal (decodeAs "app" ["bad"]))
      { chartPath := "./app-1.0.0.tgz", repoOrURI := "oss://bucket/charts", dryRun := false,
        force := false } =
      { err := some (RunError.addOrReplace (Error.invalidSemVer "bad"))
        requests :=
          [Request.headObject "bucket" "charts/app-1.0.0.tgz",
           Request.putObject "bucket" "charts/app-1.0.0.tgz" (Payload.file "./app-1.0.0.tgz")
             (some "application/gzip")
             (some [("chart-metadata", "app:1.0.0"), ("chart-digest", "sha:./app-1.0.0.tgz")]),
           Request.getObject "bucket" "charts/index.yaml"] } :=
  ⟨(failed_mutation_writes helmLib goStd
      (bucketClient [{ key := "charts/index.yaml", attrs := [], body := "doc" }])
      (toyCharts none) (toyLocal (decodeAs "app" ["1.0.0"]))).1
      { chartName := "app", repoOrURI := "oss://bucket/charts", version := "1.0" }
      (Repository.remoteRepository "oss://bucket/charts")
      "bucket" "charts/index.yaml" "doc" (indexOf "app" ["1.0.0"]).index
      (Error.notFound "app" "1.0") rfl rfl rfl rfl (by decide),
   (failed_mutation_writes helmLib goStd
      (bucketClient [{ key := "charts/index.yaml", attrs := [], body := "doc" }])
      (toyCharts (some (descriptor "app" "1.0.0"))) (toyLocal (decodeAs "app" ["bad"]))).2
      { chartPath := "./app-1.0.0.tgz", repoOrURI := "oss://bucket/charts", dryRun := false,
        force := false }
      (descriptor "app" "1.0.0") (Repository.remoteRepository "oss://bucket/charts")
      "sha:./app-1.0.0.tgz" "app:1.0.0" "bucket" "charts/app-1.0.0.tgz" "bucket"
      "charts/index.yaml" "doc" (indexOf "app" ["bad"]).index
      (Error.invalidSemVer "bad")
      rfl rfl rfl (by decide) (by decide) rfl
      (Or.inr (Or.inr ⟨404, "NoSuchKey", rfl, Or.inl rfl⟩))
      rfl rfl rfl rfl (fun h => absurd h (by decide)) rfl rfl rfl (by decide)⟩

/-- Counterexample to C19 as stated: the catalog on the store holds an entry of `app`
whose version does not parse; the push of `app` 1.0.0 fails in `AddOrReplace` and
returns an error, and the put request for the chart has been issued before. -/
theorem failed_mutation_writes_counterexample :
    pushAction.run helmLib goStd
      (bucketClient [{ key := "charts/index.yaml", attrs := [], body := "doc" }])
      (toyCharts (some (descriptor "app" "1.0.0"))) (toyLocal (decodeAs "app" ["bad"]))
      { chartPath := "./app-1.0.0.tgz", repoOrURI := "oss://bucket/charts", dryRun := false,
        force := false } =
    { err := some (RunError.addOrReplace (Error.invalidSemVer "bad"))
      requests :=
        [Request.headObject "bucket" "charts/app-1.0.0.tgz",
         Request.putObject "bucket" "charts/app-1.0.0.tgz" (Payload.file "./app-1.0.0.tgz")
           (some "application/gzip")
           (some [("chart-metadata", "app:1.0.0"), ("chart-digest", "sha:./app-1.0.0.tgz")]),
         Request.getObject "bucket" "charts/index.yaml"] } ∧
    (Request.putObject "bucket" "charts/app-1.0.0.tgz" (Payload.file "./app-1.0.0.tgz")
      (some "application/gzip")
      (some [("chart-metadata", "app:1.0.0"), ("chart-digest", "sha:./app-1.0.0.tgz")])).isWrite =
      true := by
  decide

/-! ## The rebuild of the index -/

theorem scanObject_reads (std : Std) (client : Client) (charts : Charts)
    (bucket prefixKey objKey : String) :
    ∀ req ∈ (scanObject std client charts bucket prefixKey objKey).1, req.isWrite = false := by
  unfold scanObject
  simp only
  repeat' split
  all_goals simp [Request.isWrite]

theorem scanObjects_reads (std : Std) (client : Client) (charts : Charts)
    (bucket prefixKey : String) : ∀ keys : List String,
    ∀ req ∈ (scanObjects std client charts bucket prefixKey keys).1.requests,
      req.isWrite = false := by
  intro keys
  induction keys with
  | nil => simp [scanObjects]
  | cons k rest ih =>
    have hk := scanObject_reads std client charts bucket prefixKey k
    unfold scanObjects
    rcases hres : scanObject std client charts bucket prefixKey k with ⟨reqs, res⟩
    rw [hres] at hk
    cases res with
    | failed err => exact hk
    | skipped =>
      intro req hreq
      simp only [List.mem_append] at hreq
      rcases hreq with h | h
      · exact hk req h
      · exact ih req h
    | item info =>
      intro req hreq
      simp only [List.mem_append] at hreq
      rcases hreq with h | h
      · exact hk req h
      · exact ih req h

theorem scanPages_reads (std : Std) (client : Client) (charts : Charts)
    (bucket prefixKey : String) : ∀ (fuel : Nat) (token : Option String) (r : TraverseResult),
    scanPages std client charts bucket prefixKey fuel token = some r →
    ∀ req ∈ r.requests, req.isWrite = false := by
  intro fuel
  induction fuel with
  | zero => intro token r h; simp [scanPages] at h
  | succ fuel ih =>
    intro token r h
    unfold scanPages at h
    cases hlist : client.ListObjectsV2 bucket prefixKey token with
    | error err =>
      rw [hlist] at h
      cases h
      simp [Request.isWrite]
    | ok listOut =>
      rw [hlist] at h
      simp only at h
      have hobj := scanObjects_reads std client charts bucket prefixKey listOut.Contents
      have hhere : ∀ req ∈ Request.listObjectsV2 bucket prefixKey token ::
          (scanObjects std client charts bucket prefixKey listOut.Contents).1.requests,
          req.isWrite = false := by
        intro req hreq
        rcases List.mem_cons.mp hreq with h1 | h1
        · rw [h1]
          rfl
        · exact hobj req h1
      by_cases hstop : (scanObjects std client charts bucket prefixKey listOut.Contents).2 = false
      · rw [if_pos hstop] at h
        cases h
        exact hhere
      · rw [if_neg hstop] at h
        by_cases htr : (!listOut.IsTruncated) = true
        · rw [if_pos htr] at h
          cases h
          exact hhere
        · rw [if_neg htr] at h
          cases htok : listOut.NextContinuationToken with
          | none =>
            rw [htok] at h
            cases h
            exact hhere
          | some tok =>
            rw [htok] at h
            simp only at h
            by_cases hempty : tok = ""
            · rw [if_pos hempty] at h
              cases h
              exact hhere
            · rw [if_neg hempty] at h
              cases hrec : scanPages std client charts bucket prefixKey fuel (some tok) with
              | none => rw [hrec] at h; cases h
              | some r' =>
                rw [hrec] at h
                simp only [Option.map_some', Option.some.injEq] at h
                subst h
                intro req hreq
                simp only [TraverseResult.append, List.mem_append] at hreq
                rcases hreq with h1 | h1
                · exact hhere req h1
                · exact ih (some tok) r' hrec req h1

theorem traverse_reads (std : Std) (client : Client) (charts : Charts) (repoURI : String)
    (fuel : Nat) (t : TraverseResult)
    (h : Storage.traverse std client charts repoURI fuel = some t) :
    ∀ req ∈ t.requests, req.isWrite = false := by
  unfold Storage.traverse at h
  split at h
  · cases h
    simp
  · exact scanPages_reads std client charts _ _ fuel none t h

theorem sortSort_perm (std : Std) (hperm : ∀ less l, (std.pdqsort less l).Perm l)
    (less : ChartVersion → ChartVersion → Bool) (l : ChartVersions) :
    (sortSort std less l).Perm l := by
  unfold sortSort
  split
  · exact insertionSort_perm less l
  · exact hperm less l

theorem builtIndex_versionsAt (lib : Lib) (std : Std) (loc : Local)
    (hperm : ∀ less l, (std.pdqsort less l).Perm l) (items : List ChartInfo) (name : String) :
    (versionsAt (reindexAction.builtIndex lib std loc items) name).Perm
      (((acceptedDescriptors lib items).filter fun e => e.Name = name).map
        Metadata.Version) := by
  have hbuilt := consume_versionsAt lib loc.clock name items NewIndex 0 rfl
  have hnew : versionsAt NewIndex name = [] := rfl
  rw [hnew, List.nil_append] at hbuilt
  rw [← hbuilt]
  unfold reindexAction.builtIndex buildIndex versionsAt Index.UpdateGeneratedTime
    Index.SortEntries
  simp only
  cases (consume lib loc.clock NewIndex 0 items).index.Entries name with
  | none => simp
  | some l =>
    simp only [Option.map_some', Option.getD_some]
    exact (sortSort_perm std hperm (reverseLess lib) l).map _

theorem PutIndex_requests (std : Std) (client : Client) (uri data : String) :
    ∀ req ∈ (Storage.PutIndex std client uri data).1,
      ∃ bucket key, req = Request.putObject bucket key (Payload.bytes data) none none := by
  unfold Storage.PutIndex
  repeat' split
  all_goals simp

/-- The writes of a run of reindex: none after a scan with an error; otherwise at most
the put of the index built from the records, whose lists hold the versions that
`Index.Add` accepted. -/
theorem reindex_run_writes (lib : Lib) (std : Std) (client : Client)
    (charts : Charts) (loc : Local) (act : reindexAction) (fuel : Nat) (repo : Repository)
    (t : TraverseResult)
    (hperm : ∀ less l, (std.pdqsort less l).Perm l)
    (hrepo : NewRepository loc act.repoOrURI = some repo)
    (ht : Storage.traverse std client charts repo.URL fuel = some t) :
    ∃ r, reindexAction.run lib std client charts loc act fuel = some r ∧
      (t.errs ≠ [] → r.err ≠ none ∧ ∀ req ∈ r.requests, req.isWrite = false) ∧
      (∀ req ∈ r.requests, req.isWrite = true →
        t.errs = [] ∧
        ∃ bucket key data, req = Request.putObject bucket key (Payload.bytes data) none none ∧
          loc.Marshal (reindexAction.builtIndex lib std loc t.items) = some data) ∧
      (∀ name, (versionsAt (reindexAction.builtIndex lib std loc t.items) name).Perm
        (((acceptedDescriptors lib t.items).filter fun e => e.Name = name).map
          Metadata.Version)) := by
  have hreads := traverse_reads std client charts repo.URL fuel t ht
  have hnowrite : ∀ req ∈ t.requests, req.isWrite = true → False := by
    intro req hreq hw
    rw [hreads req hreq] at hw
    cases hw
  unfold reindexAction.run
  simp only [hrepo, ht]
  cases herrs : t.errs with
  | cons err rest =>
    refine ⟨_, rfl, fun _ => ⟨by simp, hreads⟩, ?_,
      fun name => builtIndex_versionsAt lib std loc hperm t.items name⟩
    intro req hreq hw
    exact absurd hw (by rw [hreads req hreq]; simp)
  | nil =>
    simp only
    cases hmarshal : loc.Marshal (reindexAction.builtIndex lib std loc t.items) with
    | none =>
      refine ⟨_, rfl, fun h => absurd rfl h, ?_,
        fun name => builtIndex_versionsAt lib std loc hperm t.items name⟩
      intro req hreq hw
      exact absurd hw (by rw [hreads req hreq]; simp)
    | some data =>
      simp only
      have hput := PutIndex_requests std client repo.URL data
      rcases hp : Storage.PutIndex std client repo.URL data with ⟨reqs, e⟩
      rw [hp] at hput
      have hwrites : ∀ req ∈ t.requests ++ reqs, req.isWrite = true →
          True ∧
          ∃ bucket key data', req = Request.putObject bucket key (Payload.bytes data') none none ∧
            some data = some data' := by
        intro req hreq hw
        rcases List.mem_append.mp hreq with h1 | h1
        · exact absurd hw (by rw [hreads req h1]; simp)
        · obtain ⟨bucket, key, hreq'⟩ := hput req h1
          exact ⟨trivial, bucket, key, data, hreq', rfl⟩
      cases e with
      | some err =>
        exact ⟨_, rfl, fun h => absurd rfl h, hwrites,
          fun name => builtIndex_versionsAt lib std loc hperm t.items name⟩
      | none =>
        simp only
        split
        · exact ⟨_, rfl, fun h => absurd rfl h, hwrites,
            fun name => builtIndex_versionsAt lib std loc hperm t.items name⟩
        · exact ⟨_, rfl, fun h => absurd rfl h, hwrites,
            fun name => builtIndex_versionsAt lib std loc hperm t.items name⟩

/-- C14, amended: when the scan reports an error, `reindexAction.run` returns an error
and issues no write to the store. A record that `Index.Add` rejects is not an error of
the run: the only write a run issues is the upload of the index built from the records
of a scan without error, and in that index the list of every package holds exactly the
versions of the records of that package which `Index.Add` accepted, one entry for each.
After a scan without error the run goes on to that upload, whatever records `Index.Add`
has rejected: the put of the encoded index follows the requests of the scan, and the run
returns no error when the put and the update of the cache succeed. Sorting returns a
permutation of its input. -/
theorem reindex_uploads_accepted_records (lib : Lib) (std : Std) (client : Client)
    (charts : Charts) (loc : Local) (act : reindexAction) (fuel : Nat) (repo : Repository)
    (t : TraverseResult)
    (hperm : ∀ less l, (std.pdqsort less l).Perm l)
    (hrepo : NewRepository loc act.repoOrURI = some repo)
    (ht : Storage.traverse std client charts repo.URL fuel = some t) :
    ∃ r, reindexAction.run lib std client charts loc act fuel = some r ∧
      (t.errs ≠ [] → r.err ≠ none ∧ ∀ req ∈ r.requests, req.isWrite = false) ∧
      (∀ req ∈ r.requests, req.isWrite = true →
        t.errs = [] ∧
        ∃ bucket key data, req = Request.putObject bucket key (Payload.bytes data) none none ∧
          loc.Marshal (reindexAction.builtIndex lib std loc t.items) = some data) ∧
      (∀ name, (versionsAt (reindexAction.builtIndex lib std loc t.items) name).Perm
        (((acceptedDescriptors lib t.items).filter fun e => e.Name = name).map
          Metadata.Version)) ∧
      (t.errs = [] → ∀ data bucket key,
        loc.Marshal (reindexAction.builtIndex lib std loc t.items) = some data →
        HasPrefix repo.URL "index.yaml" = false →
        parseURI std (IndexFileURL repo.URL) = Except.ok (bucket, key) →
        r.requests =
          t.requests ++ [Request.putObject bucket key (Payload.bytes data) none none] ∧
        (client.PutObject bucket key = none →
          (repo.ShouldUpdateCache = true →
            loc.WriteFile repo.CacheFile (reindexAction.builtIndex lib std loc t.items) =
              true) →
          r.err = none)) := by
  obtain ⟨r, hr, h1, h2, h3⟩ := reindex_run_writes lib std client charts loc act fuel repo t
    hperm hrepo ht
  refine ⟨r, hr, h1, h2, h3, ?_⟩
  intro herrs data bucket key hmarshal hpre huri
  have hput : Storage.PutIndex std client repo.URL data =
      ([Request.putObject bucket key (Payload.bytes data) none none],
        match client.PutObject bucket key with
        | some err => some (StorageError.uploadIndex err)
        | none => none) := by
    unfold Storage.PutIndex
    simp only [hpre, Bool.false_eq_true, if_false, huri]
  unfold reindexAction.run at hr
  simp only [hrepo, ht, herrs, hmarshal, hput] at hr
  cases hclient : client.PutObject bucket key with
  | some err =>
    simp only [hclient, Option.some.injEq] at hr
    rw [← hr]
    exact ⟨rfl, fun h => absurd h (by simp)⟩
  | none =>
    simp only [hclient] at hr
    by_cases hcache : repo.ShouldUpdateCache = true ∧
        loc.WriteFile repo.CacheFile (reindexAction.builtIndex lib std loc t.items) = false
    · rw [if_pos hcache] at hr
      simp only [Option.some.injEq] at hr
      rw [← hr]
      refine ⟨rfl, fun _ hwrite => ?_⟩
      rw [hwrite hcache.1] at hcache
      exact absurd hcache.2 (by simp)
    · rw [if_neg hcache] at hr
      simp only [Option.some.injEq] at hr
      rw [← hr]
      exact ⟨rfl, fun _ _ => rfl⟩

/-- Witness of C14, amended: one archive of the bucket has a body that is no archive;
the scan reports the error, and the run returns an error and writes nothing. -/
theorem reindex_uploads_accepted_records_witness :
    ∃ r, reindexAction.run helmLib goStd
      (bucketClient
        [{ key := "charts/app-1.0.0.tgz", attrs := [], body := "app:1.0.0" },
         { key := "charts/app-1.1.0.tgz", attrs := [], body := "garbage" }])
      (toyCharts none) (toyLocal (decodeAs "app" [])) { repoOrURI := "oss://bucket/charts" }
      1 = some r ∧ r.err ≠ none ∧ ∀ req ∈ r.requests, req.isWrite = false := by
  obtain ⟨r, hr, herr, _⟩ := reindex_uploads_accepted_records helmLib goStd
    (bucketClient
      [{ key := "charts/app-1.0.0.tgz", attrs := [], body := "app:1.0.0" },
       { key := "charts/app-1.1.0.tgz", attrs := [], body := "garbage" }])
    (toyCharts none) (toyLocal (decodeAs "app" [])) { repoOrURI := "oss://bucket/charts" } 1
    (Repository.remoteRepository "oss://bucket/charts")
    { items := [{ Meta := descriptor "app" "1.0.0", Filename := "app-1.0.0.tgz",
                  Hash := "sha:app:1.0.0" }]
      errs := [StorageError.loadArchive "app-1.1.0.tgz"]
      requests :=
        [Request.listObjectsV2 "bucket" "charts" none,
         Request.headObject "bucket" "charts/app-1.0.0.tgz",
         Request.getObject "bucket" "charts/app-1.0.0.tgz",
         Request.headObject "bucket" "charts/app-1.1.0.tgz",
         Request.getObject "bucket" "charts/app-1.1.0.tgz"] }
    (fun less l => insertionSort_perm less l) rfl (by decide)
  exact ⟨r, hr, herr (by simp)⟩

/-- Counterexample to C14 as stated: the scan emits a record whose descriptor has no
version; `Index.Add` returns an error for it, and yet the run returns no error and
uploads an index, which holds no entry for the record. -/
theorem reindex_uploads_accepted_records_counterexample :
    Storage.traverse goStd
      (bucketClient
        [{ key := "charts/app-x.tgz",
           attrs := [("chart-metadata", "app:"), ("chart-digest", "sha:x")],
           body := "app:1.0.0" }])
      (toyCharts none) "oss://bucket/charts" 1 =
      some
        { items := [{ Meta := descriptor "app" "", Filename := "app-x.tgz", Hash := "sha:x" }]
          errs := []
          requests :=
            [Request.listObjectsV2 "bucket" "charts" none,
             Request.headObject "bucket" "charts/app-x.tgz"] } ∧
    (Index.Add helmLib 0 NewIndex (Value.chartMetadata (descriptor "app" "")) "app-x.tgz" ""
      "sha:x").2 = some (Error.addFile (Error.validateFailed "app-x.tgz")) ∧
    reindexAction.run helmLib goStd
      (bucketClient
        [{ key := "charts/app-x.tgz",
           attrs := [("chart-metadata", "app:"), ("chart-digest", "sha:x")],
           body := "app:1.0.0" }])
      (toyCharts none) (toyLocal (decodeAs "app" [])) { repoOrURI := "oss://bucket/charts" } 1 =
      some
        { err := none
          requests :=
            [Request.listObjectsV2 "bucket" "charts" none,
             Request.headObject "bucket" "charts/app-x.tgz",
             Request.putObject "bucket" "charts/index.yaml" (Payload.bytes "index") none
               none] } ∧
    (reindexAction.builtIndex helmLib goStd (toyLocal (decodeAs "app" []))
      [{ Meta := descriptor "app" "", Filename := "app-x.tgz", Hash := "sha:x" }]).index.Entries
      "app" = none := by
  decide

/-! ## The guard of `IndexExists` and `PutIndex` -/

theorem PutIndex_guard (std : Std) (client : Client) (uri data : String)
    (hpre : HasPrefix uri "index.yaml" = true) :
    Storage.PutIndex std client uri data = ([], some StorageError.indexSuffix) := by
  unfold Storage.PutIndex
  rw [if_pos hpre]

theorem IndexExists_guard (std : Std) (client : Client) (uri : String)
    (hpre : HasPrefix uri "index.yaml" = true) :
    Storage.IndexExists std client uri = ([], Except.error StorageError.indexSuffix) := by
  unfold Storage.IndexExists
  rw [if_pos hpre]

/-- C21, the code at a failing input: the URI `oss://bucket/charts/index.yaml` has the
suffix `index.yaml`, and yet `PutIndex` does not return the error of its guard: it puts
the index at the key `charts/index.yaml/index.yaml` and returns no error, and
`IndexExists` asks the store for that key. The guard tests the prefix of the URI, which
is `oss://` for this URI. -/
theorem index_suffix_not_rejected :
    HasSuffix "oss://bucket/charts/index.yaml" "index.yaml" = true ∧
    HasPrefix "oss://bucket/charts/index.yaml" "index.yaml" = false ∧
    Storage.PutIndex goStd (bucketClient []) "oss://bucket/charts/index.yaml" "index" =
      ([Request.putObject "bucket" "charts/index.yaml/index.yaml" (Payload.bytes "index")
          none none], none) ∧
    Storage.IndexExists goStd (bucketClient []) "oss://bucket/charts/index.yaml" =
      ([Request.headObject "bucket" "charts/index.yaml/index.yaml"], Except.ok false) :=
  ⟨by decide, by decide, by decide, rfl⟩

/-! ## `AddOrReplace` leaves the index alone when it fails -/

theorem scanVersions_failed_mem (lib : Lib) (csv : semver.Version) :
    ∀ (entry : ChartVersions) (k : Nat) (s : String),
      scanVersions lib csv entry k = Scan.failed s →
      ∃ v ∈ entry, lib.NewVersion v.Version = none ∧ s = v.Version := by
  intro entry
  induction entry with
  | nil =>
    intro k s h
    unfold scanVersions at h
    cases h
  | cons x rest ih =>
    intro k s h
    unfold scanVersions at h
    cases hx : lib.NewVersion x.Version with
    | none =>
      rw [hx] at h
      simp only [Scan.failed.injEq] at h
      exact ⟨x, List.mem_cons_self _ _, hx, h.symm⟩
    | some w =>
      rw [hx] at h
      by_cases heq : csv.Equal w = true
      · simp only [heq, if_true] at h
        cases h
      · simp only [heq, if_false] at h
        obtain ⟨v, hv, hparse, hs⟩ := ih (k + 1) s h
        exact ⟨v, List.mem_cons_of_mem _ hv, hparse, hs⟩

/-- C22: when `AddOrReplace` returns an error, the index after the call is the index
before the call, and the error is one of three: the metadata is of another type, the new
version does not parse, or a stored version of the package does not parse. -/
theorem AddOrReplace_atomic_on_failure (lib : Lib) (now : Nat) (idx : Index)
    (metadata : Value) (filename baseURL digest : String) (err : Error)
    (herr : (Index.AddOrReplace lib now idx metadata filename baseURL digest).2 = some err) :
    (Index.AddOrReplace lib now idx metadata filename baseURL digest).1 = idx ∧
    ((metadata = Value.other ∧ err = Error.notChartMetadata) ∨
      (∃ md entry, metadata = Value.chartMetadata md ∧
        idx.index.Entries md.Name = some entry ∧
        ((lib.NewVersion md.Version = none ∧ err = Error.invalidSemVer md.Version) ∨
          (∃ v ∈ entry, lib.NewVersion v.Version = none ∧
            err = Error.invalidSemVer v.Version)))) := by
  cases metadata with
  | other =>
    unfold Index.AddOrReplace at herr ⊢
    simp only [Option.some.injEq] at herr
    exact ⟨rfl, Or.inl ⟨rfl, herr.symm⟩⟩
  | chartMetadata md =>
    cases hentry : idx.index.Entries md.Name with
    | none =>
      cases hmap : idx.index.nilEntries with
      | true =>
        rw [AddOrReplace_absent_nil lib now idx md filename baseURL digest hmap hentry]
          at herr
        cases herr
      | false =>
        rw [AddOrReplace_absent lib now idx md filename baseURL digest hmap hentry] at herr
        cases herr
    | some entry =>
      cases hnew : lib.NewVersion md.Version with
      | none =>
        rw [AddOrReplace_invalid lib now idx md filename baseURL digest hentry hnew] at herr ⊢
        simp only [Option.some.injEq] at herr
        exact ⟨rfl, Or.inr ⟨md, entry, rfl, hentry, Or.inl ⟨hnew, herr.symm⟩⟩⟩
      | some csv =>
        cases hscan : scanVersions lib csv entry 0 with
        | failed s =>
          rw [AddOrReplace_failed lib now idx md filename baseURL digest hentry hnew hscan]
            at herr ⊢
          simp only [Option.some.injEq] at herr
          obtain ⟨v, hv, hparse, hs⟩ := scanVersions_failed_mem lib csv entry 0 s hscan
          exact ⟨rfl, Or.inr ⟨md, entry, rfl, hentry, Or.inr ⟨v, hv, hparse, by rw [← herr, hs]⟩⟩⟩
        | found i =>
          rw [AddOrReplace_found lib now idx md filename baseURL digest hentry hnew hscan]
            at herr
          cases herr
        | done =>
          cases hmap : idx.index.nilEntries with
          | true =>
            rw [AddOrReplace_done_nil lib now idx md filename baseURL digest hmap hentry
              hnew hscan] at herr
            cases herr
          | false =>
            rw [AddOrReplace_done lib now idx md filename baseURL digest hmap hentry hnew
              hscan] at herr
            cases herr

/-- Witness of C22: the list of `app` holds a version that does not parse; the call for
`app` 1.0.0 returns an error and the index is the one before the call. -/
theorem AddOrReplace_atomic_on_failure_witness :
    (Index.AddOrReplace helmLib 5 (indexOf "app" ["1.1.0", "bad"])
      (Value.chartMetadata (descriptor "app" "1.0.0")) "app-1.0.0.tgz" "" "sha").2 =
      some (Error.invalidSemVer "bad") ∧
    (Index.AddOrReplace helmLib 5 (indexOf "app" ["1.1.0", "bad"])
      (Value.chartMetadata (descriptor "app" "1.0.0")) "app-1.0.0.tgz" "" "sha").1 =
      indexOf "app" ["1.1.0", "bad"] :=
  ⟨by decide,
    (AddOrReplace_atomic_on_failure helmLib 5 (indexOf "app" ["1.1.0", "bad"])
      (Value.chartMetadata (descriptor "app" "1.0.0")) "app-1.0.0.tgz" "" "sha"
      (Error.invalidSemVer "bad") (by decide)).1⟩

/-! ## The file name of a record and the key of its object -/

theorem scanObject_item_filename (std : Std) (client : Client) (charts : Charts)
    (bucket prefixKey objKey : String) (info : ChartInfo)
    (hitem : (scanObject std client charts bucket prefixKey objKey).2 =
      ObjectResult.item info) :
    info.Filename = relativeKey prefixKey objKey := by
  unfold scanObject at hitem
  simp only at hitem
  repeat' split at hitem
  all_goals first
    | (cases hitem; done)
    | (simp only [ObjectResult.item.injEq] at hitem
       rw [← hitem])

theorem TrimPrefix_append (pre rest : String) : TrimPrefix (pre ++ rest) pre = rest := by
  unfold TrimPrefix HasPrefix
  have h : pre.toList.isPrefixOf (pre ++ rest).toList = true := by
    rw [List.isPrefixOf_iff_prefix, String.toList, String.toList, String.data_append]
    exact List.prefix_append _ _
  rw [if_pos h]
  simp [String.toList, String.data_append]

theorem TrimPrefix_of_not_prefix (s pre : String) (h : HasPrefix s pre = false) :
    TrimPrefix s pre = s := by
  unfold TrimPrefix
  simp [h]

theorem TrimSuffix_append_eq (s suf : String) (h : HasSuffix s suf = true) :
    TrimSuffix s suf ++ suf = s := by
  unfold TrimSuffix
  rw [if_pos h]
  unfold HasSuffix at h
  rw [List.isSuffixOf_iff_suffix] at h
  obtain ⟨t, ht⟩ := h
  apply String.ext
  simp only [String.data_append, String.toList] at ht ⊢
  rw [← ht]
  simp

/-- The relative key of an object directly below the repository prefix is the name of
the object: the key is the prefix without its trailing slash, a slash, and a name
that does not start with a slash. -/
theorem relativeKey_of_child (prefixKey name : String) (hname : HasPrefix name "/" = false) :
    relativeKey prefixKey (TrimSuffix prefixKey "/" ++ "/" ++ name) = name := by
  unfold relativeKey
  by_cases hs : HasSuffix prefixKey "/" = true
  · rw [TrimSuffix_append_eq prefixKey "/" hs, TrimPrefix_append,
      TrimPrefix_of_not_prefix name "/" hname]
  · have hts : TrimSuffix prefixKey "/" = prefixKey := by
      unfold TrimSuffix
      rw [if_neg hs]
    rw [hts, String.append_assoc, TrimPrefix_append, TrimPrefix_append]

/-- With the empty prefix the relative key of an object is its key, when the key does
not start with a slash. -/
theorem relativeKey_empty_prefix (name : String) (hname : HasPrefix name "/" = false) :
    relativeKey "" name = name := by
  unfold relativeKey
  have h : TrimPrefix name "" = name := by
    have := TrimPrefix_append "" name
    simpa using this
  rw [h, TrimPrefix_of_not_prefix name "/" hname]

/-- Where the key of a listed object is the prefix without its trailing slash, a slash
and a name that does not start with a slash, the record that the scan emits for the
object has that name as its file name, so that the same join gives back the key. -/
theorem scanObject_filename_of_child (std : Std) (client : Client) (charts : Charts)
    (bucket prefixKey name : String) (info : ChartInfo)
    (hname : HasPrefix name "/" = false)
    (hitem : (scanObject std client charts bucket prefixKey
      (TrimSuffix prefixKey "/" ++ "/" ++ name)).2 = ObjectResult.item info) :
    TrimSuffix prefixKey "/" ++ "/" ++ info.Filename =
      TrimSuffix prefixKey "/" ++ "/" ++ name := by
  rw [scanObject_item_filename std client charts bucket prefixKey _ info hitem,
    relativeKey_of_child prefixKey name hname]

/-- C23, the code at a failing input: the repository is `oss://bucket/charts` and the
bucket holds an object with the key `charts_app-1.0.0.tgz`, which the store lists for
the prefix `charts`. The scan emits a record for it with the file name
`_app-1.0.0.tgz`; the delete workflow joins the repository URL and that file name to a
URI whose key is `charts/_app-1.0.0.tgz`, which is not the key of the object. -/
theorem record_filename_misses_object :
    Storage.traverse goStd
      (bucketClient [{ key := "charts_app-1.0.0.tgz", attrs := [], body := "app:1.0.0" }])
      (toyCharts none) "oss://bucket/charts" 1 =
      some
        { items := [{ Meta := descriptor "app" "1.0.0", Filename := "_app-1.0.0.tgz",
                      Hash := "sha:app:1.0.0" }]
          errs := []
          requests :=
            [Request.listObjectsV2 "bucket" "charts" none,
             Request.headObject "bucket" "charts_app-1.0.0.tgz",
             Request.getObject "bucket" "charts_app-1.0.0.tgz"] } ∧
    parseURI goStd
      (deleteAction.chartURL (Repository.remoteRepository "oss://bucket/charts")
        "_app-1.0.0.tgz") = Except.ok ("bucket", "charts/_app-1.0.0.tgz") ∧
    "charts/_app-1.0.0.tgz" ≠ "charts_app-1.0.0.tgz" :=
  ⟨by decide, rfl, by decide⟩

/-! ## The nil map of a decoded index -/

/-- On an index whose map is nil, `AddOrReplace` with a chart descriptor panics and
returns nothing, whatever the name: a nil map holds no name. -/
theorem AddOrReplace_nil_map_panics (lib : Lib) (now : Nat) (idx : Index) (md : Metadata)
    (filename baseURL digest : String) (hmap : idx.index.nilEntries = true)
    (hempty : ∀ name, idx.index.Entries name = none) :
    (Index.AddOrReplace lib now idx (Value.chartMetadata md) filename baseURL digest).panics =
      true ∧
    (Index.AddOrReplace lib now idx (Value.chartMetadata md) filename baseURL digest).1 =
      idx := by
  rw [AddOrReplace_absent_nil lib now idx md filename baseURL digest hmap (hempty md.Name)]
  exact ⟨rfl, rfl⟩

/-- The index document on the store has no `entries`: the push of `app` 1.0.0 uploads
the chart, fetches the index, and ends in the panic of `AddOrReplace`; no index is
uploaded. -/
theorem push_onto_nil_map_panics :
    pushAction.run helmLib goStd
      (bucketClient [{ key := "charts/index.yaml", attrs := [], body := "apiVersion: v1" }])
      (toyCharts (some (descriptor "app" "1.0.0"))) (toyLocal decodeWithoutEntries)
      { chartPath := "./app-1.0.0.tgz", repoOrURI := "oss://bucket/charts", dryRun := false,
        force := false } =
      { err := some RunError.nilMapPanic
        requests :=
          [Request.headObject "bucket" "charts/app-1.0.0.tgz",
           Request.putObject "bucket" "charts/app-1.0.0.tgz" (Payload.file "./app-1.0.0.tgz")
             (some "application/gzip")
             (some [("chart-metadata", "app:1.0.0"), ("chart-digest", "sha:./app-1.0.0.tgz")]),
           Request.getObject "bucket" "charts/index.yaml"] } := by
  decide

end HelmOss
